import Mathlib

/-!
# devEMF: the EMF record stream written by `CDevEMF` (src/devEMF.cpp)

A shallow embedding of the class `CDevEMF`.

* The output file `m_File` is the list of its bytes (each a `Nat` below 256); the
  stream is taken to be good (a write that fails is not modelled).
* `double` values are exact rationals, `int` values are integers; every value is
  reduced modulo `2^32` (or `2^8`, `2^16`) at the moment it is serialised.
  The counters `m_NumRecords` and `m_LastHandle` are C `int`s: the model lets
  them grow without bound (signed overflow has no defined behaviour).
* `std::set` caches are lists in insertion order; `find` is a search for an
  entry that the comparator calls equivalent.
* `Rf_error` leaves the running call at once: the state reached so far stays.
* `written` and `warnings` are not members of the C++ class: they record the
  argument of every `x_WriteRcd` call and every `Rf_warning`, in order.
* `emf.h` (record structures, their `Serialize`, the comparators) and the R
  headers are not among the sources; what the model needs of them is stated
  where it is defined.
-/

namespace DevEMF

/-! ## Little-endian scalars (`EMF::TUInt4` and relatives, emf.h) -/

/-- The four little-endian bytes of `EMF::TUInt4(v)`: the value is an
`unsigned int`, so it is reduced modulo `2^32`. -/
def TUInt4 (v : Nat) : List Nat :=
  [v % 256, v / 256 % 256, v / 65536 % 256, v / 16777216 % 256]

/-- The four bytes of a signed 32-bit value (two's complement). -/
def TInt4 (v : Int) : List Nat := TUInt4 (v % 4294967296).toNat

/-- The two little-endian bytes of a 16-bit value. -/
def TUInt2 (v : Nat) : List Nat := [v % 256, v / 256 % 256]

/-- One byte. -/
def TUInt1 (v : Nat) : List Nat := [v % 256]

/-- The unsigned 32-bit little-endian value stored at offset `off` of `b`. -/
def readUInt4 (b : List Nat) (off : Nat) : Nat :=
  b.getD off 0 + 256 * b.getD (off + 1) 0 + 65536 * b.getD (off + 2) 0
    + 16777216 * b.getD (off + 3) 0

/-! ## R graphics engine (R_ext/GraphicsEngine.h), as far as the device reads it -/

/-- The fields of R's graphics context `R_GE_gcontext` that the device reads. -/
structure GEcontext where
  col : Int
  fill : Int
  lwd : ℚ
  lty : Int
  lend : Int
  ljoin : Int
  lmitre : ℚ
  cex : ℚ
  ps : ℚ
  fontface : Int
  fontfamily : List Nat
deriving DecidableEq

def R_RED (col : Int) : Nat := (col % 256).toNat
def R_GREEN (col : Int) : Nat := (col / 256 % 256).toNat
def R_BLUE (col : Int) : Nat := (col / 65536 % 256).toNat
def R_ALPHA (col : Int) : Nat := (col / 16777216 % 256).toNat
def R_OPAQUE (col : Int) : Bool := R_ALPHA col == 255
def R_TRANSPARENT (col : Int) : Bool := R_ALPHA col == 0
def R_TRANWHITE : Int := 0x00FFFFFF

def LTY_SOLID : Int := 0
def LTY_DASHED : Int := 4 + 4 * 16
def LTY_DOTTED : Int := 1 + 3 * 16
def LTY_DOTDASH : Int := 1 + 3 * 16 + 4 * 256 + 3 * 4096
def LTY_LONGDASH : Int := 7 + 3 * 16

def GE_ROUND_CAP : Int := 1
def GE_BUTT_CAP : Int := 2
def GE_SQUARE_CAP : Int := 3
def GE_ROUND_JOIN : Int := 1
def GE_MITRE_JOIN : Int := 2
def GE_BEVEL_JOIN : Int := 3

/-! ## Conversions of `double` -/

/-- Conversion of a `double` to `int`: the fraction is dropped (towards zero). -/
def truncToInt (q : ℚ) : Int := if 0 ≤ q then ⌊q⌋ else ⌈q⌉

/-- C `lround`: the nearest integer, halves away from zero. -/
def lround (q : ℚ) : Int := if 0 ≤ q then ⌊q + 1 / 2⌋ else ⌈q - 1 / 2⌉

/-- `static int x_Inches2Dev(double inches) { return 2540*inches;}` -/
def x_Inches2Dev (inches : ℚ) : Int := truncToInt (2540 * inches)

/-- `x_EffPointsize`: `floor(gc->cex * gc->ps + 0.5)`, a `double`. -/
def x_EffPointsize (gc : GEcontext) : ℚ := (⌊gc.cex * gc.ps + 1 / 2⌋ : Int)

/-! ## EMF constants (emf.h; the values are those of the EMF format) -/

namespace EMF

def eEMR_HEADER : Nat := 1
def eEMR_POLYGON : Nat := 3
def eEMR_POLYLINE : Nat := 4
def eEMR_EOF : Nat := 14
def eEMR_SETMAPMODE : Nat := 17
def eEMR_SETBKMODE : Nat := 18
def eEMR_SETTEXTALIGN : Nat := 22
def eEMR_SETTEXTCOLOR : Nat := 24
def eEMR_SELECTOBJECT : Nat := 37
def eEMR_CREATEBRUSHINDIRECT : Nat := 39
def eEMR_ELLIPSE : Nat := 42
def eEMR_RECTANGLE : Nat := 43
def eEMR_SETMITERLIMIT : Nat := 58
def eEMR_EXTCREATEFONTINDIRECTW : Nat := 82
def eEMR_EXTTEXTOUTW : Nat := 84
def eEMR_EXTCREATEPEN : Nat := 95

def ePS_SOLID : Nat := 0
def ePS_DASH : Nat := 1
def ePS_DOT : Nat := 2
def ePS_DASHDOT : Nat := 3
def ePS_DASHDOTDOT : Nat := 4
def ePS_NULL : Nat := 5
def ePS_USERSTYLE : Nat := 7
def ePS_ENDCAP_ROUND : Nat := 0x0000
def ePS_ENDCAP_SQUARE : Nat := 0x0100
def ePS_ENDCAP_FLAT : Nat := 0x0200
def ePS_JOIN_ROUND : Nat := 0x0000
def ePS_JOIN_BEVEL : Nat := 0x1000
def ePS_JOIN_MITER : Nat := 0x2000
def ePS_GEOMETRIC : Nat := 0x10000

def eBS_SOLID : Nat := 0
def eBS_NULL : Nat := 1

def eFontWeight_normal : Int := 400
def eFontWeight_bold : Int := 700
def eDEFAULT_CHARSET : Nat := 1
def eOUT_STROKE_PRECIS : Nat := 3
def eCLIP_DEFAULT_PRECIS : Nat := 0
def eDEFAULT_QUALITY : Nat := 0
def eFF_DONTCARE : Nat := 0
def eDEFAULT_PITCH : Nat := 0

def eTA_LEFT : Nat := 0
def eTA_RIGHT : Nat := 2
def eTA_CENTER : Nat := 6
def eTA_BASELINE : Nat := 24

def eTRANSPARENT : Nat := 1
def eMM_TEXT : Nat := 1
def eGM_COMPATIBLE : Nat := 1

/-! ## EMF record structures (emf.h) -/

structure SPoint where
  x : Int
  y : Int
deriving DecidableEq

structure SSize where
  cx : Int
  cy : Int
deriving DecidableEq

structure SRect where
  left : Int
  top : Int
  right : Int
  bottom : Int
deriving DecidableEq

/-- A colour as `color.Set(red, green, blue)` stores it. -/
structure SColorRef where
  red : Nat
  green : Nat
  blue : Nat
deriving DecidableEq

/-- The header record; the fields are those `x_CreateRcdHeader` assigns. -/
structure SHeader where
  bounds : SRect
  frame : SRect
  signature : Nat
  version : Nat
  nBytes : Nat
  nRecords : Nat
  nHandles : Nat
  reserved : Nat
  nDescription : Nat
  offDescription : Nat
  nPalEntries : Nat
  device : SSize
  millimeters : SSize
  cbPixelFormat : Nat
  offPixelFormat : Nat
  bOpenGL : Nat
  micrometers : SSize
  desc : List Nat
deriving DecidableEq

/-- The logical pen `elp` of `S_EXTCREATEPEN`. -/
structure SExtLogPen where
  penStyle : Nat
  width : Int
  brushStyle : Nat
  color : SColorRef
  brushHatch : Nat
  numEntries : Nat
deriving DecidableEq

/-- The pen creation record `S_EXTCREATEPEN`. -/
structure S_EXTCREATEPEN where
  ihPen : Nat
  offBmi : Nat
  cbBmi : Nat
  offBits : Nat
  cbBits : Nat
  elp : SExtLogPen
  styleEntries : List Nat
deriving DecidableEq

/-- The logical brush `lb` of the brush creation record. -/
structure SLogBrush where
  brushStyle : Nat
  color : SColorRef
  brushHatch : Nat
deriving DecidableEq

/-- The brush creation record (`EMF::SBrush`). -/
structure SBrush where
  ihBrush : Nat
  lb : SLogBrush
deriving DecidableEq

/-- The logical font `lf`. `FontPtrCmp` compares it with `memcmp` over
`sizeof(EMF::SLogFont)`, so the face name lies inside the structure: it is the
64-byte array (32 UTF-16 units) of the EMF format. -/
structure SLogFont where
  height : Int
  width : Int
  escapement : Int
  orientation : Int
  weight : Int
  italic : Nat
  underline : Nat
  strikeOut : Nat
  charSet : Nat
  outPrecision : Nat
  clipPrecision : Nat
  quality : Nat
  pitchAndFamily : Nat
  faceName : List Nat
deriving DecidableEq

/-- Modelled from the spec: `SLogFont::SetFace` (emf.h) stores the face name
"as UTF-16LE bytes" in the descriptor; the array holds 64 bytes, a shorter name
is followed by zero bytes. -/
def SetFace (utf16 : List Nat) : List Nat :=
  utf16.take 64 ++ List.replicate (64 - (utf16.take 64).length) 0

/-- The font creation record (`EMF::SFont`). -/
structure SFont where
  ihFont : Nat
  lf : SLogFont
deriving DecidableEq

/-- The text of a text-out record (`emrtext`). -/
structure SEmrText where
  reference : SPoint
  nChars : Nat
  offString : Nat
  options : Nat
  rect : SRect
  offDx : Nat
  str : List Nat
deriving DecidableEq

/-- The text-out record `S_EXTTEXTOUTW`. -/
structure S_EXTTEXTOUTW where
  bounds : SRect
  graphicsMode : Nat
  exScale : Nat
  eyScale : Nat
  emrtext : SEmrText
deriving DecidableEq

/-- The polyline / polygon record `SPoly`. -/
structure SPoly where
  iType : Nat
  bounds : SRect
  count : Nat
  points : List SPoint
deriving DecidableEq

/-- The terminating record `S_EOF`. -/
structure S_EOF where
  nPalEntries : Nat
  offPalEntries : Nat
  nSizeLast : Nat
deriving DecidableEq

end EMF

/-- Every record type the device hands to `x_WriteRcd`. -/
inductive Rcd where
  | SHeader (emr : EMF.SHeader)
  | SPen (pen : EMF.S_EXTCREATEPEN)
  | SBrush (brush : EMF.SBrush)
  | SFont (font : EMF.SFont)
  | S_SELECTOBJECT (ihObject : Nat)
  | S_SETMITERLIMIT (miterLimit : Int)
  | S_SETTEXTALIGN (mode : Nat)
  | S_SETTEXTCOLOR (color : EMF.SColorRef)
  | S_SETBKMODE (mode : Nat)
  | S_SETMAPMODE (mode : Nat)
  | SPoly (poly : EMF.SPoly)
  | S_RECTANGLE (box : EMF.SRect)
  | S_ELLIPSE (box : EMF.SRect)
  | S_EXTTEXTOUTW (emr : EMF.S_EXTTEXTOUTW)
  | S_EOF (emr : EMF.S_EOF)
deriving DecidableEq

/-! ## Serialisation (emf.h) -/

def serPoint (p : EMF.SPoint) : List Nat := TInt4 p.x ++ TInt4 p.y

def serSize (z : EMF.SSize) : List Nat := TInt4 z.cx ++ TInt4 z.cy

def serRect (r : EMF.SRect) : List Nat :=
  TInt4 r.left ++ TInt4 r.top ++ TInt4 r.right ++ TInt4 r.bottom

def serColor (c : EMF.SColorRef) : List Nat :=
  [c.red % 256, c.green % 256, c.blue % 256, 0]

/-- The bytes of a list of points, one after the other. -/
def serPoints : List EMF.SPoint → List Nat
  | [] => []
  | p :: ps => serPoint p ++ serPoints ps

/-- The bytes of a list of 32-bit values, one after the other. -/
def serUInt4s : List Nat → List Nat
  | [] => []
  | v :: vs => TUInt4 v ++ serUInt4s vs

/-- The type tag `iType` of a record. -/
def Rcd.iType : Rcd → Nat
  | .SHeader _ => EMF.eEMR_HEADER
  | .SPen _ => EMF.eEMR_EXTCREATEPEN
  | .SBrush _ => EMF.eEMR_CREATEBRUSHINDIRECT
  | .SFont _ => EMF.eEMR_EXTCREATEFONTINDIRECTW
  | .S_SELECTOBJECT _ => EMF.eEMR_SELECTOBJECT
  | .S_SETMITERLIMIT _ => EMF.eEMR_SETMITERLIMIT
  | .S_SETTEXTALIGN _ => EMF.eEMR_SETTEXTALIGN
  | .S_SETTEXTCOLOR _ => EMF.eEMR_SETTEXTCOLOR
  | .S_SETBKMODE _ => EMF.eEMR_SETBKMODE
  | .S_SETMAPMODE _ => EMF.eEMR_SETMAPMODE
  | .SPoly p => p.iType
  | .S_RECTANGLE _ => EMF.eEMR_RECTANGLE
  | .S_ELLIPSE _ => EMF.eEMR_ELLIPSE
  | .S_EXTTEXTOUTW _ => EMF.eEMR_EXTTEXTOUTW
  | .S_EOF _ => EMF.eEMR_EOF

/-- Modelled from the spec: the bytes that follow the 8-byte record header
(`Serialize` of each record structure, emf.h). The fields are the ones
devEMF.cpp assigns, in the order of the EMF format; `nBytes` is the 9th 32-bit
field after the record header's two, at offset `4*12`, where `Close` seeks. -/
def Rcd.payload : Rcd → List Nat
  | .SHeader h =>
      serRect h.bounds ++ serRect h.frame ++ TUInt4 h.signature ++ TUInt4 h.version
        ++ TUInt4 h.nBytes ++ TUInt4 h.nRecords ++ TUInt2 h.nHandles ++ TUInt2 h.reserved
        ++ TUInt4 h.nDescription ++ TUInt4 108 ++ TUInt4 h.nPalEntries
        ++ serSize h.device ++ serSize h.millimeters ++ TUInt4 h.cbPixelFormat
        ++ TUInt4 h.offPixelFormat ++ TUInt4 h.bOpenGL ++ serSize h.micrometers ++ h.desc
  | .SPen p =>
      TUInt4 p.ihPen ++ TUInt4 p.offBmi ++ TUInt4 p.cbBmi ++ TUInt4 p.offBits
        ++ TUInt4 p.cbBits ++ TUInt4 p.elp.penStyle ++ TInt4 p.elp.width
        ++ TUInt4 p.elp.brushStyle ++ serColor p.elp.color ++ TUInt4 p.elp.brushHatch
        ++ TUInt4 p.elp.numEntries ++ serUInt4s p.styleEntries
  | .SBrush b =>
      TUInt4 b.ihBrush ++ TUInt4 b.lb.brushStyle ++ serColor b.lb.color
        ++ TUInt4 b.lb.brushHatch
  | .SFont f =>
      TUInt4 f.ihFont ++ TInt4 f.lf.height ++ TInt4 f.lf.width ++ TInt4 f.lf.escapement
        ++ TInt4 f.lf.orientation ++ TInt4 f.lf.weight ++ TUInt1 f.lf.italic
        ++ TUInt1 f.lf.underline ++ TUInt1 f.lf.strikeOut ++ TUInt1 f.lf.charSet
        ++ TUInt1 f.lf.outPrecision ++ TUInt1 f.lf.clipPrecision ++ TUInt1 f.lf.quality
        ++ TUInt1 f.lf.pitchAndFamily ++ f.lf.faceName
  | .S_SELECTOBJECT ih => TUInt4 ih
  | .S_SETMITERLIMIT m => TInt4 m
  | .S_SETTEXTALIGN m => TUInt4 m
  | .S_SETTEXTCOLOR c => serColor c
  | .S_SETBKMODE m => TUInt4 m
  | .S_SETMAPMODE m => TUInt4 m
  | .SPoly p => serRect p.bounds ++ TUInt4 p.count ++ serPoints p.points
  | .S_RECTANGLE b => serRect b
  | .S_ELLIPSE b => serRect b
  | .S_EXTTEXTOUTW t =>
      serRect t.bounds ++ TUInt4 t.graphicsMode ++ TUInt4 t.exScale ++ TUInt4 t.eyScale
        ++ serPoint t.emrtext.reference ++ TUInt4 t.emrtext.nChars ++ TUInt4 76
        ++ TUInt4 t.emrtext.options ++ serRect t.emrtext.rect ++ TUInt4 t.emrtext.offDx
        ++ t.emrtext.str
  | .S_EOF e => TUInt4 e.nPalEntries ++ TUInt4 e.offPalEntries ++ TUInt4 e.nSizeLast

/-- Modelled from the spec: `r.Serialize(buff)` (emf.h). "Record header: 4-byte
type tag, 4-byte total padded size (including this header)": the tag, the size
field (still 0, `x_WriteRcd` fills it in), then the payload. -/
def Serialize (r : Rcd) : List Nat := TUInt4 r.iType ++ TUInt4 0 ++ r.payload

/-! ## Text conversion (`Riconv`, R_ext/Riconv.h) -/

/-- One step of a strict UTF-8 decoder: `need` continuation bytes are still
expected for the code point `cp`, which must reach `lo` (no overlong form).
The result is the list of code points, or `none` when the bytes are not UTF-8
(also when they end inside a sequence). -/
def utf8Go : List Nat → Nat → Nat → Nat → Option (List Nat)
  | [], need, _, _ => if need = 0 then some [] else none
  | b :: bs, 0, _, _ =>
      if b < 0x80 then (utf8Go bs 0 0 0).map (fun cps => b :: cps)
      else if b < 0xC2 then none
      else if b < 0xE0 then utf8Go bs 1 (b - 0xC0) 0x80
      else if b < 0xF0 then utf8Go bs 2 (b - 0xE0) 0x800
      else if b < 0xF5 then utf8Go bs 3 (b - 0xF0) 0x10000
      else none
  | b :: bs, need + 1, cp, lo =>
      if 0x80 ≤ b ∧ b < 0xC0 then
        let cp1 := cp * 64 + (b - 0x80)
        if need = 0 then
          if cp1 < lo ∨ 0x10FFFF < cp1 ∨ (0xD800 ≤ cp1 ∧ cp1 < 0xE000) then none
          else (utf8Go bs 0 0 0).map (fun cps => cp1 :: cps)
        else utf8Go bs need cp1 lo
      else none

/-- The UTF-16LE bytes of one code point (a surrogate pair above `0xFFFF`). -/
def utf16Unit (cp : Nat) : List Nat :=
  if cp < 0x10000 then TUInt2 cp
  else TUInt2 (0xD800 + (cp - 0x10000) / 1024) ++ TUInt2 (0xDC00 + (cp - 0x10000) % 1024)

/-- The UTF-16LE bytes of a list of code points, no byte-order mark. -/
def utf16Encode : List Nat → List Nat
  | [] => []
  | cp :: cps => utf16Unit cp ++ utf16Encode cps

/-- `iConvUTF8toUTF16LE`: `Riconv` from "UTF-8" to "UTF-16LE" into a buffer of
`s.length()*2` bytes. `none` is the `Rf_error` ("Text string not valid UTF-8."),
raised when `Riconv` does not return 0: invalid input, or no room left. -/
def iConvUTF8toUTF16LE (s : List Nat) : Option (List Nat) :=
  match utf8Go s 0 0 0 with
  | none => none
  | some cps =>
      let utf16 := utf16Encode cps
      if utf16.length ≤ s.length * 2 then some utf16 else none

/-! ## The device -/

/-- The state of a `CDevEMF` object. -/
structure CDevEMF where
  m_File : List Nat
  m_NumRecords : Nat
  m_PageNum : Nat
  m_Width : Int
  m_Height : Int
  m_UseUserLty : Bool
  m_DefaultFontFamily : List Nat
  m_CurrHadj : ℚ
  m_CurrTextCol : Int
  m_LastHandle : Nat
  m_Pens : List EMF.S_EXTCREATEPEN
  m_CurrPen : Nat
  m_Brushes : List EMF.SBrush
  m_CurrBrush : Nat
  m_Fonts : List EMF.SFont
  m_CurrFont : Nat
  written : List Rcd
  warnings : List String
deriving DecidableEq

/-- The constructor `CDevEMF(bool userLty, const char *defaultFontFamily)`;
`m_Width` and `m_Height`, which it leaves unset, are 0 here. -/
def CDevEMF.new (userLty : Bool) (defaultFontFamily : List Nat) : CDevEMF :=
  { m_File := [], m_NumRecords := 0, m_PageNum := 0, m_Width := 0, m_Height := 0,
    m_UseUserLty := userLty, m_DefaultFontFamily := defaultFontFamily,
    m_CurrHadj := -1, m_CurrTextCol := -1, m_LastHandle := 0,
    m_Pens := [], m_CurrPen := 0, m_Brushes := [], m_CurrBrush := 0,
    m_Fonts := [], m_CurrFont := 0, written := [], warnings := [] }

/-- `Rf_warning(msg)`. -/
def Rf_warning (msg : String) (s : CDevEMF) : CDevEMF :=
  { s with warnings := s.warnings ++ [msg] }

/-- `void x_TransformY(double* y, int n)`:
`for (int i = 0; i < n;  ++i, ++y) *y = m_Height - *y;` -/
def x_TransformY (m_Height : Int) : List ℚ → Nat → List ℚ
  | [], _ => []
  | y :: ys, 0 => y :: ys
  | y :: ys, n + 1 => ((m_Height : ℚ) - y) :: x_TransformY m_Height ys n

/-- `std::string::resize(n, c)`. -/
def stringResize (s : List Nat) (n : Nat) (c : Nat) : List Nat :=
  s.take n ++ List.replicate (n - s.length) c

/-- `std::string::replace(pos, len, str)`; `none` is `std::out_of_range`
(`pos` beyond the end). -/
def stringReplace (s : List Nat) (pos len : Nat) (str : List Nat) : Option (List Nat) :=
  if s.length < pos then none
  else some (s.take pos ++ str ++ s.drop (pos + min len (s.length - pos)))

/-- The bytes `x_WriteRcd` hands to `m_File.write` for the serialisation `buff`:
padded with zero bytes to a multiple of 4, the size written over bytes 4..7. -/
def x_WriteRcdBytes (buff : List Nat) : Option (List Nat) :=
  let buff1 := stringResize buff (((buff.length + 3) / 4) * 4) 0
  let nSize := TUInt4 buff1.length
  stringReplace buff1 4 4 nSize

/-- The body of the template `x_WriteRcd` once `r.Serialize(buff)` has filled
`buff`. -/
def x_WriteRcdBuff (buff : List Nat) (s : CDevEMF) : Option CDevEMF :=
  match x_WriteRcdBytes buff with
  | none => none
  | some out => some { s with m_File := s.m_File ++ out, m_NumRecords := s.m_NumRecords + 1 }

/-- `template<class T> void x_WriteRcd(const T &r)` at the record `r`. -/
def x_WriteRcd (r : Rcd) (s : CDevEMF) : CDevEMF :=
  match x_WriteRcdBuff (Serialize r) s with
  | none => s
  | some s1 => { s1 with written := s.written ++ [r] }

/-- The loop that counts the dash entries of a line type:
`for (int tmp = lty; elp.numEntries < 8 && tmp & 15; ++elp.numEntries, tmp >>= 4);`
with `k` the number of entries that may still be counted. -/
def ltyNumEntries : Nat → Int → Nat
  | 0, _ => 0
  | k + 1, tmp => if tmp % 16 ≠ 0 then ltyNumEntries k (tmp / 16) + 1 else 0

/-- The loop that fills the dash array:
`for(int i = 0; i < 8 && lty & 15; ++i, lty >>= 4) styleEntries[i] = x_Inches2Dev((lty & 15)/72.);` -/
def ltyStyleEntries : Nat → Int → List Nat
  | 0, _ => []
  | k + 1, lty =>
      if lty % 16 ≠ 0 then
        (x_Inches2Dev (((lty % 16 : Int) : ℚ) / 72)).toNat :: ltyStyleEntries k (lty / 16)
      else []

/-- The pen style bits of the line end. -/
def penEndCap (lend : Int) : Nat :=
  if lend = GE_ROUND_CAP then EMF.ePS_ENDCAP_ROUND
  else if lend = GE_BUTT_CAP then EMF.ePS_ENDCAP_FLAT
  else if lend = GE_SQUARE_CAP then EMF.ePS_ENDCAP_SQUARE
  else 0

/-- The pen style bits of the line join. -/
def penJoin (ljoin : Int) : Nat :=
  if ljoin = GE_ROUND_JOIN then EMF.ePS_JOIN_ROUND
  else if ljoin = GE_MITRE_JOIN then EMF.ePS_JOIN_MITER
  else if ljoin = GE_BEVEL_JOIN then EMF.ePS_JOIN_BEVEL
  else 0

/-- The pen style of a line type when custom line types are off. -/
def penDefaultLty (lty : Int) : Nat :=
  if lty = LTY_SOLID then EMF.ePS_SOLID
  else if lty = LTY_DASHED then EMF.ePS_DASH
  else if lty = LTY_DOTTED then EMF.ePS_DOT
  else if lty = LTY_DOTDASH then EMF.ePS_DASHDOT
  else if lty = LTY_LONGDASH then EMF.ePS_DASHDOTDOT
  else EMF.ePS_SOLID

/-- Whether the constructor of `SPen` warns "Using lty unsupported by EMF device". -/
def penWarnsLty (gc : GEcontext) (useUserLty : Bool) : Bool :=
  !R_TRANSPARENT gc.col && !useUserLty &&
    !(gc.lty = LTY_SOLID ∨ gc.lty = LTY_DASHED ∨ gc.lty = LTY_DOTTED
      ∨ gc.lty = LTY_DOTDASH ∨ gc.lty = LTY_LONGDASH)

/-- The constructor `SPen(const pGEcontext gc, bool useUserLty)`. -/
def SPen (gc : GEcontext) (useUserLty : Bool) : EMF.S_EXTCREATEPEN :=
  let color : EMF.SColorRef := ⟨R_RED gc.col, R_GREEN gc.col, R_BLUE gc.col⟩
  let width := x_Inches2Dev (gc.lwd / 96)
  if R_TRANSPARENT gc.col then
    { ihPen := 0, offBmi := 0, cbBmi := 0, offBits := 0, cbBits := 0,
      elp := { penStyle := EMF.ePS_GEOMETRIC ||| EMF.ePS_NULL, width := width,
               brushStyle := EMF.eBS_NULL, color := color, brushHatch := 0,
               numEntries := 0 },
      styleEntries := [] }
  else
    let numEntries := if useUserLty then ltyNumEntries 8 gc.lty else 0
    let style :=
      if useUserLty then
        (if numEntries = 0 then EMF.ePS_SOLID else EMF.ePS_USERSTYLE)
      else penDefaultLty gc.lty
    { ihPen := 0, offBmi := 0, cbBmi := 0, offBits := 0, cbBits := 0,
      elp := { penStyle :=
                 EMF.ePS_GEOMETRIC ||| style ||| penEndCap gc.lend ||| penJoin gc.ljoin,
               width := width, brushStyle := EMF.eBS_SOLID, color := color,
               brushHatch := 0, numEntries := numEntries },
      styleEntries :=
        if useUserLty ∧ numEntries ≠ 0 then ltyStyleEntries 8 gc.lty else [] }

/-- Modelled from the spec: the comparator `SPen::Less` (emf.h) of the pen
cache. "Identity = full structural equality of all fields, including the dash
array contents"; the handle `ihPen`, assigned after the search, is no part of it. -/
def penEquiv (a b : EMF.S_EXTCREATEPEN) : Bool :=
  a.elp == b.elp && a.styleEntries == b.styleEntries

/-- The constructor `SBrush(int col)`. -/
def SBrush (col : Int) : EMF.SBrush :=
  { ihBrush := 0,
    lb := { brushStyle := if R_TRANSPARENT col then EMF.eBS_NULL else EMF.eBS_SOLID,
            color := ⟨R_RED col, R_GREEN col, R_BLUE col⟩,
            brushHatch := 0 } }

/-- Modelled from the spec: the order of `EMF::SBrush` (emf.h) that the brush
cache uses. "Brush: fill style, color. Identity = structural equality." -/
def brushEquiv (a b : EMF.SBrush) : Bool := a.lb == b.lb

/-- The constructor `SFont(int face, int size, int rot, const char* family)`;
`none` when the conversion of `family` raises the error. -/
def SFont (face size rot : Int) (family : List Nat) : Option EMF.SFont :=
  match iConvUTF8toUTF16LE family with
  | none => none
  | some utf16 =>
      some
        { ihFont := 0,
          lf := { height := -size, width := 0, escapement := rot * 10, orientation := 0,
                  weight := if face = 2 ∨ face = 4 then EMF.eFontWeight_bold
                            else EMF.eFontWeight_normal,
                  italic := if face = 3 ∨ face = 4 then 0x01 else 0x00,
                  underline := 0x00, strikeOut := 0x00,
                  charSet := EMF.eDEFAULT_CHARSET,
                  outPrecision := EMF.eOUT_STROKE_PRECIS,
                  clipPrecision := EMF.eCLIP_DEFAULT_PRECIS,
                  quality := EMF.eDEFAULT_QUALITY,
                  pitchAndFamily := EMF.eFF_DONTCARE + EMF.eDEFAULT_PITCH,
                  faceName := EMF.SetFace utf16 } }

/-- `FontPtrCmp`: `memcmp(&f1->lf, &f2->lf, sizeof(EMF::SLogFont)) < 0`; two
fonts are equivalent for the cache when neither is less, that is when the
bytes of their `lf` are the same. -/
def fontEquiv (a b : EMF.SFont) : Bool := a.lf == b.lf

/-- `void x_CreateRcdSelectObj(unsigned int obj)`. -/
def x_CreateRcdSelectObj (obj : Nat) (s : CDevEMF) : CDevEMF :=
  x_WriteRcd (Rcd.S_SELECTOBJECT obj) s

/-- The first half of `x_SetLinetype`: the pen of `gc` is looked up in `m_Pens`
and created when it is not there. The result is the state and the handle
`(*i)->ihPen`. -/
def x_SetLinetype_intern (gc : GEcontext) (s : CDevEMF) : CDevEMF × Nat :=
  let s0 := if penWarnsLty gc s.m_UseUserLty then
      Rf_warning "Using lty unsupported by EMF device" s else s
  let newPen := SPen gc s.m_UseUserLty
  match s0.m_Pens.find? (penEquiv newPen) with
  | none =>
      let s1 := if 0 < R_ALPHA gc.col ∧ R_ALPHA gc.col < 255 then
          Rf_warning "partial transparency is not supported for EMF" s0 else s0
      let pen := { newPen with ihPen := s1.m_LastHandle + 1 }
      (x_WriteRcd (Rcd.SPen pen)
        { s1 with m_LastHandle := s1.m_LastHandle + 1, m_Pens := s1.m_Pens ++ [pen] },
       pen.ihPen)
  | some i => (s0, i.ihPen)

/-- `void x_SetLinetype(const pGEcontext gc)`. -/
def x_SetLinetype (gc : GEcontext) (s : CDevEMF) : CDevEMF :=
  let (s1, ihPen) := x_SetLinetype_intern gc s
  if ihPen ≠ s1.m_CurrPen then
    let s2 := x_CreateRcdSelectObj ihPen s1
    let s3 := { s2 with m_CurrPen := ihPen }
    if gc.ljoin = GE_MITRE_JOIN then
      x_WriteRcd (Rcd.S_SETMITERLIMIT (x_Inches2Dev (gc.lmitre / 72))) s3
    else s3
  else s1

/-- The first half of `x_SetFill`: the brush of `col` is looked up in
`m_Brushes` and created when it is not there. -/
def x_SetFill_intern (col : Int) (s : CDevEMF) : CDevEMF × Nat :=
  let newBrush := SBrush col
  match s.m_Brushes.find? (brushEquiv newBrush) with
  | none =>
      let s1 := if 0 < R_ALPHA col ∧ R_ALPHA col < 255 then
          Rf_warning "partial transparency is not supported for EMF" s else s
      let brush := { newBrush with ihBrush := s1.m_LastHandle + 1 }
      (x_WriteRcd (Rcd.SBrush brush)
        { s1 with m_LastHandle := s1.m_LastHandle + 1, m_Brushes := s1.m_Brushes ++ [brush] },
       brush.ihBrush)
  | some i => (s, i.ihBrush)

/-- `void x_SetFill(int col)`. -/
def x_SetFill (col : Int) (s : CDevEMF) : CDevEMF :=
  let (s1, ihBrush) := x_SetFill_intern col s
  if ihBrush ≠ s1.m_CurrBrush then
    let s2 := x_CreateRcdSelectObj ihBrush s1
    { s2 with m_CurrBrush := ihBrush }
  else s1

/-- `const SFont* x_LoadFont(int face, double size, int rot, const char *family)`:
the state and the font `*i`; `none` when the constructor of `SFont` raises the
conversion error (nothing has been changed by then). -/
def x_LoadFont (face : Int) (size : ℚ) (rot : Int) (family : List Nat) (s : CDevEMF) :
    Option (CDevEMF × EMF.SFont) :=
  let family1 := if family = [] then s.m_DefaultFontFamily else family
  match SFont face (x_Inches2Dev (size / 72)) rot family1 with
  | none => none
  | some newFont =>
      match s.m_Fonts.find? (fontEquiv newFont) with
      | none =>
          let font := { newFont with ihFont := s.m_LastHandle + 1 }
          some (x_WriteRcd (Rcd.SFont font)
                  { s with m_LastHandle := s.m_LastHandle + 1, m_Fonts := s.m_Fonts ++ [font] },
                font)
      | some i => some (s, i)

/-- `void x_SetFont(int face, double size, int rot, const char *family)`;
`none` when `x_LoadFont` raises the conversion error. -/
def x_SetFont (face : Int) (size : ℚ) (rot : Int) (family : List Nat) (s : CDevEMF) :
    Option CDevEMF :=
  match x_LoadFont face size rot family s with
  | none => none
  | some (s1, font) =>
      if font.ihFont ≠ s1.m_CurrFont then
        let s2 := x_CreateRcdSelectObj font.ihFont s1
        some { s2 with m_CurrFont := font.ihFont }
      else some s1

/-- `void x_SetHAdj(double hadj)`. -/
def x_SetHAdj (hadj : ℚ) (s : CDevEMF) : CDevEMF :=
  if s.m_CurrHadj ≠ hadj then
    let mode :=
      if hadj = 0 then EMF.eTA_BASELINE ||| EMF.eTA_LEFT
      else if hadj = 1 then EMF.eTA_BASELINE ||| EMF.eTA_RIGHT
      else EMF.eTA_BASELINE ||| EMF.eTA_CENTER
    let s1 := x_WriteRcd (Rcd.S_SETTEXTALIGN mode) s
    { s1 with m_CurrHadj := hadj }
  else s

/-- `void x_SetTextColor(int col)`. -/
def x_SetTextColor (col : Int) (s : CDevEMF) : CDevEMF :=
  if s.m_CurrTextCol ≠ col then
    let s1 := x_WriteRcd (Rcd.S_SETTEXTCOLOR ⟨R_RED col, R_GREEN col, R_BLUE col⟩) s
    { s1 with m_CurrTextCol := col }
  else s

/-! ## Lifecycle and drawing operations -/

/-- The bytes of the C string "Created by R using devEMF." -/
def headerDescription : List Nat :=
  [67, 114, 101, 97, 116, 101, 100, 32, 98, 121, 32, 82, 32, 117, 115, 105, 110, 103, 32,
   100, 101, 118, 69, 77, 70, 46]

/-- The bytes of the C string "Symbol". -/
def symbolFamily : List Nat := [83, 121, 109, 98, 111, 108]

/-- `void CDevEMF::x_CreateRcdHeader(void)`. -/
def x_CreateRcdHeader (s : CDevEMF) : CDevEMF :=
  match iConvUTF8toUTF16LE headerDescription with
  | none => s
  | some desc =>
      let emr : EMF.SHeader :=
        { bounds := ⟨0, 0, s.m_Width, s.m_Height⟩,
          frame := ⟨0, 0, s.m_Width, s.m_Height⟩,
          signature := 0x464D4520, version := 0x00010000,
          nBytes := 0, nRecords := 0, nHandles := 0, reserved := 0x0000,
          nDescription := desc.length / 2, offDescription := 0, nPalEntries := 0,
          device := ⟨s.m_Width, s.m_Height⟩,
          millimeters := ⟨Int.tdiv s.m_Width 100, Int.tdiv s.m_Height 100⟩,
          cbPixelFormat := 0x00000000, offPixelFormat := 0x00000000, bOpenGL := 0x00000000,
          micrometers := ⟨s.m_Width * 10, s.m_Height * 10⟩,
          desc := desc }
      let s1 := x_WriteRcd (Rcd.SHeader emr) s
      let s2 := x_WriteRcd (Rcd.S_SETBKMODE EMF.eTRANSPARENT) s1
      x_WriteRcd (Rcd.S_SETMAPMODE EMF.eMM_TEXT) s2

/-- `bool CDevEMF::Open(const char* filename, int width, int height)`;
`fileOk` tells whether `m_File.open` succeeded. -/
def Open (fileOk : Bool) (width height : Int) (s : CDevEMF) : CDevEMF × Bool :=
  let s1 := { s with m_Width := width, m_Height := height }
  if !fileOk then (s1, false)
  else (x_CreateRcdHeader s1, true)

/-- The bounding box of a list of points (all zero when there is none). -/
def polyBounds : List EMF.SPoint → EMF.SRect
  | [] => ⟨0, 0, 0, 0⟩
  | p :: ps =>
      ps.foldl
        (fun b q => ⟨min b.left q.x, min b.top q.y, max b.right q.x, max b.bottom q.y⟩)
        ⟨p.x, p.y, p.x, p.y⟩

/-- Modelled from the spec: the constructor `EMF::SPoly(iType, n, x, y)`
(emf.h): "point count + coordinate array", the coordinates rounded "to nearest
integer device units"; the bounds field of the EMF format is the box around
the points. -/
def SPoly (iType n : Nat) (x y : List ℚ) : EMF.SPoly :=
  let points := (List.range n).map
    (fun i => (⟨lround (x.getD i 0), lround (y.getD i 0)⟩ : EMF.SPoint))
  { iType := iType, bounds := polyBounds points, count := n, points := points }

/-- `void CDevEMF::Polyline(int n, double *x, double *y, const pGEcontext gc)`. -/
def Polyline (n : Nat) (x y : List ℚ) (gc : GEcontext) (s : CDevEMF) : CDevEMF :=
  let s1 := x_SetLinetype gc s
  let y1 := x_TransformY s1.m_Height y n
  x_WriteRcd (Rcd.SPoly (SPoly EMF.eEMR_POLYLINE n x y1)) s1

/-- `void CDevEMF::Line(double x1, double y1, double x2, double y2, const pGEcontext gc)`. -/
def Line (x1 y1 x2 y2 : ℚ) (gc : GEcontext) (s : CDevEMF) : CDevEMF :=
  if x1 ≠ x2 ∨ y1 ≠ y2 then
    let s1 := x_SetLinetype gc s
    Polyline 2 [x1, x2] [y1, y2] gc s1
  else s

/-- `void CDevEMF::Rect(double x0, double y0, double x1, double y1, const pGEcontext gc)`. -/
def Rect (x0 y0 x1 y1 : ℚ) (gc : GEcontext) (s : CDevEMF) : CDevEMF :=
  let s1 := x_SetLinetype gc s
  let s2 := x_SetFill gc.fill s1
  let y0t := (x_TransformY s2.m_Height [y0] 1).getD 0 0
  let y1t := (x_TransformY s2.m_Height [y1] 1).getD 0 0
  x_WriteRcd (Rcd.S_RECTANGLE ⟨lround x0, lround y0t, lround x1, lround y1t⟩) s2

/-- `void CDevEMF::Circle(double x, double y, double r, const pGEcontext gc)`. -/
def Circle (x y r : ℚ) (gc : GEcontext) (s : CDevEMF) : CDevEMF :=
  let s1 := x_SetLinetype gc s
  let s2 := x_SetFill gc.fill s1
  let yt := (x_TransformY s2.m_Height [y] 1).getD 0 0
  x_WriteRcd (Rcd.S_ELLIPSE ⟨lround (x - r), lround (yt - r), lround (x + r), lround (yt + r)⟩) s2

/-- `void CDevEMF::Polygon(int n, double *x, double *y, const pGEcontext gc)`. -/
def Polygon (n : Nat) (x y : List ℚ) (gc : GEcontext) (s : CDevEMF) : CDevEMF :=
  let s1 := x_SetLinetype gc s
  let s2 := x_SetFill gc.fill s1
  let y1 := x_TransformY s2.m_Height y n
  x_WriteRcd (Rcd.SPoly (SPoly EMF.eEMR_POLYGON n x y1)) s2

/-- `void CDevEMF::TextUTF8(double x, double y, const char *str, double rot,
double hadj, const pGEcontext gc)`. Either conversion error ends the call at
the point where it is raised. -/
def TextUTF8 (x y : ℚ) (str : List Nat) (rot hadj : ℚ) (gc : GEcontext) (s : CDevEMF) :
    CDevEMF :=
  match x_SetFont gc.fontface (x_EffPointsize gc) (truncToInt rot) gc.fontfamily s with
  | none => s
  | some s1 =>
      let s2 := x_SetHAdj hadj s1
      let s3 := x_SetTextColor gc.col s2
      let yt := (x_TransformY s3.m_Height [y] 1).getD 0 0
      match iConvUTF8toUTF16LE str with
      | none => s3
      | some utf16 =>
          let emr : EMF.S_EXTTEXTOUTW :=
            { bounds := ⟨0, 0, 0, 0⟩, graphicsMode := EMF.eGM_COMPATIBLE,
              exScale := 0x3F800000, eyScale := 0x3F800000,
              emrtext := { reference := ⟨lround x, lround yt⟩, nChars := utf16.length / 2,
                           offString := 0, options := 0, rect := ⟨0, 0, 0, 0⟩, offDx := 0,
                           str := utf16 } }
          x_WriteRcd (Rcd.S_EXTTEXTOUTW emr) s3

/-- `void CDevEMF::NewPage(const pGEcontext gc)`; the second component is the
graphics context as the call leaves it. -/
def NewPage (gc : GEcontext) (s : CDevEMF) : CDevEMF × GEcontext :=
  let s1 := { s with m_PageNum := s.m_PageNum + 1 }
  let s2 := if 1 < s1.m_PageNum then
      Rf_warning "Multiple pages not available for EMF device" s1 else s1
  if R_OPAQUE gc.fill then
    let gc1 := { gc with col := R_TRANWHITE }
    (Rect 0 0 s2.m_Width s2.m_Height gc1 s2, gc1)
  else (s2, gc)

/-- `void CDevEMF::MetricInfo(int c, const pGEcontext gc, ...)`, as far as it
changes the device; `hasChar` is the answer of `font->m_SysFontInfo->HasChar(c)`
(fontmetrics.h, the platform's font metrics). -/
def MetricInfo (hasChar : Bool) (gc : GEcontext) (s : CDevEMF) : CDevEMF :=
  match x_LoadFont (max 1 (min 5 gc.fontface)) (x_EffPointsize gc) 0 gc.fontfamily s with
  | none => s
  | some (s1, _) =>
      if !hasChar ∧ gc.fontface = 5 then
        match x_LoadFont 5 (x_EffPointsize gc) 0 symbolFamily s1 with
        | none => s1
        | some (s2, _) => s2
      else s1

/-- `double CDevEMF::StrWidth(const char *str, const pGEcontext gc)`, as far as
it changes the device. -/
def StrWidth (gc : GEcontext) (s : CDevEMF) : CDevEMF :=
  match x_LoadFont (max 1 (min 5 gc.fontface)) (x_EffPointsize gc) 0 gc.fontfamily s with
  | none => s
  | some (s1, _) => s1

/-- `std::ofstream::seekp(pos)` followed by `write(data, data.size())` on a
file with the bytes `f`. -/
def seekpWrite (f : List Nat) (pos : Nat) (data : List Nat) : List Nat :=
  f.take pos ++ List.replicate (pos - f.length) 0 ++ data ++ f.drop (pos + data.length)

/-- Modelled from the spec: `sizeof(emr)` for the terminating record (the
structure is declared in emf.h), its "self-reported size": the 20 bytes of the
record in the EMF format. -/
def sizeofEOF : Nat := 20

/-- The terminating record that `Close` writes. -/
def eofRecord : Rcd :=
  Rcd.S_EOF { nPalEntries := 0, offPalEntries := 0, nSizeLast := sizeofEOF }

/-- `void CDevEMF::Close(void)`. The value `m_LastHandle+1` passes through the
header field `emr.nHandles`, whose declaration (emf.h) is not among the
sources: `nHandlesBits` is the width of that field in bits. -/
def Close (nHandlesBits : Nat) (s : CDevEMF) : CDevEMF :=
  let s1 := x_WriteRcd eofRecord s
  let nBytes := s1.m_File.length
  let nRecords := s1.m_NumRecords
  let nHandles := (s1.m_LastHandle + 1) % 2 ^ nHandlesBits
  let data := TUInt4 nBytes ++ TUInt4 nRecords ++ TUInt4 nHandles
  { s1 with m_File := seekpWrite s1.m_File (4 * 12) (data.take 12) }

/-- One call of the graphics engine on the open device. -/
inductive Op where
  | NewPage (gc : GEcontext)
  | Line (x1 y1 x2 y2 : ℚ) (gc : GEcontext)
  | Polyline (n : Nat) (x y : List ℚ) (gc : GEcontext)
  | Polygon (n : Nat) (x y : List ℚ) (gc : GEcontext)
  | Rect (x0 y0 x1 y1 : ℚ) (gc : GEcontext)
  | Circle (x y r : ℚ) (gc : GEcontext)
  | TextUTF8 (x y : ℚ) (str : List Nat) (rot hadj : ℚ) (gc : GEcontext)
  | MetricInfo (hasChar : Bool) (gc : GEcontext)
  | StrWidth (gc : GEcontext)

/-- The device after one call. -/
def Op.apply : Op → CDevEMF → CDevEMF
  | .NewPage gc, s => (DevEMF.NewPage gc s).1
  | .Line x1 y1 x2 y2 gc, s => DevEMF.Line x1 y1 x2 y2 gc s
  | .Polyline n x y gc, s => DevEMF.Polyline n x y gc s
  | .Polygon n x y gc, s => DevEMF.Polygon n x y gc s
  | .Rect x0 y0 x1 y1 gc, s => DevEMF.Rect x0 y0 x1 y1 gc s
  | .Circle x y r gc, s => DevEMF.Circle x y r gc s
  | .TextUTF8 x y str rot hadj gc, s => DevEMF.TextUTF8 x y str rot hadj gc s
  | .MetricInfo hasChar gc, s => DevEMF.MetricInfo hasChar gc s
  | .StrWidth gc, s => DevEMF.StrWidth gc s

/-- The device after a sequence of calls, first call first. -/
def runOps : List Op → CDevEMF → CDevEMF
  | [], s => s
  | op :: ops, s => runOps ops (op.apply s)

/-- The device after a successful `Open` on a new object, then `ops`. -/
def session (userLty : Bool) (family : List Nat) (width height : Int) (ops : List Op) :
    CDevEMF :=
  runOps ops (Open true width height (CDevEMF.new userLty family)).1

/-! ## Reading the stream back -/

/-- The bytes one `x_WriteRcd r` appends to the file. -/
def frameOf (r : Rcd) : List Nat := (x_WriteRcdBytes (Serialize r)).getD []

/-- The bytes a sequence of `x_WriteRcd` calls appends to the file. -/
def streamOf : List Rcd → List Nat
  | [] => []
  | r :: rs => frameOf r ++ streamOf rs

/-- Walks a byte stream from its start by the size each record declares in
its bytes 4..7: the records visited, or `none` when a declared size is below 8
or reaches beyond the end of the stream. `fuel` bounds the number of records. -/
def walkRecords : Nat → List Nat → Option (List (List Nat))
  | 0, b => if b = [] then some [] else none
  | fuel + 1, b =>
      if b = [] then some []
      else if 8 ≤ readUInt4 b 4 ∧ readUInt4 b 4 ≤ b.length then
        (walkRecords fuel (b.drop (readUInt4 b 4))).map (fun rs => b.take (readUInt4 b 4) :: rs)
      else none

/-- The top-level records of a byte stream (every record has 8 bytes or more,
so the length of the stream is fuel enough). -/
def streamRecords (b : List Nat) : Option (List (List Nat)) := walkRecords b.length b

/-- The pen of a pen creation record. -/
def Rcd.asPen : Rcd → Option EMF.S_EXTCREATEPEN
  | .SPen p => some p
  | _ => none

/-- The brush of a brush creation record. -/
def Rcd.asBrush : Rcd → Option EMF.SBrush
  | .SBrush b => some b
  | _ => none

/-- The font of a font creation record. -/
def Rcd.asFont : Rcd → Option EMF.SFont
  | .SFont f => some f
  | _ => none

/-- The handle a creation record defines. -/
def Rcd.creationHandle : Rcd → Option Nat
  | .SPen p => some p.ihPen
  | .SBrush b => some b.ihBrush
  | .SFont f => some f.ihFont
  | _ => none

/-- The handle a select-object record references. -/
def Rcd.selectedHandle : Rcd → Option Nat
  | .S_SELECTOBJECT ih => some ih
  | _ => none

/-- Records that are neither a creation, nor a select-object, miter-limit,
text-colour or text-alignment record. -/
def Rcd.isPlain : Rcd → Bool
  | .SHeader _ => true
  | .S_SETBKMODE _ => true
  | .S_SETMAPMODE _ => true
  | .SPoly _ => true
  | .S_RECTANGLE _ => true
  | .S_ELLIPSE _ => true
  | .S_EXTTEXTOUTW _ => true
  | .S_EOF _ => true
  | _ => false

/-- The handles of all cached resources: pens, then brushes, then fonts. -/
def CDevEMF.handles (s : CDevEMF) : List Nat :=
  s.m_Pens.map (fun p => p.ihPen) ++ s.m_Brushes.map (fun b => b.ihBrush)
    ++ s.m_Fonts.map (fun f => f.ihFont)

/-! ## The elementary actions of the device -/

/-- The selection of a pen: a select-object record, the active handle, and the
miter-limit record when one follows. -/
def selectPenAct (ih : Nat) (miter : Option Int) (s : CDevEMF) : CDevEMF :=
  let s3 := { x_CreateRcdSelectObj ih s with m_CurrPen := ih }
  match miter with
  | none => s3
  | some m => x_WriteRcd (Rcd.S_SETMITERLIMIT m) s3

/-- Every change the operations make to the device is a sequence of these. -/
inductive Act : CDevEMF → CDevEMF → Prop where
  | write (s : CDevEMF) (r : Rcd) : r.isPlain = true → Act s (x_WriteRcd r s)
  | newPen (s : CDevEMF) (pen : EMF.S_EXTCREATEPEN) :
      s.m_Pens.find? (penEquiv pen) = none →
      Act s (x_WriteRcd (Rcd.SPen { pen with ihPen := s.m_LastHandle + 1 })
        { s with m_LastHandle := s.m_LastHandle + 1,
                 m_Pens := s.m_Pens ++ [{ pen with ihPen := s.m_LastHandle + 1 }] })
  | newBrush (s : CDevEMF) (brush : EMF.SBrush) :
      s.m_Brushes.find? (brushEquiv brush) = none →
      Act s (x_WriteRcd (Rcd.SBrush { brush with ihBrush := s.m_LastHandle + 1 })
        { s with m_LastHandle := s.m_LastHandle + 1,
                 m_Brushes := s.m_Brushes ++ [{ brush with ihBrush := s.m_LastHandle + 1 }] })
  | newFont (s : CDevEMF) (font : EMF.SFont) :
      s.m_Fonts.find? (fontEquiv font) = none →
      Act s (x_WriteRcd (Rcd.SFont { font with ihFont := s.m_LastHandle + 1 })
        { s with m_LastHandle := s.m_LastHandle + 1,
                 m_Fonts := s.m_Fonts ++ [{ font with ihFont := s.m_LastHandle + 1 }] })
  | selectPen (s : CDevEMF) (p : EMF.S_EXTCREATEPEN) (miter : Option Int) :
      p ∈ s.m_Pens → Act s (selectPenAct p.ihPen miter s)
  | selectBrush (s : CDevEMF) (b : EMF.SBrush) :
      b ∈ s.m_Brushes →
      Act s { x_CreateRcdSelectObj b.ihBrush s with m_CurrBrush := b.ihBrush }
  | selectFont (s : CDevEMF) (f : EMF.SFont) :
      f ∈ s.m_Fonts →
      Act s { x_CreateRcdSelectObj f.ihFont s with m_CurrFont := f.ihFont }
  | setHAdj (s : CDevEMF) (hadj : ℚ) : Act s (x_SetHAdj hadj s)
  | setTextColor (s : CDevEMF) (col : Int) : Act s (x_SetTextColor col s)
  | warn (s : CDevEMF) (msg : String) : Act s (Rf_warning msg s)
  | page (s : CDevEMF) (n : Nat) : Act s { s with m_PageNum := n }

/-- A finite sequence of elementary actions. -/
inductive Acts : CDevEMF → CDevEMF → Prop where
  | refl (s : CDevEMF) : Acts s s
  | tail (s t u : CDevEMF) : Acts s t → Act t u → Acts s u

/-- What holds of the device in every state that a session reaches. -/
structure Inv (s : CDevEMF) : Prop where
  file : s.m_File = streamOf s.written
  count : s.m_NumRecords = s.written.length
  pens : s.written.filterMap Rcd.asPen = s.m_Pens
  brushes : s.written.filterMap Rcd.asBrush = s.m_Brushes
  fonts : s.written.filterMap Rcd.asFont = s.m_Fonts
  created : s.written.filterMap Rcd.creationHandle = List.range' 1 s.m_LastHandle
  pensDistinct : s.m_Pens.Pairwise (fun a b => penEquiv b a = false)
  brushesDistinct : s.m_Brushes.Pairwise (fun a b => brushEquiv b a = false)
  fontsDistinct : s.m_Fonts.Pairwise (fun a b => fontEquiv b a = false)

/-- The later state `t` keeps what the earlier state `s` has cached and written. -/
structure Ext (s t : CDevEMF) : Prop where
  written : ∃ rs, t.written = s.written ++ rs
  pens : ∃ ps, t.m_Pens = s.m_Pens ++ ps
  brushes : ∃ bs, t.m_Brushes = s.m_Brushes ++ bs
  fonts : ∃ fs, t.m_Fonts = s.m_Fonts ++ fs
  userLty : t.m_UseUserLty = s.m_UseUserLty
  family : t.m_DefaultFontFamily = s.m_DefaultFontFamily
  width : t.m_Width = s.m_Width
  height : t.m_Height = s.m_Height
  lastHandle : s.m_LastHandle ≤ t.m_LastHandle

/-- The three values `Close` writes over the header. -/
def closeData (nBytes nRecords nHandles : Nat) : List Nat :=
  TUInt4 nBytes ++ TUInt4 nRecords ++ TUInt4 nHandles

/-- A number of points whose coordinates fill `2^32` bytes (8 bytes a point). -/
def hugeCount : Nat := 536870912

/-- A graphics context: opaque black lines of width 1, solid, round ends and
joins; white fill; 12 point default font. -/
def gcBlack : GEcontext :=
  { col := -16777216, fill := -1, lwd := 1, lty := 0, lend := 1, ljoin := 1, lmitre := 10,
    cex := 1, ps := 12, fontface := 1, fontfamily := [] }

/-- The header frame `f` with the 12 bytes at offsets 48..59 replaced by `data`. -/
def patchFrame (f data : List Nat) : List Nat := f.take 48 ++ data ++ f.drop 60

/-- The records written between the earlier state `s` and the later state `t`. -/
def newRecords (s t : CDevEMF) : List Rcd := t.written.drop s.written.length

/-- The drawing records: polyline, polygon, rectangle, ellipse, text. -/
def Rcd.isPrimitive : Rcd → Bool
  | .SPoly _ => true
  | .S_RECTANGLE _ => true
  | .S_ELLIPSE _ => true
  | .S_EXTTEXTOUTW _ => true
  | _ => false

/-- The miter limit of a set-miter-limit record. -/
def Rcd.miterLimit : Rcd → Option Int
  | .S_SETMITERLIMIT m => some m
  | _ => none

/-- The colour of a set-text-colour record. -/
def Rcd.textColor : Rcd → Option EMF.SColorRef
  | .S_SETTEXTCOLOR c => some c
  | _ => none

/-- The fields of the device that the lookup of a resource leaves alone. -/
structure SameActive (s t : CDevEMF) : Prop where
  pen : t.m_CurrPen = s.m_CurrPen
  brush : t.m_CurrBrush = s.m_CurrBrush
  font : t.m_CurrFont = s.m_CurrFont
  hadj : t.m_CurrHadj = s.m_CurrHadj
  textCol : t.m_CurrTextCol = s.m_CurrTextCol
  page : t.m_PageNum = s.m_PageNum
  width : t.m_Width = s.m_Width
  height : t.m_Height = s.m_Height
  userLty : t.m_UseUserLty = s.m_UseUserLty
  family : t.m_DefaultFontFamily = s.m_DefaultFontFamily

/-- The records that the second half of `x_SetLinetype` writes when the pen
with handle `ih` is wanted and `curr` is the active pen handle. -/
def penSelection (gc : GEcontext) (ih curr : Nat) : List Rcd :=
  if ih ≠ curr then
    Rcd.S_SELECTOBJECT ih ::
      (if gc.ljoin = GE_MITRE_JOIN then
        [Rcd.S_SETMITERLIMIT (x_Inches2Dev (gc.lmitre / 72))] else [])
  else []

/-- The select-object record written when the object with handle `ih` is wanted
and `curr` is the active handle of its kind. -/
def objSelection (ih curr : Nat) : List Rcd :=
  if ih ≠ curr then [Rcd.S_SELECTOBJECT ih] else []

/-- The pen of `gc` is cached and is the active pen. -/
def PenReady (gc : GEcontext) (s : CDevEMF) : Prop :=
  ∃ p, s.m_Pens.find? (penEquiv (SPen gc s.m_UseUserLty)) = some p ∧ p.ihPen = s.m_CurrPen

/-- The brush of the colour `col` is cached and is the active brush. -/
def BrushReady (col : Int) (s : CDevEMF) : Prop :=
  ∃ b, s.m_Brushes.find? (brushEquiv (SBrush col)) = some b ∧ b.ihBrush = s.m_CurrBrush

/-- The later state `t` has the records of `s` and, after them, records `pre`
none of which is a drawing record. -/
def Setup (s t : CDevEMF) (pre : List Rcd) : Prop :=
  t.written = s.written ++ pre ∧ ∀ q ∈ pre, q.isPrimitive = false

/-- Whether a call is `NewPage`. -/
def Op.isNewPage : Op → Bool
  | .NewPage _ => true
  | _ => false

/-- What the record `r` needs of the records `before` it in the stream: a
select-object record refers to a handle that a creation record before it
defines; a set-miter-limit record comes right after the select-object record of
a pen created before that. -/
def RecordOk (before : List Rcd) : Rcd → Prop
  | .S_SELECTOBJECT h => h ∈ before.filterMap Rcd.creationHandle
  | .S_SETMITERLIMIT _ =>
      ∃ a h, before = a ++ [Rcd.S_SELECTOBJECT h]
        ∧ h ∈ (a.filterMap Rcd.asPen).map (fun p => p.ihPen)
  | _ => True

/-- Every record of the stream `w` has what it needs before it. -/
def StreamOk (w : List Rcd) : Prop :=
  ∀ (a : List Rcd) (r : Rcd) (b : List Rcd), w = a ++ r :: b → RecordOk a r

/-- The stream is in order and each active handle is 0 or that of a cached
resource of its kind. -/
structure Active (s : CDevEMF) : Prop where
  stream : StreamOk s.written
  pen : s.m_CurrPen = 0 ∨ ∃ p ∈ s.m_Pens, p.ihPen = s.m_CurrPen
  brush : s.m_CurrBrush = 0 ∨ ∃ b ∈ s.m_Brushes, b.ihBrush = s.m_CurrBrush
  font : s.m_CurrFont = 0 ∨ ∃ f ∈ s.m_Fonts, f.ihFont = s.m_CurrFont

/-- A Unicode scalar value: a code point up to `0x10FFFF` that is no surrogate. -/
def IsScalar (cp : Nat) : Prop := cp < 0xD800 ∨ (0xE000 ≤ cp ∧ cp ≤ 0x10FFFF)

/-- The UTF-8 bytes of one code point (the shortest form). -/
def utf8Unit (cp : Nat) : List Nat :=
  if cp < 0x80 then [cp]
  else if cp < 0x800 then [0xC0 + cp / 64, 0x80 + cp % 64]
  else if cp < 0x10000 then [0xE0 + cp / 4096, 0x80 + cp / 64 % 64, 0x80 + cp % 64]
  else [0xF0 + cp / 262144, 0x80 + cp / 4096 % 64, 0x80 + cp / 64 % 64, 0x80 + cp % 64]

/-- The UTF-8 bytes of a list of code points. -/
def utf8Encode : List Nat → List Nat
  | [] => []
  | cp :: cps => utf8Unit cp ++ utf8Encode cps

/-- Valid UTF-8: the bytes are the UTF-8 encoding of a sequence of Unicode
scalar values. -/
def ValidUTF8 (s : List Nat) : Prop :=
  ∃ cps : List Nat, (∀ cp ∈ cps, IsScalar cp) ∧ s = utf8Encode cps

/-- The number of 16-bit code units of the UTF-16 form of a list of code
points: two for a code point above `0xFFFF`, one otherwise. -/
def utf16Units (cps : List Nat) : Nat :=
  (cps.map (fun cp => if cp < 0x10000 then 1 else 2)).sum

/-- The loop of the `SPen` constructor that fills the dash array `arr`
(`styleEntries = new EMF::TUInt4[elp.numEntries]`), started at the index `i`
with `fuel = 8 - i`:
`for(int i = 0; i < 8 && lty & 15; ++i, lty >>= 4) styleEntries[i] = x_Inches2Dev((lty & 15)/72.);`
`none` when an index is outside of the array. -/
def ltyFill : Nat → Nat → Int → List Nat → Option (List Nat)
  | 0, _, _, arr => some arr
  | fuel + 1, i, lty, arr =>
      if lty % 16 ≠ 0 then
        if i < arr.length then
          ltyFill fuel (i + 1) (lty / 16)
            (arr.set i (x_Inches2Dev (((lty % 16 : Int) : ℚ) / 72)).toNat)
        else none
      else some arr

/-- The `i`-th group of 4 bits of a line type, the lowest group first (for a
negative `int` the bits of its two's complement). -/
def ltyGroup (lty : Int) (i : Nat) : Int := lty / 16 ^ i % 16

/-- One font lookup between the states `s` and `t`: nothing changes, or one
font that is not in the cache gets the next handle, is put into the cache and
its creation record is written. -/
def FontStep (s t : CDevEMF) : Prop :=
  t = s ∨ ∃ font : EMF.SFont, s.m_Fonts.find? (fontEquiv font) = none
    ∧ t = x_WriteRcd (Rcd.SFont { font with ihFont := s.m_LastHandle + 1 })
          { s with m_LastHandle := s.m_LastHandle + 1,
                   m_Fonts := s.m_Fonts ++ [{ font with ihFont := s.m_LastHandle + 1 }] }

/-- Between `s` and `t` only fonts have been put into the cache: the active
handles, the text colour and alignment, the pens and the brushes are those of
`s`, and the records written are font creation records, one for each new
handle and each new font of the cache. -/
structure FontsOnly (s t : CDevEMF) : Prop where
  font : t.m_CurrFont = s.m_CurrFont
  pen : t.m_CurrPen = s.m_CurrPen
  brush : t.m_CurrBrush = s.m_CurrBrush
  textCol : t.m_CurrTextCol = s.m_CurrTextCol
  hadj : t.m_CurrHadj = s.m_CurrHadj
  pens : t.m_Pens = s.m_Pens
  brushes : t.m_Brushes = s.m_Brushes
  records : ∃ rs : List Rcd, t.written = s.written ++ rs
    ∧ (∀ r ∈ rs, ∃ f, r = Rcd.SFont f)
    ∧ rs.filterMap Rcd.selectedHandle = []
    ∧ t.m_LastHandle = s.m_LastHandle + rs.length
    ∧ t.m_Fonts.length = s.m_Fonts.length + rs.length
    ∧ t.m_NumRecords = s.m_NumRecords + rs.length

/-- A graphics context with the opaque line colour whose red, green and blue
are the three low bytes of `i`. -/
def penOfColour (i : Nat) : GEcontext := { gcBlack with col := -16777216 + (i : Int) }

/-- The calls `Polyline(0, .., gc)` for `n` graphics contexts with `n`
different line colours. -/
def manyPens (n : Nat) : List Op :=
  (List.range n).map (fun i => Op.Polyline 0 [] [] (penOfColour i))

/-- The graphics context that a call receives: each operation has the
parameter `const pGEcontext gc`, a constant pointer to a structure that the
operation may write. -/
def Op.gc : Op → GEcontext
  | .NewPage gc => gc
  | .Line _ _ _ _ gc => gc
  | .Polyline _ _ _ gc => gc
  | .Polygon _ _ _ gc => gc
  | .Rect _ _ _ _ gc => gc
  | .Circle _ _ _ gc => gc
  | .TextUTF8 _ _ _ _ _ gc => gc
  | .MetricInfo _ gc => gc
  | .StrWidth gc => gc

theorem TUInt4_length (v : Nat) : (TUInt4 v).length = 4 := rfl

theorem TInt4_length (v : Int) : (TInt4 v).length = 4 := rfl

theorem readUInt4_TUInt4 (v : Nat) : readUInt4 (TUInt4 v) 0 = v % 4294967296 := by
  simp only [readUInt4, TUInt4, List.getD_cons_zero, List.getD_cons_succ, Nat.zero_add]
  omega

theorem getD_append_left_lt (a b : List Nat) (i : Nat) (h : i < a.length) :
    (a ++ b).getD i 0 = a.getD i 0 := by
  simp [List.getD_eq_getElem?_getD, List.getElem?_append_left h]

theorem getD_append_right_ge (a b : List Nat) (i : Nat) (h : a.length ≤ i) :
    (a ++ b).getD i 0 = b.getD (i - a.length) 0 := by
  simp [List.getD_eq_getElem?_getD, List.getElem?_append_right h]

theorem readUInt4_append_right (a b : List Nat) (off : Nat) (h : a.length ≤ off) :
    readUInt4 (a ++ b) off = readUInt4 b (off - a.length) := by
  unfold readUInt4
  rw [getD_append_right_ge a b off h, getD_append_right_ge a b (off + 1) (by omega),
    getD_append_right_ge a b (off + 2) (by omega), getD_append_right_ge a b (off + 3) (by omega)]
  have e1 : off + 1 - a.length = off - a.length + 1 := by omega
  have e2 : off + 2 - a.length = off - a.length + 2 := by omega
  have e3 : off + 3 - a.length = off - a.length + 3 := by omega
  rw [e1, e2, e3]

theorem readUInt4_append_left (a b : List Nat) (off : Nat) (h : off + 4 ≤ a.length) :
    readUInt4 (a ++ b) off = readUInt4 a off := by
  unfold readUInt4
  rw [getD_append_left_lt a b off (by omega), getD_append_left_lt a b (off + 1) (by omega),
    getD_append_left_lt a b (off + 2) (by omega), getD_append_left_lt a b (off + 3) (by omega)]

/-- The number of bytes `x_WriteRcd` writes for a serialisation of `n` bytes. -/
theorem pad4_facts (n : Nat) :
    (n + 3) / 4 * 4 % 4 = 0 ∧ n ≤ (n + 3) / 4 * 4 ∧ (n + 3) / 4 * 4 < n + 4 := by
  omega

theorem x_WriteRcdBytes_eq (buff : List Nat) (h : 8 ≤ buff.length) :
    x_WriteRcdBytes buff =
      some (buff.take 4 ++ TUInt4 ((buff.length + 3) / 4 * 4)
        ++ (buff.drop 8 ++ List.replicate ((buff.length + 3) / 4 * 4 - buff.length) 0)) := by
  have hp := pad4_facts buff.length
  have hlen : (stringResize buff ((buff.length + 3) / 4 * 4) 0).length
      = (buff.length + 3) / 4 * 4 := by
    simp [stringResize]; omega
  have hres : stringResize buff ((buff.length + 3) / 4 * 4) 0
      = buff ++ List.replicate ((buff.length + 3) / 4 * 4 - buff.length) 0 := by
    simp [stringResize, List.take_of_length_le hp.2.1]
  unfold x_WriteRcdBytes stringReplace
  simp only [hlen]
  rw [if_neg (by omega)]
  have hmin : 4 + min 4 ((buff.length + 3) / 4 * 4 - 4) = 8 := by omega
  rw [hmin, hres, List.take_append_of_le_length (by omega),
    List.drop_append_of_le_length (by omega)]

theorem x_WriteRcdBytes_length (buff : List Nat) (h : 8 ≤ buff.length) (out : List Nat)
    (ho : x_WriteRcdBytes buff = some out) : out.length = (buff.length + 3) / 4 * 4 := by
  rw [x_WriteRcdBytes_eq buff h] at ho
  have hp := pad4_facts buff.length
  cases ho
  simp [TUInt4_length]
  omega

theorem x_WriteRcdBytes_size (buff : List Nat) (h : 8 ≤ buff.length) (out : List Nat)
    (ho : x_WriteRcdBytes buff = some out) :
    readUInt4 out 4 = (buff.length + 3) / 4 * 4 % 4294967296 := by
  rw [x_WriteRcdBytes_eq buff h] at ho
  cases ho
  rw [List.append_assoc, readUInt4_append_right _ _ 4 (by simp)]
  have : (List.take 4 buff).length = 4 := by simp; omega
  rw [this, Nat.sub_self, readUInt4_append_left _ _ 0 (by simp [TUInt4_length]),
    readUInt4_TUInt4]

theorem Serialize_length (r : Rcd) : (Serialize r).length = 8 + r.payload.length := by
  simp [Serialize, TUInt4_length]
  omega

theorem Serialize_length_ge (r : Rcd) : 8 ≤ (Serialize r).length := by
  rw [Serialize_length]; omega

theorem frameOf_eq (r : Rcd) : x_WriteRcdBytes (Serialize r) = some (frameOf r) := by
  unfold frameOf
  rw [x_WriteRcdBytes_eq _ (Serialize_length_ge r)]
  rfl

theorem frameOf_length (r : Rcd) :
    (frameOf r).length = ((Serialize r).length + 3) / 4 * 4 :=
  x_WriteRcdBytes_length _ (Serialize_length_ge r) _ (frameOf_eq r)

theorem frameOf_length_mod (r : Rcd) : (frameOf r).length % 4 = 0 := by
  rw [frameOf_length]; omega

theorem frameOf_length_ge (r : Rcd) : 8 ≤ (frameOf r).length := by
  have := Serialize_length_ge r
  rw [frameOf_length]; omega

theorem frameOf_size (r : Rcd) :
    readUInt4 (frameOf r) 4 = (frameOf r).length % 4294967296 := by
  rw [frameOf_length]
  exact x_WriteRcdBytes_size _ (Serialize_length_ge r) _ (frameOf_eq r)

theorem x_WriteRcd_eq (r : Rcd) (s : CDevEMF) :
    x_WriteRcd r s =
      { s with m_File := s.m_File ++ frameOf r, m_NumRecords := s.m_NumRecords + 1,
               written := s.written ++ [r] } := by
  simp [x_WriteRcd, x_WriteRcdBuff, frameOf_eq]

/-! ## Elementary actions keep the invariant -/

theorem streamOf_append (a b : List Rcd) : streamOf (a ++ b) = streamOf a ++ streamOf b := by
  induction a with
  | nil => rfl
  | cons r a ih => simp [streamOf, ih]

theorem streamOf_singleton (r : Rcd) : streamOf [r] = frameOf r := by
  simp [streamOf]

theorem Acts.single {s t : CDevEMF} (h : Act s t) : Acts s t :=
  Acts.tail s s t (Acts.refl s) h

theorem Acts.andThen {s t u : CDevEMF} (h1 : Acts s t) (h2 : Acts t u) : Acts s u := by
  induction h2 with
  | refl => exact h1
  | tail v w _ hvw ih => exact Acts.tail s v w ih hvw

theorem range'_one_succ (m : Nat) : List.range' 1 (m + 1) = List.range' 1 m ++ [m + 1] := by
  rw [List.range'_1_concat]
  simp [Nat.add_comm]

theorem penEquiv_ihPen (pen a : EMF.S_EXTCREATEPEN) (h : Nat) :
    penEquiv { pen with ihPen := h } a = penEquiv pen a := rfl

theorem brushEquiv_ihBrush (b a : EMF.SBrush) (h : Nat) :
    brushEquiv { b with ihBrush := h } a = brushEquiv b a := rfl

theorem fontEquiv_ihFont (f a : EMF.SFont) (h : Nat) :
    fontEquiv { f with ihFont := h } a = fontEquiv f a := rfl

/-- Writing a record that creates nothing keeps the invariant. -/
theorem Inv.afterWrite {s : CDevEMF} (hs : Inv s) (r : Rcd) (hp : r.asPen = none)
    (hb : r.asBrush = none) (hf : r.asFont = none) (hc : r.creationHandle = none) :
    Inv (x_WriteRcd r s) := by
  rw [x_WriteRcd_eq]
  constructor
  · simp [streamOf_append, streamOf_singleton, hs.file]
  · simp [hs.count]
  · simp [List.filterMap_append, hp, hs.pens]
  · simp [List.filterMap_append, hb, hs.brushes]
  · simp [List.filterMap_append, hf, hs.fonts]
  · simp [List.filterMap_append, hc, hs.created]
  · exact hs.pensDistinct
  · exact hs.brushesDistinct
  · exact hs.fontsDistinct

theorem isPlain_facts (r : Rcd) (h : r.isPlain = true) :
    r.asPen = none ∧ r.asBrush = none ∧ r.asFont = none ∧ r.creationHandle = none
      ∧ r.selectedHandle = none := by
  cases r <;> simp_all [Rcd.isPlain, Rcd.asPen, Rcd.asBrush, Rcd.asFont, Rcd.creationHandle,
    Rcd.selectedHandle]

/-- A change of fields that are no part of the invariant keeps it. -/
theorem Inv.sameCore {s t : CDevEMF} (hs : Inv s) (h1 : t.m_File = s.m_File)
    (h2 : t.m_NumRecords = s.m_NumRecords) (h3 : t.written = s.written)
    (h4 : t.m_Pens = s.m_Pens) (h5 : t.m_Brushes = s.m_Brushes) (h6 : t.m_Fonts = s.m_Fonts)
    (h7 : t.m_LastHandle = s.m_LastHandle) : Inv t := by
  constructor
  · rw [h1, h3]; exact hs.file
  · rw [h2, h3]; exact hs.count
  · rw [h3, h4]; exact hs.pens
  · rw [h3, h5]; exact hs.brushes
  · rw [h3, h6]; exact hs.fonts
  · rw [h3, h7]; exact hs.created
  · rw [h4]; exact hs.pensDistinct
  · rw [h5]; exact hs.brushesDistinct
  · rw [h6]; exact hs.fontsDistinct

theorem Act.keepsInv {s t : CDevEMF} (h : Act s t) (hs : Inv s) : Inv t := by
  cases h with
  | write r hr =>
      obtain ⟨h1, h2, h3, h4, _⟩ := isPlain_facts r hr
      exact hs.afterWrite r h1 h2 h3 h4
  | newPen pen hfind =>
      rw [x_WriteRcd_eq]
      have hnone : ∀ a ∈ s.m_Pens, penEquiv pen a = false := by
        intro a ha
        have := List.find?_eq_none.mp hfind a ha
        simpa using this
      constructor
      · simp [streamOf_append, streamOf_singleton, hs.file]
      · simp [hs.count]
      · simp [List.filterMap_append, Rcd.asPen, hs.pens]
      · simp [List.filterMap_append, Rcd.asBrush, hs.brushes]
      · simp [List.filterMap_append, Rcd.asFont, hs.fonts]
      · simp [List.filterMap_append, Rcd.creationHandle, hs.created, range'_one_succ]
      · simp only [List.pairwise_append]
        refine ⟨hs.pensDistinct, by simp, ?_⟩
        intro a ha b hb
        simp only [List.mem_singleton] at hb
        subst hb
        exact hnone a ha
      · exact hs.brushesDistinct
      · exact hs.fontsDistinct
  | newBrush brush hfind =>
      rw [x_WriteRcd_eq]
      have hnone : ∀ a ∈ s.m_Brushes, brushEquiv brush a = false := by
        intro a ha
        have := List.find?_eq_none.mp hfind a ha
        simpa using this
      constructor
      · simp [streamOf_append, streamOf_singleton, hs.file]
      · simp [hs.count]
      · simp [List.filterMap_append, Rcd.asPen, hs.pens]
      · simp [List.filterMap_append, Rcd.asBrush, hs.brushes]
      · simp [List.filterMap_append, Rcd.asFont, hs.fonts]
      · simp [List.filterMap_append, Rcd.creationHandle, hs.created, range'_one_succ]
      · exact hs.pensDistinct
      · simp only [List.pairwise_append]
        refine ⟨hs.brushesDistinct, by simp, ?_⟩
        intro a ha b hb
        simp only [List.mem_singleton] at hb
        subst hb
        exact hnone a ha
      · exact hs.fontsDistinct
  | newFont font hfind =>
      rw [x_WriteRcd_eq]
      have hnone : ∀ a ∈ s.m_Fonts, fontEquiv font a = false := by
        intro a ha
        have := List.find?_eq_none.mp hfind a ha
        simpa using this
      constructor
      · simp [streamOf_append, streamOf_singleton, hs.file]
      · simp [hs.count]
      · simp [List.filterMap_append, Rcd.asPen, hs.pens]
      · simp [List.filterMap_append, Rcd.asBrush, hs.brushes]
      · simp [List.filterMap_append, Rcd.asFont, hs.fonts]
      · simp [List.filterMap_append, Rcd.creationHandle, hs.created, range'_one_succ]
      · exact hs.pensDistinct
      · exact hs.brushesDistinct
      · simp only [List.pairwise_append]
        refine ⟨hs.fontsDistinct, by simp, ?_⟩
        intro a ha b hb
        simp only [List.mem_singleton] at hb
        subst hb
        exact hnone a ha
  | selectPen p miter _ =>
      have h1 : Inv { x_CreateRcdSelectObj p.ihPen s with m_CurrPen := p.ihPen } :=
        (hs.afterWrite (Rcd.S_SELECTOBJECT p.ihPen) rfl rfl rfl rfl).sameCore rfl rfl rfl rfl rfl rfl rfl
      cases miter with
      | none => exact h1
      | some m => exact h1.afterWrite (Rcd.S_SETMITERLIMIT m) rfl rfl rfl rfl
  | selectBrush b _ =>
      exact (hs.afterWrite (Rcd.S_SELECTOBJECT b.ihBrush) rfl rfl rfl rfl).sameCore
        rfl rfl rfl rfl rfl rfl rfl
  | selectFont f _ =>
      exact (hs.afterWrite (Rcd.S_SELECTOBJECT f.ihFont) rfl rfl rfl rfl).sameCore
        rfl rfl rfl rfl rfl rfl rfl
  | setHAdj hadj =>
      unfold x_SetHAdj
      split
      · exact (hs.afterWrite (Rcd.S_SETTEXTALIGN _) rfl rfl rfl rfl).sameCore
          rfl rfl rfl rfl rfl rfl rfl
      · exact hs
  | setTextColor col =>
      unfold x_SetTextColor
      split
      · exact (hs.afterWrite (Rcd.S_SETTEXTCOLOR _) rfl rfl rfl rfl).sameCore
          rfl rfl rfl rfl rfl rfl rfl
      · exact hs
  | warn msg => exact hs.sameCore rfl rfl rfl rfl rfl rfl rfl
  | page n => exact hs.sameCore rfl rfl rfl rfl rfl rfl rfl

theorem Acts.keepInv {s t : CDevEMF} (h : Acts s t) (hs : Inv s) : Inv t := by
  induction h with
  | refl => exact hs
  | tail u v _ huv ih => exact huv.keepsInv ih

/-! ## Every operation is a sequence of elementary actions -/

theorem Acts.warnIf (c : Prop) [Decidable c] (msg : String) (s : CDevEMF) :
    Acts s (if c then Rf_warning msg s else s) := by
  split
  · exact Acts.single (Act.warn s msg)
  · exact Acts.refl s

/-- The pen lookup: elementary actions, and the handle it returns is that of a
cached pen equivalent to the pen of `gc`. -/
theorem x_SetLinetype_intern_acts (gc : GEcontext) (s : CDevEMF) :
    Acts s (x_SetLinetype_intern gc s).1 ∧
      ∃ p ∈ (x_SetLinetype_intern gc s).1.m_Pens,
        p.ihPen = (x_SetLinetype_intern gc s).2 := by
  unfold x_SetLinetype_intern
  have h0 := Acts.warnIf (penWarnsLty gc s.m_UseUserLty = true)
    "Using lty unsupported by EMF device" s
  generalize (if penWarnsLty gc s.m_UseUserLty = true then
    Rf_warning "Using lty unsupported by EMF device" s else s) = s0 at h0
  simp only
  cases hfind : s0.m_Pens.find? (penEquiv (SPen gc s.m_UseUserLty)) with
  | none =>
      simp only
      have h1 := Acts.warnIf (0 < R_ALPHA gc.col ∧ R_ALPHA gc.col < 255)
        "partial transparency is not supported for EMF" s0
      have hp : (if 0 < R_ALPHA gc.col ∧ R_ALPHA gc.col < 255 then
          Rf_warning "partial transparency is not supported for EMF" s0 else s0).m_Pens
          = s0.m_Pens := by
        split <;> rfl
      generalize (if 0 < R_ALPHA gc.col ∧ R_ALPHA gc.col < 255 then
        Rf_warning "partial transparency is not supported for EMF" s0 else s0) = s1 at h1 hp
      rw [← hp] at hfind
      refine ⟨(h0.andThen h1).andThen (Acts.single (Act.newPen s1 _ hfind)), ?_⟩
      refine ⟨{ SPen gc s.m_UseUserLty with ihPen := s1.m_LastHandle + 1 }, ?_, rfl⟩
      simp [x_WriteRcd_eq]
  | some i =>
      simp only
      exact ⟨h0, i, List.mem_of_find?_eq_some hfind, rfl⟩

theorem x_SetLinetype_acts (gc : GEcontext) (s : CDevEMF) : Acts s (x_SetLinetype gc s) := by
  obtain ⟨h1, p, hp, hih⟩ := x_SetLinetype_intern_acts gc s
  unfold x_SetLinetype
  generalize x_SetLinetype_intern gc s = res at h1 hp hih
  obtain ⟨s1, ih⟩ := res
  simp only at h1 hp hih ⊢
  subst hih
  split
  · split
    · exact h1.andThen (Acts.single (Act.selectPen s1 p (some _) hp))
    · exact h1.andThen (Acts.single (Act.selectPen s1 p none hp))
  · exact h1

theorem x_SetFill_intern_acts (col : Int) (s : CDevEMF) :
    Acts s (x_SetFill_intern col s).1 ∧
      ∃ b ∈ (x_SetFill_intern col s).1.m_Brushes, b.ihBrush = (x_SetFill_intern col s).2 := by
  unfold x_SetFill_intern
  simp only
  cases hfind : s.m_Brushes.find? (brushEquiv (SBrush col)) with
  | none =>
      simp only
      have h1 := Acts.warnIf (0 < R_ALPHA col ∧ R_ALPHA col < 255)
        "partial transparency is not supported for EMF" s
      have hp : (if 0 < R_ALPHA col ∧ R_ALPHA col < 255 then
          Rf_warning "partial transparency is not supported for EMF" s else s).m_Brushes
          = s.m_Brushes := by
        split <;> rfl
      generalize (if 0 < R_ALPHA col ∧ R_ALPHA col < 255 then
        Rf_warning "partial transparency is not supported for EMF" s else s) = s1 at h1 hp
      rw [← hp] at hfind
      refine ⟨h1.andThen (Acts.single (Act.newBrush s1 _ hfind)), ?_⟩
      refine ⟨{ SBrush col with ihBrush := s1.m_LastHandle + 1 }, ?_, rfl⟩
      simp [x_WriteRcd_eq]
  | some i =>
      simp only
      exact ⟨Acts.refl s, i, List.mem_of_find?_eq_some hfind, rfl⟩

theorem x_SetFill_acts (col : Int) (s : CDevEMF) : Acts s (x_SetFill col s) := by
  obtain ⟨h1, b, hb, hih⟩ := x_SetFill_intern_acts col s
  unfold x_SetFill
  generalize x_SetFill_intern col s = res at h1 hb hih
  obtain ⟨s1, ih⟩ := res
  simp only at h1 hb hih ⊢
  subst hih
  split
  · exact h1.andThen (Acts.single (Act.selectBrush s1 b hb))
  · exact h1

theorem x_LoadFont_acts (face : Int) (size : ℚ) (rot : Int) (family : List Nat) (s s1 : CDevEMF)
    (font : EMF.SFont) (h : x_LoadFont face size rot family s = some (s1, font)) :
    Acts s s1 ∧ font ∈ s1.m_Fonts := by
  unfold x_LoadFont at h
  simp only at h
  split at h
  · exact absurd h (by simp)
  · rename_i newFont _
    split at h
    · rename_i hfind
      simp only [Option.some.injEq, Prod.mk.injEq] at h
      obtain ⟨h1, h2⟩ := h
      subst h1 h2
      refine ⟨Acts.single (Act.newFont s newFont hfind), ?_⟩
      simp [x_WriteRcd_eq]
    · rename_i i hfind
      simp only [Option.some.injEq, Prod.mk.injEq] at h
      obtain ⟨h1, h2⟩ := h
      subst h1 h2
      exact ⟨Acts.refl s, List.mem_of_find?_eq_some hfind⟩

theorem x_SetFont_acts (face : Int) (size : ℚ) (rot : Int) (family : List Nat) (s t : CDevEMF)
    (h : x_SetFont face size rot family s = some t) : Acts s t := by
  unfold x_SetFont at h
  split at h
  · exact absurd h (by simp)
  · rename_i s1 font hload
    obtain ⟨h1, hmem⟩ := x_LoadFont_acts face size rot family s s1 font hload
    split at h
    · simp only [Option.some.injEq] at h
      subst h
      exact h1.andThen (Acts.single (Act.selectFont s1 font hmem))
    · simp only [Option.some.injEq] at h
      subst h
      exact h1

theorem Acts.writePlain (s : CDevEMF) (r : Rcd) (h : r.isPlain = true) : Acts s (x_WriteRcd r s) :=
  Acts.single (Act.write s r h)

theorem Polyline_acts (n : Nat) (x y : List ℚ) (gc : GEcontext) (s : CDevEMF) :
    Acts s (Polyline n x y gc s) :=
  (x_SetLinetype_acts gc s).andThen (Acts.writePlain _ _ rfl)

theorem Line_acts (x1 y1 x2 y2 : ℚ) (gc : GEcontext) (s : CDevEMF) :
    Acts s (Line x1 y1 x2 y2 gc s) := by
  unfold Line
  split
  · exact (x_SetLinetype_acts gc s).andThen (Polyline_acts _ _ _ gc _)
  · exact Acts.refl s

theorem Rect_acts (x0 y0 x1 y1 : ℚ) (gc : GEcontext) (s : CDevEMF) :
    Acts s (Rect x0 y0 x1 y1 gc s) :=
  ((x_SetLinetype_acts gc s).andThen (x_SetFill_acts gc.fill _)).andThen (Acts.writePlain _ _ rfl)

theorem Circle_acts (x y r : ℚ) (gc : GEcontext) (s : CDevEMF) :
    Acts s (Circle x y r gc s) :=
  ((x_SetLinetype_acts gc s).andThen (x_SetFill_acts gc.fill _)).andThen (Acts.writePlain _ _ rfl)

theorem Polygon_acts (n : Nat) (x y : List ℚ) (gc : GEcontext) (s : CDevEMF) :
    Acts s (Polygon n x y gc s) :=
  ((x_SetLinetype_acts gc s).andThen (x_SetFill_acts gc.fill _)).andThen (Acts.writePlain _ _ rfl)

theorem TextUTF8_acts (x y : ℚ) (str : List Nat) (rot hadj : ℚ) (gc : GEcontext)
    (s : CDevEMF) : Acts s (TextUTF8 x y str rot hadj gc s) := by
  unfold TextUTF8
  split
  · exact Acts.refl s
  · rename_i s1 hfont
    have h1 := x_SetFont_acts _ _ _ _ s s1 hfont
    have h2 : Acts s (x_SetTextColor gc.col (x_SetHAdj hadj s1)) :=
      (h1.andThen (Acts.single (Act.setHAdj s1 hadj))).andThen
        (Acts.single (Act.setTextColor _ gc.col))
    simp only
    split
    · exact h2
    · exact h2.andThen (Acts.writePlain _ _ rfl)

theorem NewPage_acts (gc : GEcontext) (s : CDevEMF) : Acts s (NewPage gc s).1 := by
  unfold NewPage
  have h1 : Acts s { s with m_PageNum := s.m_PageNum + 1 } := Acts.single (Act.page s _)
  have h2 := h1.andThen (Acts.warnIf (1 < ({ s with m_PageNum := s.m_PageNum + 1 } : CDevEMF).m_PageNum)
    "Multiple pages not available for EMF device" { s with m_PageNum := s.m_PageNum + 1 })
  simp only
  split
  · exact h2.andThen (Rect_acts _ _ _ _ _ _)
  · exact h2

theorem StrWidth_acts (gc : GEcontext) (s : CDevEMF) : Acts s (StrWidth gc s) := by
  unfold StrWidth
  split
  · exact Acts.refl s
  · rename_i s1 font h
    exact (x_LoadFont_acts _ _ _ _ s s1 font h).1

theorem MetricInfo_acts (hasChar : Bool) (gc : GEcontext) (s : CDevEMF) :
    Acts s (MetricInfo hasChar gc s) := by
  unfold MetricInfo
  split
  · exact Acts.refl s
  · rename_i s1 font h
    have h1 := (x_LoadFont_acts _ _ _ _ s s1 font h).1
    split
    · split
      · exact h1
      · rename_i s2 font2 h'
        exact h1.andThen (x_LoadFont_acts _ _ _ _ s1 s2 font2 h').1
    · exact h1

theorem Op.apply_acts (op : Op) (s : CDevEMF) : Acts s (op.apply s) := by
  cases op with
  | NewPage gc => exact NewPage_acts gc s
  | Line x1 y1 x2 y2 gc => exact Line_acts x1 y1 x2 y2 gc s
  | Polyline n x y gc => exact Polyline_acts n x y gc s
  | Polygon n x y gc => exact Polygon_acts n x y gc s
  | Rect x0 y0 x1 y1 gc => exact Rect_acts x0 y0 x1 y1 gc s
  | Circle x y r gc => exact Circle_acts x y r gc s
  | TextUTF8 x y str rot hadj gc => exact TextUTF8_acts x y str rot hadj gc s
  | MetricInfo hasChar gc => exact MetricInfo_acts hasChar gc s
  | StrWidth gc => exact StrWidth_acts gc s

theorem runOps_acts (ops : List Op) (s : CDevEMF) : Acts s (runOps ops s) := by
  induction ops generalizing s with
  | nil => exact Acts.refl s
  | cons op ops ih => exact (op.apply_acts s).andThen (ih _)

theorem x_CreateRcdHeader_acts (s : CDevEMF) : Acts s (x_CreateRcdHeader s) := by
  unfold x_CreateRcdHeader
  split
  · exact Acts.refl s
  · exact ((Acts.writePlain _ (Rcd.SHeader _) rfl).andThen (Acts.writePlain _ (Rcd.S_SETBKMODE _) rfl)).andThen
      (Acts.writePlain _ (Rcd.S_SETMAPMODE _) rfl)

theorem Inv_new (userLty : Bool) (family : List Nat) (width height : Int) :
    Inv { CDevEMF.new userLty family with m_Width := width, m_Height := height } := by
  constructor <;> simp [CDevEMF.new, streamOf]

theorem session_acts (userLty : Bool) (family : List Nat) (width height : Int)
    (ops : List Op) :
    Acts { CDevEMF.new userLty family with m_Width := width, m_Height := height }
      (session userLty family width height ops) := by
  unfold session Open
  exact (x_CreateRcdHeader_acts _).andThen (runOps_acts ops _)

theorem session_inv (userLty : Bool) (family : List Nat) (width height : Int)
    (ops : List Op) : Inv (session userLty family width height ops) :=
  (session_acts userLty family width height ops).keepInv (Inv_new userLty family width height)

/-! ## What is cached and written stays -/

theorem Ext.refl (s : CDevEMF) : Ext s s :=
  ⟨⟨[], by simp⟩, ⟨[], by simp⟩, ⟨[], by simp⟩, ⟨[], by simp⟩, rfl, rfl, rfl, rfl, Nat.le_refl _⟩

theorem Ext.extTrans {s t u : CDevEMF} (h1 : Ext s t) (h2 : Ext t u) : Ext s u := by
  obtain ⟨⟨w1, hw1⟩, ⟨p1, hp1⟩, ⟨b1, hb1⟩, ⟨f1, hf1⟩, hl1, hd1, hx1, hy1, hh1⟩ := h1
  obtain ⟨⟨w2, hw2⟩, ⟨p2, hp2⟩, ⟨b2, hb2⟩, ⟨f2, hf2⟩, hl2, hd2, hx2, hy2, hh2⟩ := h2
  refine ⟨⟨w1 ++ w2, ?_⟩, ⟨p1 ++ p2, ?_⟩, ⟨b1 ++ b2, ?_⟩, ⟨f1 ++ f2, ?_⟩, ?_, ?_, ?_, ?_, ?_⟩
  · rw [hw2, hw1, List.append_assoc]
  · rw [hp2, hp1, List.append_assoc]
  · rw [hb2, hb1, List.append_assoc]
  · rw [hf2, hf1, List.append_assoc]
  · rw [hl2, hl1]
  · rw [hd2, hd1]
  · rw [hx2, hx1]
  · rw [hy2, hy1]
  · exact Nat.le_trans hh1 hh2

theorem Ext.ofWrite (s : CDevEMF) (r : Rcd) : Ext s (x_WriteRcd r s) := by
  rw [x_WriteRcd_eq]
  exact ⟨⟨[r], rfl⟩, ⟨[], by simp⟩, ⟨[], by simp⟩, ⟨[], by simp⟩, rfl, rfl, rfl, rfl,
    Nat.le_refl _⟩

/-- A change of fields that are no part of `Ext` keeps it. -/
theorem Ext.sameExt {s t u : CDevEMF} (h : Ext s t) (h3 : u.written = t.written)
    (h4 : u.m_Pens = t.m_Pens) (h5 : u.m_Brushes = t.m_Brushes) (h6 : u.m_Fonts = t.m_Fonts)
    (h7 : u.m_LastHandle = t.m_LastHandle) (h8 : u.m_UseUserLty = t.m_UseUserLty)
    (h9 : u.m_DefaultFontFamily = t.m_DefaultFontFamily) (h10 : u.m_Width = t.m_Width)
    (h11 : u.m_Height = t.m_Height) : Ext s u := by
  obtain ⟨hw, hp, hb, hf, hl, hd, hx, hy, hh⟩ := h
  exact ⟨by rw [h3]; exact hw, by rw [h4]; exact hp, by rw [h5]; exact hb, by rw [h6]; exact hf,
    by rw [h8]; exact hl, by rw [h9]; exact hd, by rw [h10]; exact hx, by rw [h11]; exact hy,
    by rw [h7]; exact hh⟩

theorem Act.toExt {s t : CDevEMF} (h : Act s t) : Ext s t := by
  cases h with
  | write r _ => exact Ext.ofWrite s r
  | newPen pen _ =>
      rw [x_WriteRcd_eq]
      exact ⟨⟨[_], rfl⟩, ⟨[_], rfl⟩, ⟨[], by simp⟩, ⟨[], by simp⟩, rfl, rfl, rfl, rfl,
        Nat.le_succ _⟩
  | newBrush brush _ =>
      rw [x_WriteRcd_eq]
      exact ⟨⟨[_], rfl⟩, ⟨[], by simp⟩, ⟨[_], rfl⟩, ⟨[], by simp⟩, rfl, rfl, rfl, rfl,
        Nat.le_succ _⟩
  | newFont font _ =>
      rw [x_WriteRcd_eq]
      exact ⟨⟨[_], rfl⟩, ⟨[], by simp⟩, ⟨[], by simp⟩, ⟨[_], rfl⟩, rfl, rfl, rfl, rfl,
        Nat.le_succ _⟩
  | selectPen p miter _ =>
      have h1 : Ext s { x_CreateRcdSelectObj p.ihPen s with m_CurrPen := p.ihPen } :=
        (Ext.ofWrite s (Rcd.S_SELECTOBJECT p.ihPen)).sameExt rfl rfl rfl rfl rfl rfl rfl rfl rfl
      cases miter with
      | none => exact h1
      | some m => exact h1.extTrans (Ext.ofWrite _ _)
  | selectBrush b _ =>
      exact (Ext.ofWrite s (Rcd.S_SELECTOBJECT b.ihBrush)).sameExt rfl rfl rfl rfl rfl rfl rfl rfl rfl
  | selectFont f _ =>
      exact (Ext.ofWrite s (Rcd.S_SELECTOBJECT f.ihFont)).sameExt rfl rfl rfl rfl rfl rfl rfl rfl rfl
  | setHAdj hadj =>
      unfold x_SetHAdj
      split
      · exact (Ext.ofWrite s (Rcd.S_SETTEXTALIGN _)).sameExt rfl rfl rfl rfl rfl rfl rfl rfl rfl
      · exact Ext.refl s
  | setTextColor col =>
      unfold x_SetTextColor
      split
      · exact (Ext.ofWrite s (Rcd.S_SETTEXTCOLOR _)).sameExt rfl rfl rfl rfl rfl rfl rfl rfl rfl
      · exact Ext.refl s
  | warn msg => exact (Ext.refl s).sameExt rfl rfl rfl rfl rfl rfl rfl rfl rfl
  | page n => exact (Ext.refl s).sameExt rfl rfl rfl rfl rfl rfl rfl rfl rfl

theorem Acts.toExt1 {s t : CDevEMF} (h : Acts s t) : Ext s t := by
  induction h with
  | refl => exact Ext.refl s
  | tail u v _ huv ih => exact ih.extTrans huv.toExt

/-! ## The stream of a session -/

theorem headerDescription_utf16 :
    iConvUTF8toUTF16LE headerDescription =
      some [67, 0, 114, 0, 101, 0, 97, 0, 116, 0, 101, 0, 100, 0, 32, 0, 98, 0, 121, 0, 32, 0,
        82, 0, 32, 0, 117, 0, 115, 0, 105, 0, 110, 0, 103, 0, 32, 0, 100, 0, 101, 0, 118, 0,
        69, 0, 77, 0, 70, 0, 46, 0] := by
  decide

/-- The records `Open` writes: the header, then the two state records. -/
theorem x_CreateRcdHeader_written (s : CDevEMF) :
    ∃ emr : EMF.SHeader,
      x_CreateRcdHeader s =
        x_WriteRcd (Rcd.S_SETMAPMODE EMF.eMM_TEXT)
          (x_WriteRcd (Rcd.S_SETBKMODE EMF.eTRANSPARENT) (x_WriteRcd (Rcd.SHeader emr) s))
      ∧ emr.nBytes = 0 ∧ emr.nRecords = 0 ∧ emr.nHandles = 0 ∧ emr.reserved = 0 := by
  unfold x_CreateRcdHeader
  rw [headerDescription_utf16]
  exact ⟨_, rfl, rfl, rfl, rfl, rfl⟩

theorem session_written (userLty : Bool) (family : List Nat) (width height : Int)
    (ops : List Op) :
    ∃ (emr : EMF.SHeader) (rs : List Rcd),
      (session userLty family width height ops).written =
        Rcd.SHeader emr :: Rcd.S_SETBKMODE EMF.eTRANSPARENT
          :: Rcd.S_SETMAPMODE EMF.eMM_TEXT :: rs := by
  obtain ⟨emr, he, _⟩ := x_CreateRcdHeader_written
    { CDevEMF.new userLty family with m_Width := width, m_Height := height }
  obtain ⟨rs, hrs⟩ := (runOps_acts ops (Open true width height (CDevEMF.new userLty family)).1).toExt1.written
  refine ⟨emr, rs, ?_⟩
  unfold session
  rw [hrs]
  unfold Open
  simp only [Bool.not_true, Bool.false_eq_true, if_false]
  rw [he]
  simp [x_WriteRcd_eq, CDevEMF.new]

theorem header_frame_length_ge (emr : EMF.SHeader) : 108 ≤ (frameOf (Rcd.SHeader emr)).length := by
  have h : 108 ≤ (Serialize (Rcd.SHeader emr)).length := by
    simp [Serialize, Rcd.payload, serRect, serSize, TUInt4, TUInt2, TInt4]
  rw [frameOf_length]
  omega

/-! ## Walking a stream of frames -/

theorem walkRecords_frames (fs : List (List Nat))
    (h : ∀ f ∈ fs, 8 ≤ f.length ∧ readUInt4 f 4 = f.length) :
    ∀ fuel, fs.flatten.length ≤ fuel → walkRecords fuel fs.flatten = some fs := by
  induction fs with
  | nil =>
      intro fuel _
      cases fuel <;> simp [walkRecords]
  | cons f fs ih =>
      intro fuel hfuel
      obtain ⟨h8, hsz⟩ := h f (List.mem_cons_self f fs)
      have hrest : ∀ g ∈ fs, 8 ≤ g.length ∧ readUInt4 g 4 = g.length :=
        fun g hg => h g (List.mem_cons_of_mem f hg)
      simp only [List.flatten_cons, List.length_append] at hfuel ⊢
      cases fuel with
      | zero => omega
      | succ k =>
          have hne : f ++ fs.flatten ≠ [] := by
            intro hnil
            have hl : (f ++ fs.flatten).length = 0 := by rw [hnil]; rfl
            rw [List.length_append] at hl
            omega
          have hread : readUInt4 (f ++ fs.flatten) 4 = f.length := by
            rw [readUInt4_append_left f _ 4 (by omega), hsz]
          unfold walkRecords
          rw [if_neg hne, hread, if_pos ⟨h8, by simp⟩, List.drop_left, List.take_left,
            ih hrest k (by omega)]
          rfl

theorem streamOf_eq_flatten (rs : List Rcd) : streamOf rs = (rs.map frameOf).flatten := by
  induction rs with
  | nil => rfl
  | cons r rs ih => simp [streamOf, ih]

/-! ## `Close` -/

theorem seekpWrite_eq (f data : List Nat) (hf : 60 ≤ f.length) (hd : data.length = 12) :
    seekpWrite f (4 * 12) data = f.take 48 ++ data ++ f.drop 60 := by
  unfold seekpWrite
  have h0 : 4 * 12 - f.length = 0 := by omega
  rw [h0, hd]
  simp

theorem seekpWrite_length (f data : List Nat) (hf : 60 ≤ f.length) (hd : data.length = 12) :
    (seekpWrite f (4 * 12) data).length = f.length := by
  rw [seekpWrite_eq f data hf hd]
  simp [hd]
  omega

theorem closeData_length (a b c : Nat) : (closeData a b c).length = 12 := rfl

theorem readUInt4_closeData (A B : List Nat) (a b c : Nat) (hA : A.length = 48) :
    readUInt4 (A ++ closeData a b c ++ B) 48 = a % 4294967296
      ∧ readUInt4 (A ++ closeData a b c ++ B) 52 = b % 4294967296
      ∧ readUInt4 (A ++ closeData a b c ++ B) 56 = c % 4294967296 := by
  have e : A ++ closeData a b c ++ B = A ++ (TUInt4 a ++ (TUInt4 b ++ (TUInt4 c ++ B))) := by
    simp [closeData, List.append_assoc]
  rw [e]
  refine ⟨?_, ?_, ?_⟩
  · rw [readUInt4_append_right A _ 48 (by omega), hA, Nat.sub_self,
      readUInt4_append_left _ _ 0 (by simp [TUInt4_length]), readUInt4_TUInt4]
  · rw [readUInt4_append_right A _ 52 (by omega), hA,
      readUInt4_append_right (TUInt4 a) _ (52 - 48) (by simp [TUInt4_length]),
      readUInt4_append_left _ _ _ (by simp [TUInt4_length])]
    exact readUInt4_TUInt4 b
  · rw [readUInt4_append_right A _ 56 (by omega), hA,
      readUInt4_append_right (TUInt4 a) _ (56 - 48) (by simp [TUInt4_length]),
      readUInt4_append_right (TUInt4 b) _ _ (by simp [TUInt4_length]),
      readUInt4_append_left _ _ _ (by simp [TUInt4_length])]
    exact readUInt4_TUInt4 c

theorem frameOf_eof_length : (frameOf eofRecord).length = 20 := by
  decide

/-- The state `Close` leaves, for a file that holds the header already. -/
theorem Close_eq (nHandlesBits : Nat) (s : CDevEMF) (hf : 60 ≤ s.m_File.length) :
    Close nHandlesBits s =
      { s with
        m_File := s.m_File.take 48
          ++ closeData (s.m_File.length + 20) (s.m_NumRecords + 1)
               ((s.m_LastHandle + 1) % 2 ^ nHandlesBits)
          ++ (s.m_File.drop 60 ++ frameOf eofRecord),
        m_NumRecords := s.m_NumRecords + 1,
        written := s.written ++ [eofRecord] } := by
  unfold Close
  simp only [x_WriteRcd_eq]
  have hl : (s.m_File ++ frameOf eofRecord).length = s.m_File.length + 20 := by
    rw [List.length_append, frameOf_eof_length]
  have hd : ∀ a b c : Nat, (TUInt4 a ++ TUInt4 b ++ TUInt4 c).take 12
      = closeData a b c := fun a b c => rfl
  rw [hd, seekpWrite_eq _ _ (by rw [hl]; omega) (closeData_length _ _ _), hl,
    List.take_append_of_le_length (by omega), List.drop_append_of_le_length (by omega)]

/-- The header fields and the length of the file after `Close`. -/
theorem Close_fields (nHandlesBits : Nat) (s : CDevEMF) (hf : 60 ≤ s.m_File.length) :
    (Close nHandlesBits s).m_File.length = s.m_File.length + 20
      ∧ readUInt4 (Close nHandlesBits s).m_File 48 = (s.m_File.length + 20) % 4294967296
      ∧ readUInt4 (Close nHandlesBits s).m_File 52 = (s.m_NumRecords + 1) % 4294967296
      ∧ readUInt4 (Close nHandlesBits s).m_File 56
          = (s.m_LastHandle + 1) % 2 ^ nHandlesBits % 4294967296 := by
  rw [Close_eq nHandlesBits s hf]
  have hA : (s.m_File.take 48).length = 48 := by simp; omega
  obtain ⟨h1, h2, h3⟩ := readUInt4_closeData (s.m_File.take 48)
    (s.m_File.drop 60 ++ frameOf eofRecord) (s.m_File.length + 20) (s.m_NumRecords + 1)
    ((s.m_LastHandle + 1) % 2 ^ nHandlesBits) hA
  refine ⟨?_, h1, h2, h3⟩
  simp only [List.length_append, closeData_length, frameOf_eof_length, hA, List.length_drop]
  omega

theorem session_file_length_ge (userLty : Bool) (family : List Nat) (width height : Int)
    (ops : List Op) : 108 ≤ (session userLty family width height ops).m_File.length := by
  obtain ⟨emr, rs, hw⟩ := session_written userLty family width height ops
  rw [(session_inv userLty family width height ops).file, hw]
  simp only [streamOf, List.length_append]
  have := header_frame_length_ge emr
  omega

theorem serPoints_length (ps : List EMF.SPoint) : (serPoints ps).length = 8 * ps.length := by
  induction ps with
  | nil => rfl
  | cons p ps ih =>
      simp only [serPoints, List.length_append, ih, serPoint, TInt4_length, List.length_cons]
      omega

theorem SPoly_serialize_length (iType n : Nat) (x y : List ℚ) :
    (Serialize (Rcd.SPoly (SPoly iType n x y))).length = 28 + 8 * n := by
  rw [Serialize_length]
  simp only [Rcd.payload, SPoly, List.length_append, serPoints_length, List.length_map,
    List.length_range, serRect, TInt4_length, TUInt4_length]
  omega

/-! ## C8: the coordinate transform -/

theorem x_TransformY_eq (H : Int) (ys : List ℚ) (n : Nat) :
    x_TransformY H ys n = (ys.take n).map (fun y => (H : ℚ) - y) ++ ys.drop n := by
  induction ys generalizing n with
  | nil => cases n <;> simp [x_TransformY]
  | cons y ys ih =>
      cases n with
      | zero => simp [x_TransformY]
      | succ n => simp [x_TransformY, ih]

/-- C8: for every canvas height `H` and every sequence `ys` of y-ordinates,
`x_TransformY` replaces each `y` by `H - y`, keeping length and order (the
first `n` entries when it is called with a count `n`); `0` maps to `H` and `H`
to `0`; applying it twice with the same `H` gives `ys` back. -/
theorem x_TransformY_flip (H : Int) (ys : List ℚ) :
    x_TransformY H ys ys.length = ys.map (fun y => (H : ℚ) - y)
      ∧ (x_TransformY H ys ys.length).length = ys.length
      ∧ (∀ n, x_TransformY H ys n = (ys.take n).map (fun y => (H : ℚ) - y) ++ ys.drop n)
      ∧ x_TransformY H [0] 1 = [(H : ℚ)]
      ∧ x_TransformY H [(H : ℚ)] 1 = [0]
      ∧ x_TransformY H (x_TransformY H ys ys.length) ys.length = ys := by
  have h1 : x_TransformY H ys ys.length = ys.map (fun y => (H : ℚ) - y) := by
    rw [x_TransformY_eq]; simp
  refine ⟨h1, by rw [h1]; simp, x_TransformY_eq H ys, by simp [x_TransformY],
    by simp [x_TransformY], ?_⟩
  rw [h1]
  have h2 := x_TransformY_eq H (ys.map (fun y => (H : ℚ) - y)) ys.length
  rw [h2, List.take_of_length_le (by simp), List.drop_of_length_le (by simp), List.append_nil,
    List.map_map]
  conv_rhs => rw [← List.map_id ys]
  apply List.map_congr_left
  intro y _
  simp

/-! ## C6: one record written -/

/-- C6 (amended): for every serialisation `buff` of `L >= 8` bytes,
`x_WriteRcd` appends exactly `P` bytes to the file, `P` the least multiple of 4
with `P >= L` (so `L <= P < L + 4`), raises the record counter by 1, and the
size field of the written record (bytes 4..7, little-endian) holds `P` modulo
`2^32`: it equals `P` whenever `P < 2^32`. -/
theorem x_WriteRcd_frame (buff : List Nat) (s : CDevEMF) (hL : 8 ≤ buff.length) :
    ∃ out : List Nat,
      x_WriteRcdBuff buff s
          = some { s with m_File := s.m_File ++ out, m_NumRecords := s.m_NumRecords + 1 }
        ∧ out.length % 4 = 0 ∧ buff.length ≤ out.length ∧ out.length < buff.length + 4
        ∧ (∀ m : Nat, m % 4 = 0 → buff.length ≤ m → out.length ≤ m)
        ∧ readUInt4 out 4 = out.length % 4294967296
        ∧ (out.length < 4294967296 → readUInt4 out 4 = out.length) := by
  obtain ⟨out, ho⟩ : ∃ out, x_WriteRcdBytes buff = some out := ⟨_, x_WriteRcdBytes_eq buff hL⟩
  have hlen := x_WriteRcdBytes_length buff hL out ho
  have hsz := x_WriteRcdBytes_size buff hL out ho
  refine ⟨out, by simp [x_WriteRcdBuff, ho], ?_, ?_, ?_, ?_, ?_, ?_⟩
  · omega
  · omega
  · omega
  · intro m hm hle
    omega
  · rw [hsz, hlen]
  · intro hlt
    rw [hsz, hlen, Nat.mod_eq_of_lt (by omega)]

/-- C6, witness: a select-object record written to a new device. -/
theorem x_WriteRcd_frame_witness :
    8 ≤ (Serialize (Rcd.S_SELECTOBJECT 1)).length ∧
    ∃ out : List Nat,
      x_WriteRcdBuff (Serialize (Rcd.S_SELECTOBJECT 1)) (CDevEMF.new false [])
          = some { CDevEMF.new false [] with
                   m_File := (CDevEMF.new false []).m_File ++ out,
                   m_NumRecords := (CDevEMF.new false []).m_NumRecords + 1 }
        ∧ out.length % 4 = 0 ∧ (Serialize (Rcd.S_SELECTOBJECT 1)).length ≤ out.length
        ∧ out.length < (Serialize (Rcd.S_SELECTOBJECT 1)).length + 4
        ∧ (∀ m : Nat, m % 4 = 0 → (Serialize (Rcd.S_SELECTOBJECT 1)).length ≤ m → out.length ≤ m)
        ∧ readUInt4 out 4 = out.length % 4294967296
        ∧ (out.length < 4294967296 → readUInt4 out 4 = out.length) :=
  ⟨by decide, x_WriteRcd_frame _ _ (by decide)⟩

theorem x_WriteRcdBuff_of_bytes (buff out : List Nat) (s : CDevEMF)
    (ho : x_WriteRcdBytes buff = some out) :
    x_WriteRcdBuff buff s
      = some { s with m_File := s.m_File ++ out, m_NumRecords := s.m_NumRecords + 1 } := by
  simp [x_WriteRcdBuff, ho]

/-- The frame of a polyline or polygon record of `n` points: its length and
its size field. -/
theorem SPoly_frame (iType n : Nat) (x y : List ℚ) (s : CDevEMF) :
    ∃ out : List Nat,
      x_WriteRcdBuff (Serialize (Rcd.SPoly (SPoly iType n x y))) s
          = some { s with m_File := s.m_File ++ out, m_NumRecords := s.m_NumRecords + 1 }
        ∧ out.length = (28 + 8 * n + 3) / 4 * 4
        ∧ readUInt4 out 4 = (28 + 8 * n + 3) / 4 * 4 % 4294967296 := by
  have h8 := Serialize_length_ge (Rcd.SPoly (SPoly iType n x y))
  have hL := SPoly_serialize_length iType n x y
  obtain ⟨out, ho⟩ : ∃ out, x_WriteRcdBytes (Serialize (Rcd.SPoly (SPoly iType n x y)))
      = some out := ⟨_, x_WriteRcdBytes_eq _ h8⟩
  have hlen := x_WriteRcdBytes_length _ h8 out ho
  have hsz := x_WriteRcdBytes_size _ h8 out ho
  rw [hL] at hlen hsz
  exact ⟨out, x_WriteRcdBuff_of_bytes _ out s ho, hlen, hsz⟩

theorem hugeCount_frame :
    (28 + 8 * hugeCount + 3) / 4 * 4 = 4294967324
      ∧ (28 + 8 * hugeCount + 3) / 4 * 4 % 4294967296 = 28 := by
  decide

/-- C6, counterexample: the polyline record of `2^29` points serialises to
`L = 2^32 + 28` bytes; `x_WriteRcd` appends `P = 2^32 + 28` bytes, and the size
field of the written record holds 28, not `P`. -/
theorem x_WriteRcd_frame_wraps :
    8 ≤ (Serialize (Rcd.SPoly (SPoly EMF.eEMR_POLYLINE hugeCount
          (List.replicate hugeCount 0) (List.replicate hugeCount 0)))).length ∧
    ∃ out : List Nat,
      x_WriteRcdBuff (Serialize (Rcd.SPoly (SPoly EMF.eEMR_POLYLINE hugeCount
          (List.replicate hugeCount 0) (List.replicate hugeCount 0)))) (CDevEMF.new false [])
        = some { CDevEMF.new false [] with
                 m_File := (CDevEMF.new false []).m_File ++ out,
                 m_NumRecords := (CDevEMF.new false []).m_NumRecords + 1 }
        ∧ out.length = 4294967324 ∧ readUInt4 out 4 = 28 ∧ readUInt4 out 4 ≠ out.length := by
  refine ⟨Serialize_length_ge _, ?_⟩
  obtain ⟨out, h1, h2, h3⟩ := SPoly_frame EMF.eEMR_POLYLINE hugeCount
    (List.replicate hugeCount 0) (List.replicate hugeCount 0) (CDevEMF.new false [])
  rw [hugeCount_frame.1] at h2
  rw [hugeCount_frame.2] at h3
  refine ⟨out, h1, h2, h3, ?_⟩
  rw [h2, h3]
  decide

/-! ## The finished stream -/

theorem patchFrame_length (f data : List Nat) (hf : 60 ≤ f.length) (hd : data.length = 12) :
    (patchFrame f data).length = f.length := by
  simp [patchFrame, hd]
  omega

theorem patchFrame_size (f data : List Nat) (hf : 60 ≤ f.length) :
    readUInt4 (patchFrame f data) 4 = readUInt4 f 4 := by
  have h48 : (f.take 48).length = 48 := by simp; omega
  unfold patchFrame
  rw [List.append_assoc, readUInt4_append_left _ _ 4 (by omega)]
  conv_rhs => rw [← List.take_append_drop 48 f]
  rw [readUInt4_append_left _ _ 4 (by omega)]

theorem patchFrame_getD (f data : List Nat) (hf : 60 ≤ f.length) (hd : data.length = 12)
    (k : Nat) (hk : k < 48 ∨ 60 ≤ k) : (patchFrame f data).getD k 0 = f.getD k 0 := by
  have h48 : (f.take 48).length = 48 := by simp; omega
  unfold patchFrame
  rcases hk with hk | hk
  · rw [List.append_assoc, getD_append_left_lt _ _ k (by omega)]
    simp [List.getD_eq_getElem?_getD, List.getElem?_take, hk]
  · rw [getD_append_right_ge _ _ k (by simp [hd]; omega)]
    simp only [List.length_append, h48, hd, List.getD_eq_getElem?_getD, List.getElem?_drop]
    congr 2
    omega

/-- The file after `Close`, for a state whose file is the stream of its
records and whose first record is the header: the header frame with its three
counts patched, then the frames of the other records and of the terminator. -/
theorem Close_stream (nHandlesBits : Nat) (s : CDevEMF) (emr : EMF.SHeader) (rest : List Rcd)
    (hfile : s.m_File = streamOf s.written) (hw : s.written = Rcd.SHeader emr :: rest) :
    (Close nHandlesBits s).m_File =
      patchFrame (frameOf (Rcd.SHeader emr))
          (closeData (s.m_File.length + 20) (s.m_NumRecords + 1)
            ((s.m_LastHandle + 1) % 2 ^ nHandlesBits))
        ++ streamOf (rest ++ [eofRecord])
      ∧ (Close nHandlesBits s).written = Rcd.SHeader emr :: (rest ++ [eofRecord])
      ∧ (Close nHandlesBits s).m_NumRecords = s.m_NumRecords + 1
      ∧ (Close nHandlesBits s).m_LastHandle = s.m_LastHandle := by
  have hh := header_frame_length_ge emr
  have hF : s.m_File = frameOf (Rcd.SHeader emr) ++ streamOf rest := by
    rw [hfile, hw]; rfl
  have hlen : 60 ≤ s.m_File.length := by
    rw [hF, List.length_append]; omega
  rw [Close_eq nHandlesBits s hlen]
  refine ⟨?_, by simp [hw], rfl, rfl⟩
  simp only [patchFrame, streamOf_append, streamOf_singleton]
  rw [hF, List.take_append_of_le_length (by omega), List.drop_append_of_le_length (by omega)]
  simp [List.append_assoc]

/-- The records found by walking a finished stream whose records are all
shorter than `2^32` bytes. -/
theorem Close_streamRecords (nHandlesBits : Nat) (s : CDevEMF) (emr : EMF.SHeader)
    (rest : List Rcd) (hfile : s.m_File = streamOf s.written)
    (hw : s.written = Rcd.SHeader emr :: rest)
    (hsize : ∀ r ∈ (Close nHandlesBits s).written, (frameOf r).length < 4294967296) :
    streamRecords (Close nHandlesBits s).m_File =
      some (patchFrame (frameOf (Rcd.SHeader emr))
          (closeData (s.m_File.length + 20) (s.m_NumRecords + 1)
            ((s.m_LastHandle + 1) % 2 ^ nHandlesBits))
        :: (rest ++ [eofRecord]).map frameOf) := by
  obtain ⟨hf, hwr, _, _⟩ := Close_stream nHandlesBits s emr rest hfile hw
  have hh := header_frame_length_ge emr
  rw [hwr] at hsize
  have hflat : (Close nHandlesBits s).m_File =
      (patchFrame (frameOf (Rcd.SHeader emr))
          (closeData (s.m_File.length + 20) (s.m_NumRecords + 1)
            ((s.m_LastHandle + 1) % 2 ^ nHandlesBits))
        :: (rest ++ [eofRecord]).map frameOf).flatten := by
    rw [hf, List.flatten_cons, streamOf_eq_flatten]
  unfold streamRecords
  rw [hflat]
  apply walkRecords_frames _ _ _ (Nat.le_refl _)
  intro f hfm
  rcases List.mem_cons.mp hfm with h1 | h1
  · subst h1
    rw [patchFrame_length _ _ (by omega) (closeData_length _ _ _),
      patchFrame_size _ _ (by omega), frameOf_size]
    have := hsize (Rcd.SHeader emr) (List.mem_cons_self _ _)
    exact ⟨by omega, Nat.mod_eq_of_lt this⟩
  · obtain ⟨r, hr, rfl⟩ := List.mem_map.mp h1
    have := hsize r (List.mem_cons_of_mem _ hr)
    exact ⟨frameOf_length_ge r, by rw [frameOf_size]; exact Nat.mod_eq_of_lt this⟩

/-! ## C2: the byte count of the header -/

/-- C2 (amended): for every session (a successful `Open`, any drawing calls)
followed by `Close`, the byte-count field patched into the header (offset 48,
little-endian) equals the total length of the finished stream modulo `2^32`;
it equals the length whenever the stream is shorter than `2^32` bytes. -/
theorem Close_nBytes (userLty : Bool) (family : List Nat) (width height : Int)
    (ops : List Op) (nHandlesBits : Nat) :
    readUInt4 (Close nHandlesBits (session userLty family width height ops)).m_File 48
        = (Close nHandlesBits (session userLty family width height ops)).m_File.length
            % 4294967296
      ∧ ((Close nHandlesBits (session userLty family width height ops)).m_File.length
            < 4294967296 →
          readUInt4 (Close nHandlesBits (session userLty family width height ops)).m_File 48
            = (Close nHandlesBits (session userLty family width height ops)).m_File.length) := by
  have hlen := session_file_length_ge userLty family width height ops
  obtain ⟨h1, h2, _, _⟩ := Close_fields nHandlesBits (session userLty family width height ops)
    (by omega)
  rw [h1, h2]
  exact ⟨rfl, fun h => Nat.mod_eq_of_lt h⟩

theorem Polyline_file_length_ge (n : Nat) (x y : List ℚ) (gc : GEcontext) (s : CDevEMF) :
    28 + 8 * n ≤ (Polyline n x y gc s).m_File.length := by
  unfold Polyline
  simp only [x_WriteRcd_eq, List.length_append]
  rw [frameOf_length, SPoly_serialize_length]
  omega

theorem session_one (userLty : Bool) (family : List Nat) (width height : Int) (op : Op) :
    session userLty family width height [op]
      = op.apply (Open true width height (CDevEMF.new userLty family)).1 := rfl

theorem session_Polyline_length_ge (userLty : Bool) (family : List Nat) (width height : Int)
    (n : Nat) (x y : List ℚ) (gc : GEcontext) :
    28 + 8 * n ≤ (session userLty family width height [Op.Polyline n x y gc]).m_File.length := by
  rw [session_one]
  exact Polyline_file_length_ge n x y gc _

/-- C2, counterexample: after `Open`, one `Polyline` of `2^29` points and
`Close`, the stream is longer than `2^32` bytes and the byte-count field of the
header differs from its length. -/
theorem Close_nBytes_wraps :
    readUInt4 (Close 16 (session false [] 10160 7620
        [Op.Polyline hugeCount (List.replicate hugeCount 0) (List.replicate hugeCount 7620)
          gcBlack])).m_File 48
      ≠ (Close 16 (session false [] 10160 7620
        [Op.Polyline hugeCount (List.replicate hugeCount 0) (List.replicate hugeCount 7620)
          gcBlack])).m_File.length := by
  have hlen := session_file_length_ge false [] 10160 7620
    [Op.Polyline hugeCount (List.replicate hugeCount 0) (List.replicate hugeCount 7620) gcBlack]
  obtain ⟨h1, h2, _, _⟩ := Close_fields 16 (session false [] 10160 7620
    [Op.Polyline hugeCount (List.replicate hugeCount 0) (List.replicate hugeCount 7620) gcBlack])
    (by omega)
  have hbig : 28 + 8 * hugeCount ≤ (session false [] 10160 7620
      [Op.Polyline hugeCount (List.replicate hugeCount 0) (List.replicate hugeCount 7620)
        gcBlack]).m_File.length :=
    session_Polyline_length_ge false [] 10160 7620 hugeCount (List.replicate hugeCount 0)
      (List.replicate hugeCount 7620) gcBlack
  have e : 28 + 8 * hugeCount = 4294967324 := by decide
  rw [h1, h2]
  have := Nat.mod_lt ((session false [] 10160 7620
      [Op.Polyline hugeCount (List.replicate hugeCount 0) (List.replicate hugeCount 7620)
        gcBlack]).m_File.length + 20) (show 0 < 4294967296 by decide)
  omega

/-! ## C7: alignment -/

theorem streamOf_length_mod (rs : List Rcd) : (streamOf rs).length % 4 = 0 := by
  induction rs with
  | nil => rfl
  | cons r rs ih =>
      have := frameOf_length_mod r
      simp only [streamOf, List.length_append]
      omega

/-- C7: in every state of a session (a successful `Open`, then any drawing
calls) the file is the concatenation of the frames of the records written, its
length is a multiple of 4, and every record starts at an offset (the length of
the frames before it) that is a multiple of 4. After `Close` the file has the
length of that concatenation and differs from it in bytes 48..59 at most, so
the same holds of the finished stream. -/
theorem session_aligned (userLty : Bool) (family : List Nat) (width height : Int)
    (ops : List Op) (nHandlesBits : Nat) :
    (session userLty family width height ops).m_File.length % 4 = 0
      ∧ (∀ (pre post : List Rcd) (r : Rcd),
          (session userLty family width height ops).written = pre ++ r :: post →
          (session userLty family width height ops).m_File
              = streamOf pre ++ frameOf r ++ streamOf post
            ∧ (streamOf pre).length % 4 = 0)
      ∧ (Close nHandlesBits (session userLty family width height ops)).m_File.length % 4 = 0
      ∧ (Close nHandlesBits (session userLty family width height ops)).m_File.length
          = (streamOf (Close nHandlesBits (session userLty family width height ops)).written).length
      ∧ (∀ k : Nat, k < 48 ∨ 60 ≤ k →
          (Close nHandlesBits (session userLty family width height ops)).m_File.getD k 0
            = (streamOf
                (Close nHandlesBits (session userLty family width height ops)).written).getD k 0)
      ∧ (∀ (pre post : List Rcd) (r : Rcd),
          (Close nHandlesBits (session userLty family width height ops)).written
              = pre ++ r :: post →
          streamOf (Close nHandlesBits (session userLty family width height ops)).written
              = streamOf pre ++ frameOf r ++ streamOf post
            ∧ (streamOf pre).length % 4 = 0) := by
  have hinv := session_inv userLty family width height ops
  obtain ⟨emr, rs, hw⟩ := session_written userLty family width height ops
  obtain ⟨hf, hwr, _, _⟩ := Close_stream nHandlesBits _ emr _ hinv.file hw
  have hh := header_frame_length_ge emr
  have hsplit : ∀ (w pre post : List Rcd) (r : Rcd), w = pre ++ r :: post →
      streamOf w = streamOf pre ++ frameOf r ++ streamOf post := by
    intro w pre post r h
    rw [h, streamOf_append, List.append_assoc]
    rfl
  have hpatch : (Close nHandlesBits (session userLty family width height ops)).m_File.length
      = (streamOf (Close nHandlesBits (session userLty family width height ops)).written).length := by
    rw [hf, hwr]
    simp only [streamOf, List.length_append]
    rw [patchFrame_length _ _ (by omega) (closeData_length _ _ _)]
  refine ⟨?_, ?_, ?_, hpatch, ?_, ?_⟩
  · rw [hinv.file]; exact streamOf_length_mod _
  · intro pre post r h
    exact ⟨by rw [hinv.file]; exact hsplit _ pre post r h, streamOf_length_mod pre⟩
  · rw [hpatch]; exact streamOf_length_mod _
  · intro k hk
    rw [hf, hwr]
    simp only [streamOf]
    by_cases hlt : k < (frameOf (Rcd.SHeader emr)).length
    · rw [getD_append_left_lt _ _ k
          (by rw [patchFrame_length _ _ (by omega) (closeData_length _ _ _)]; exact hlt),
        getD_append_left_lt _ _ k hlt,
        patchFrame_getD _ _ (by omega) (closeData_length _ _ _) k hk]
    · rw [getD_append_right_ge _ _ k
          (by rw [patchFrame_length _ _ (by omega) (closeData_length _ _ _)]; omega),
        getD_append_right_ge _ _ k (by omega),
        patchFrame_length _ _ (by omega) (closeData_length _ _ _)]
  · intro pre post r h
    exact ⟨hsplit _ pre post r h, streamOf_length_mod pre⟩

/-! ## C11: a line without length -/

/-- C11: for every device state, every graphics context and every point
`(x, y)`, `Line(x, y, x, y, gc)` leaves the device as it is: no record is
written (no polyline record in particular), and the file, the record counter,
the handle counter, the three caches and the active pen, brush and font
handles are unchanged. -/
theorem Line_same_point (x y : ℚ) (gc : GEcontext) (s : CDevEMF) :
    Line x y x y gc s = s
      ∧ (Line x y x y gc s).written = s.written
      ∧ (Line x y x y gc s).m_File = s.m_File
      ∧ (Line x y x y gc s).m_NumRecords = s.m_NumRecords
      ∧ (Line x y x y gc s).m_LastHandle = s.m_LastHandle
      ∧ (Line x y x y gc s).m_Pens = s.m_Pens
      ∧ (Line x y x y gc s).m_Brushes = s.m_Brushes
      ∧ (Line x y x y gc s).m_Fonts = s.m_Fonts
      ∧ (Line x y x y gc s).m_CurrPen = s.m_CurrPen
      ∧ (Line x y x y gc s).m_CurrBrush = s.m_CurrBrush
      ∧ (Line x y x y gc s).m_CurrFont = s.m_CurrFont := by
  have h : Line x y x y gc s = s := by simp [Line]
  rw [h]
  exact ⟨rfl, rfl, rfl, rfl, rfl, rfl, rfl, rfl, rfl, rfl, rfl⟩

/-! ## C20: the bytes of one record -/

theorem getElem?_append_left_lt (a b : List Nat) (i : Nat) (h : i < a.length) :
    (a ++ b)[i]? = a[i]? := List.getElem?_append_left h

/-- C20: for every serialisation `buff` of `L >= 8` bytes, the bytes that
`x_WriteRcd` appends agree with `buff` at every position below `L` other than
4..7 (the size field), every appended byte at a position from `L` on (the
padding) is zero, and the bytes already in the file stay as they are. -/
theorem x_WriteRcd_bytes (buff : List Nat) (s : CDevEMF) (hL : 8 ≤ buff.length) :
    ∃ out : List Nat,
      x_WriteRcdBuff buff s
          = some { s with m_File := s.m_File ++ out, m_NumRecords := s.m_NumRecords + 1 }
        ∧ (∀ i : Nat, i < buff.length → i < 4 ∨ 8 ≤ i → out[i]? = buff[i]?)
        ∧ (∀ i : Nat, buff.length ≤ i → i < out.length → out[i]? = some 0)
        ∧ (∀ i : Nat, i < s.m_File.length → (s.m_File ++ out)[i]? = s.m_File[i]?) := by
  have hp := pad4_facts buff.length
  have h4 : (buff.take 4).length = 4 := by simp; omega
  refine ⟨_, x_WriteRcdBuff_of_bytes _ _ s (x_WriteRcdBytes_eq buff hL), ?_, ?_, ?_⟩
  · intro i hi hcase
    rcases hcase with h | h
    · rw [List.append_assoc, List.getElem?_append_left (by omega), List.getElem?_take]
      simp [h]
    · rw [List.getElem?_append_right (by simp [TUInt4_length]; omega),
        List.getElem?_append_left (by simp [TUInt4_length]; omega), List.getElem?_drop]
      congr 1
      simp [TUInt4_length]
      omega
  · intro i hi hlt
    simp only [List.length_append, h4, TUInt4_length, List.length_drop,
      List.length_replicate] at hlt
    rw [List.getElem?_append_right (by simp [TUInt4_length]; omega),
      List.getElem?_append_right (by simp [TUInt4_length]; omega)]
    rw [List.getElem?_replicate]
    simp [TUInt4_length]
    omega
  · intro i hi
    exact List.getElem?_append_left hi

/-- C20, witness: the set-background-mode record written to a new device. -/
theorem x_WriteRcd_bytes_witness :
    8 ≤ (Serialize (Rcd.S_SETBKMODE 1)).length ∧
    ∃ out : List Nat,
      x_WriteRcdBuff (Serialize (Rcd.S_SETBKMODE 1)) (CDevEMF.new false [])
          = some { CDevEMF.new false [] with
                   m_File := (CDevEMF.new false []).m_File ++ out,
                   m_NumRecords := (CDevEMF.new false []).m_NumRecords + 1 }
        ∧ (∀ i : Nat, i < (Serialize (Rcd.S_SETBKMODE 1)).length → i < 4 ∨ 8 ≤ i →
            out[i]? = (Serialize (Rcd.S_SETBKMODE 1))[i]?)
        ∧ (∀ i : Nat, (Serialize (Rcd.S_SETBKMODE 1)).length ≤ i → i < out.length →
            out[i]? = some 0)
        ∧ (∀ i : Nat, i < (CDevEMF.new false []).m_File.length →
            ((CDevEMF.new false []).m_File ++ out)[i]? = (CDevEMF.new false []).m_File[i]?) :=
  ⟨by decide, x_WriteRcd_bytes _ _ (by decide)⟩

/-! ## C16: the graphics context -/

theorem frameOf_explicit (r : Rcd) :
    frameOf r = TUInt4 r.iType ++ (TUInt4 (((Serialize r).length + 3) / 4 * 4)
      ++ (r.payload ++ List.replicate (((Serialize r).length + 3) / 4 * 4 - (Serialize r).length) 0)) := by
  have h := frameOf_eq r
  rw [x_WriteRcdBytes_eq _ (Serialize_length_ge r)] at h
  have e := Option.some.inj h
  rw [← e]
  simp [Serialize, TUInt4]

/-- The three counts in the frame of a header record. -/
theorem header_frame_counts (emr : EMF.SHeader) :
    readUInt4 (frameOf (Rcd.SHeader emr)) 48 = emr.nBytes % 4294967296
      ∧ readUInt4 (frameOf (Rcd.SHeader emr)) 52 = emr.nRecords % 4294967296
      ∧ readUInt4 (frameOf (Rcd.SHeader emr)) 56
          = emr.nHandles % 65536 + 65536 * (emr.reserved % 65536) := by
  rw [frameOf_explicit]
  generalize ((Serialize (Rcd.SHeader emr)).length + 3) / 4 * 4 = P
  generalize List.replicate (P - (Serialize (Rcd.SHeader emr)).length) 0 = pad
  simp only [Rcd.payload, Rcd.iType, serRect, serSize, TInt4, TUInt4, TUInt2, List.cons_append,
    List.nil_append, List.append_assoc, readUInt4, List.getD_cons_succ, List.getD_cons_zero]
  omega

/-- C13: `Open` on a new device returns true exactly when the output file
could be opened (`fileOk`). On success it has written exactly three records,
in this order: the header record, whose byte-count, record-count and
handle-count fields are all 0, the set-background-mode(transparent) record and
the set-mapping-mode(text) record; the record counter is 3 and the handle
counter 0. On failure it returns false and has written nothing (the record
counter is 0). -/
theorem Open_new (fileOk userLty : Bool) (family : List Nat) (width height : Int) :
    (Open fileOk width height (CDevEMF.new userLty family)).2 = fileOk
      ∧ (fileOk = true →
          ∃ emr : EMF.SHeader,
            (Open fileOk width height (CDevEMF.new userLty family)).1.written
                = [Rcd.SHeader emr, Rcd.S_SETBKMODE EMF.eTRANSPARENT,
                    Rcd.S_SETMAPMODE EMF.eMM_TEXT]
              ∧ emr.nBytes = 0 ∧ emr.nRecords = 0 ∧ emr.nHandles = 0
              ∧ (Open fileOk width height (CDevEMF.new userLty family)).1.m_File
                  = frameOf (Rcd.SHeader emr) ++ (frameOf (Rcd.S_SETBKMODE EMF.eTRANSPARENT)
                      ++ frameOf (Rcd.S_SETMAPMODE EMF.eMM_TEXT))
              ∧ readUInt4 (Open fileOk width height (CDevEMF.new userLty family)).1.m_File 48 = 0
              ∧ readUInt4 (Open fileOk width height (CDevEMF.new userLty family)).1.m_File 52 = 0
              ∧ readUInt4 (Open fileOk width height (CDevEMF.new userLty family)).1.m_File 56 = 0
              ∧ (Open fileOk width height (CDevEMF.new userLty family)).1.m_NumRecords = 3
              ∧ (Open fileOk width height (CDevEMF.new userLty family)).1.m_LastHandle = 0)
      ∧ (fileOk = false →
          (Open fileOk width height (CDevEMF.new userLty family)).1.written = []
            ∧ (Open fileOk width height (CDevEMF.new userLty family)).1.m_File = []
            ∧ (Open fileOk width height (CDevEMF.new userLty family)).1.m_NumRecords = 0) := by
  refine ⟨by cases fileOk <;> rfl, ?_, ?_⟩
  · intro h
    subst h
    obtain ⟨emr, he, h1, h2, h3, h4⟩ := x_CreateRcdHeader_written
      { CDevEMF.new userLty family with m_Width := width, m_Height := height }
    have hh := header_frame_length_ge emr
    obtain ⟨c1, c2, c3⟩ := header_frame_counts emr
    have hO : (Open true width height (CDevEMF.new userLty family)).1
        = x_CreateRcdHeader
            { CDevEMF.new userLty family with m_Width := width, m_Height := height } := rfl
    rw [hO, he]
    refine ⟨emr, ?_, h1, h2, h3, ?_, ?_, ?_, ?_, ?_, ?_⟩
    · simp [x_WriteRcd_eq, CDevEMF.new]
    · simp [x_WriteRcd_eq, CDevEMF.new]
    · simp only [x_WriteRcd_eq, CDevEMF.new, List.nil_append, List.append_assoc]
      rw [readUInt4_append_left _ _ 48 (by omega), c1, h1]
    · simp only [x_WriteRcd_eq, CDevEMF.new, List.nil_append, List.append_assoc]
      rw [readUInt4_append_left _ _ 52 (by omega), c2, h2]
    · simp only [x_WriteRcd_eq, CDevEMF.new, List.nil_append, List.append_assoc]
      rw [readUInt4_append_left _ _ 56 (by omega), c3, h3, h4]
    · simp [x_WriteRcd_eq, CDevEMF.new]
    · simp [x_WriteRcd_eq, CDevEMF.new]
  · intro h
    subst h
    exact ⟨rfl, rfl, rfl⟩

/-! ## C17: ASCII text -/

theorem utf8Go_ascii (s : List Nat) (h : ∀ b ∈ s, b < 128) : utf8Go s 0 0 0 = some s := by
  induction s with
  | nil => rfl
  | cons b bs ih =>
      have hb : b < 128 := h b (List.mem_cons_self b bs)
      have hbs := ih (fun c hc => h c (List.mem_cons_of_mem b hc))
      simp [utf8Go, hb, hbs]

theorem utf16Encode_ascii (s : List Nat) (h : ∀ b ∈ s, b < 128) :
    utf16Encode s = s.flatMap (fun b => [b, 0]) := by
  induction s with
  | nil => rfl
  | cons b bs ih =>
      have hb : b < 128 := h b (List.mem_cons_self b bs)
      have hbs := ih (fun c hc => h c (List.mem_cons_of_mem b hc))
      have h1 : b % 256 = b := Nat.mod_eq_of_lt (by omega)
      have h2 : b / 256 % 256 = 0 := by omega
      have h3 : b < 65536 := by omega
      simp [utf16Encode, utf16Unit, TUInt2, hbs, h1, h2, h3]

theorem flatMap_pair_length (s : List Nat) :
    (s.flatMap (fun b => [b, 0])).length = 2 * s.length := by
  induction s with
  | nil => rfl
  | cons b bs ih => simp [List.flatMap_cons, ih]; omega

/-- C17: the conversion of an ASCII string (every byte below 128) yields, for
each byte `b` in order, the two bytes `b, 0`: the result has twice the length
of the input and starts with no byte-order mark. -/
theorem iConv_ascii (s : List Nat) (h : ∀ b ∈ s, b < 128) :
    iConvUTF8toUTF16LE s = some (s.flatMap (fun b => [b, 0]))
      ∧ (s.flatMap (fun b => [b, 0])).length = 2 * s.length := by
  refine ⟨?_, flatMap_pair_length s⟩
  unfold iConvUTF8toUTF16LE
  rw [utf8Go_ascii s h]
  simp only [utf16Encode_ascii s h, flatMap_pair_length]
  rw [if_pos (by omega)]

/-- C17, witness: "A" is converted to the two bytes 0x41, 0x00. -/
theorem iConv_ascii_witness :
    (∀ b ∈ [0x41], b < 128)
      ∧ iConvUTF8toUTF16LE [0x41] = some [0x41, 0x00]
      ∧ ([0x41, 0x00] : List Nat).length = 2 * [0x41].length :=
  ⟨by decide, iConv_ascii [0x41] (by decide)⟩

/-! ## The lookup of a pen, a brush, a font -/

theorem newRecords_append (s t : CDevEMF) (rs : List Rcd) (h : t.written = s.written ++ rs) :
    newRecords s t = rs := by
  simp [newRecords, h]

theorem SameActive.rfl' (s : CDevEMF) : SameActive s s :=
  ⟨rfl, rfl, rfl, rfl, rfl, rfl, rfl, rfl, rfl, rfl⟩

/-- The pen lookup: either the pen is new (one creation record, the next
handle) or it is found (nothing written, its handle). -/
theorem x_SetLinetype_intern_facts (gc : GEcontext) (s : CDevEMF) :
    SameActive s (x_SetLinetype_intern gc s).1
      ∧ (x_SetLinetype_intern gc s).1.m_Brushes = s.m_Brushes
      ∧ (x_SetLinetype_intern gc s).1.m_Fonts = s.m_Fonts
      ∧ ((s.m_Pens.find? (penEquiv (SPen gc s.m_UseUserLty)) = none
            ∧ (x_SetLinetype_intern gc s).1.written
                = s.written ++ [Rcd.SPen { SPen gc s.m_UseUserLty with
                                           ihPen := s.m_LastHandle + 1 }]
            ∧ (x_SetLinetype_intern gc s).2 = s.m_LastHandle + 1
            ∧ (x_SetLinetype_intern gc s).1.m_LastHandle = s.m_LastHandle + 1
            ∧ (x_SetLinetype_intern gc s).1.m_Pens
                = s.m_Pens ++ [{ SPen gc s.m_UseUserLty with ihPen := s.m_LastHandle + 1 }])
          ∨ (∃ i, s.m_Pens.find? (penEquiv (SPen gc s.m_UseUserLty)) = some i
            ∧ (x_SetLinetype_intern gc s).1.written = s.written
            ∧ (x_SetLinetype_intern gc s).2 = i.ihPen
            ∧ (x_SetLinetype_intern gc s).1.m_LastHandle = s.m_LastHandle
            ∧ (x_SetLinetype_intern gc s).1.m_Pens = s.m_Pens)) := by
  unfold x_SetLinetype_intern
  by_cases hw : penWarnsLty gc s.m_UseUserLty = true <;>
  by_cases ha : 0 < R_ALPHA gc.col ∧ R_ALPHA gc.col < 255 <;>
  cases hfind : s.m_Pens.find? (penEquiv (SPen gc s.m_UseUserLty)) <;>
  simp [hw, ha, hfind, Rf_warning, x_WriteRcd_eq] <;>
  exact ⟨rfl, rfl, rfl, rfl, rfl, rfl, rfl, rfl, rfl, rfl⟩

theorem x_SetFill_intern_facts (col : Int) (s : CDevEMF) :
    SameActive s (x_SetFill_intern col s).1
      ∧ (x_SetFill_intern col s).1.m_Pens = s.m_Pens
      ∧ (x_SetFill_intern col s).1.m_Fonts = s.m_Fonts
      ∧ ((s.m_Brushes.find? (brushEquiv (SBrush col)) = none
            ∧ (x_SetFill_intern col s).1.written
                = s.written ++ [Rcd.SBrush { SBrush col with ihBrush := s.m_LastHandle + 1 }]
            ∧ (x_SetFill_intern col s).2 = s.m_LastHandle + 1
            ∧ (x_SetFill_intern col s).1.m_LastHandle = s.m_LastHandle + 1
            ∧ (x_SetFill_intern col s).1.m_Brushes
                = s.m_Brushes ++ [{ SBrush col with ihBrush := s.m_LastHandle + 1 }])
          ∨ (∃ i, s.m_Brushes.find? (brushEquiv (SBrush col)) = some i
            ∧ (x_SetFill_intern col s).1.written = s.written
            ∧ (x_SetFill_intern col s).2 = i.ihBrush
            ∧ (x_SetFill_intern col s).1.m_LastHandle = s.m_LastHandle
            ∧ (x_SetFill_intern col s).1.m_Brushes = s.m_Brushes)) := by
  unfold x_SetFill_intern
  by_cases ha : 0 < R_ALPHA col ∧ R_ALPHA col < 255 <;>
  cases hfind : s.m_Brushes.find? (brushEquiv (SBrush col)) <;>
  simp [ha, hfind, Rf_warning, x_WriteRcd_eq] <;>
  exact ⟨rfl, rfl, rfl, rfl, rfl, rfl, rfl, rfl, rfl, rfl⟩

/-- The second half of `x_SetLinetype`: the selection of the pen. -/
theorem x_SetLinetype_facts (gc : GEcontext) (s : CDevEMF) :
    (x_SetLinetype gc s).written
        = (x_SetLinetype_intern gc s).1.written
            ++ penSelection gc (x_SetLinetype_intern gc s).2 s.m_CurrPen
      ∧ (x_SetLinetype gc s).m_CurrPen = (x_SetLinetype_intern gc s).2
      ∧ (x_SetLinetype gc s).m_CurrBrush = s.m_CurrBrush
      ∧ (x_SetLinetype gc s).m_CurrFont = s.m_CurrFont
      ∧ (x_SetLinetype gc s).m_CurrHadj = s.m_CurrHadj
      ∧ (x_SetLinetype gc s).m_CurrTextCol = s.m_CurrTextCol
      ∧ (x_SetLinetype gc s).m_PageNum = s.m_PageNum
      ∧ (x_SetLinetype gc s).m_Height = s.m_Height
      ∧ (x_SetLinetype gc s).m_Width = s.m_Width
      ∧ (x_SetLinetype gc s).m_Pens = (x_SetLinetype_intern gc s).1.m_Pens
      ∧ (x_SetLinetype gc s).m_Brushes = s.m_Brushes
      ∧ (x_SetLinetype gc s).m_Fonts = s.m_Fonts
      ∧ (x_SetLinetype gc s).m_LastHandle = (x_SetLinetype_intern gc s).1.m_LastHandle
      ∧ (x_SetLinetype gc s).m_UseUserLty = s.m_UseUserLty := by
  obtain ⟨hA, hB, hF, _⟩ := x_SetLinetype_intern_facts gc s
  unfold x_SetLinetype penSelection
  generalize x_SetLinetype_intern gc s = r at hA hB hF
  obtain ⟨s1, ih⟩ := r
  obtain ⟨a1, a2, a3, a4, a5, a6, a7, a8, a9, a10⟩ := hA
  simp only at a1 a2 a3 a4 a5 a6 a7 a8 a9 a10 hB hF ⊢
  by_cases h : ih = s.m_CurrPen
  · have h' : ih = s1.m_CurrPen := by rw [a1]; exact h
    simp [h, ← h', a2, a3, a4, a5, a6, a7, a8, a9, hB, hF]
  · have h' : ¬ ih = s1.m_CurrPen := by rw [a1]; exact h
    by_cases hj : gc.ljoin = GE_MITRE_JOIN
    · simp [h, h', hj, x_WriteRcd_eq, x_CreateRcdSelectObj, a2, a3, a4, a5, a6, a7, a8, a9, hB, hF]
    · simp [h, h', hj, x_WriteRcd_eq, x_CreateRcdSelectObj, a2, a3, a4, a5, a6, a7, a8, a9, hB, hF]

theorem x_SetFill_facts (col : Int) (s : CDevEMF) :
    (x_SetFill col s).written
        = (x_SetFill_intern col s).1.written
            ++ objSelection (x_SetFill_intern col s).2 s.m_CurrBrush
      ∧ (x_SetFill col s).m_CurrBrush = (x_SetFill_intern col s).2
      ∧ (x_SetFill col s).m_CurrPen = s.m_CurrPen
      ∧ (x_SetFill col s).m_CurrFont = s.m_CurrFont
      ∧ (x_SetFill col s).m_CurrHadj = s.m_CurrHadj
      ∧ (x_SetFill col s).m_CurrTextCol = s.m_CurrTextCol
      ∧ (x_SetFill col s).m_PageNum = s.m_PageNum
      ∧ (x_SetFill col s).m_Height = s.m_Height
      ∧ (x_SetFill col s).m_Width = s.m_Width
      ∧ (x_SetFill col s).m_Pens = s.m_Pens
      ∧ (x_SetFill col s).m_Brushes = (x_SetFill_intern col s).1.m_Brushes
      ∧ (x_SetFill col s).m_Fonts = s.m_Fonts
      ∧ (x_SetFill col s).m_LastHandle = (x_SetFill_intern col s).1.m_LastHandle
      ∧ (x_SetFill col s).m_UseUserLty = s.m_UseUserLty := by
  obtain ⟨hA, hP, hF, _⟩ := x_SetFill_intern_facts col s
  unfold x_SetFill objSelection
  generalize x_SetFill_intern col s = r at hA hP hF
  obtain ⟨s1, ih⟩ := r
  obtain ⟨a1, a2, a3, a4, a5, a6, a7, a8, a9, a10⟩ := hA
  simp only at a1 a2 a3 a4 a5 a6 a7 a8 a9 a10 hP hF ⊢
  by_cases h : ih = s.m_CurrBrush
  · have h' : ih = s1.m_CurrBrush := by rw [a2]; exact h
    simp [h, ← h', a1, a3, a4, a5, a6, a7, a8, a9, hP, hF]
  · have h' : ¬ ih = s1.m_CurrBrush := by rw [a2]; exact h
    simp [h, h', x_WriteRcd_eq, x_CreateRcdSelectObj, a1, a3, a4, a5, a6, a7, a8, a9, hP, hF]

/-- The font lookup, when the conversion of the family name succeeds. -/
theorem x_LoadFont_facts (face : Int) (size : ℚ) (rot : Int) (family : List Nat)
    (s s1 : CDevEMF) (font : EMF.SFont)
    (h : x_LoadFont face size rot family s = some (s1, font)) :
    SameActive s s1 ∧ s1.m_Pens = s.m_Pens ∧ s1.m_Brushes = s.m_Brushes
      ∧ ∃ newFont : EMF.SFont,
          SFont face (x_Inches2Dev (size / 72)) rot
              (if family = [] then s.m_DefaultFontFamily else family) = some newFont
            ∧ fontEquiv newFont font = true
            ∧ ((s.m_Fonts.find? (fontEquiv newFont) = none
                  ∧ font = { newFont with ihFont := s.m_LastHandle + 1 }
                  ∧ s1.written = s.written ++ [Rcd.SFont font]
                  ∧ s1.m_LastHandle = s.m_LastHandle + 1
                  ∧ s1.m_Fonts = s.m_Fonts ++ [font])
                ∨ (s.m_Fonts.find? (fontEquiv newFont) = some font ∧ s1 = s)) := by
  unfold x_LoadFont at h
  simp only at h
  split at h
  · exact absurd h (by simp)
  · rename_i newFont hnew
    split at h
    · rename_i hfind
      simp only [Option.some.injEq, Prod.mk.injEq] at h
      obtain ⟨h1, h2⟩ := h
      subst h1 h2
      refine ⟨?_, ?_, ?_, newFont, hnew, ?_, Or.inl ⟨hfind, rfl, ?_, ?_, ?_⟩⟩
      · rw [x_WriteRcd_eq]; exact ⟨rfl, rfl, rfl, rfl, rfl, rfl, rfl, rfl, rfl, rfl⟩
      · rw [x_WriteRcd_eq]
      · rw [x_WriteRcd_eq]
      · simp [fontEquiv]
      · rw [x_WriteRcd_eq]
      · rw [x_WriteRcd_eq]
      · rw [x_WriteRcd_eq]
    · rename_i i hfind
      simp only [Option.some.injEq, Prod.mk.injEq] at h
      obtain ⟨h1, h2⟩ := h
      subst h1 h2
      refine ⟨SameActive.rfl' s, rfl, rfl, newFont, hnew, ?_, Or.inr ⟨hfind, rfl⟩⟩
      exact List.find?_some hfind

theorem x_SetFont_facts (face : Int) (size : ℚ) (rot : Int) (family : List Nat)
    (s s1 : CDevEMF) (font : EMF.SFont)
    (h : x_LoadFont face size rot family s = some (s1, font)) :
    ∃ t, x_SetFont face size rot family s = some t
      ∧ t.written = s1.written ++ objSelection font.ihFont s.m_CurrFont
      ∧ t.m_CurrFont = font.ihFont
      ∧ t.m_CurrPen = s.m_CurrPen ∧ t.m_CurrBrush = s.m_CurrBrush
      ∧ t.m_CurrHadj = s.m_CurrHadj ∧ t.m_CurrTextCol = s.m_CurrTextCol
      ∧ t.m_PageNum = s.m_PageNum ∧ t.m_Height = s.m_Height ∧ t.m_Width = s.m_Width
      ∧ t.m_Pens = s.m_Pens ∧ t.m_Brushes = s.m_Brushes ∧ t.m_Fonts = s1.m_Fonts
      ∧ t.m_LastHandle = s1.m_LastHandle := by
  obtain ⟨⟨a1, a2, a3, a4, a5, a6, a7, a8, a9, a10⟩, hP, hB, _⟩ :=
    x_LoadFont_facts face size rot family s s1 font h
  unfold x_SetFont objSelection
  rw [h]
  by_cases hc : font.ihFont = s.m_CurrFont
  · have hc' : font.ihFont = s1.m_CurrFont := by rw [a3]; exact hc
    simp [hc, ← hc', a1, a2, a4, a5, a6, a7, a8, hP, hB]
  · have hc' : ¬ font.ihFont = s1.m_CurrFont := by rw [a3]; exact hc
    simp [hc, hc', x_WriteRcd_eq, x_CreateRcdSelectObj, a1, a2, a4, a5, a6, a7, a8, hP, hB]

theorem x_SetFont_none (face : Int) (size : ℚ) (rot : Int) (family : List Nat) (s : CDevEMF)
    (h : x_LoadFont face size rot family s = none) :
    x_SetFont face size rot family s = none := by
  unfold x_SetFont
  rw [h]

/-! ## C5: selection only on change -/

theorem penSelection_selected (gc : GEcontext) (ih curr : Nat) :
    (penSelection gc ih curr).filterMap Rcd.selectedHandle
      = if ih ≠ curr then [ih] else [] := by
  unfold penSelection
  by_cases h : ih = curr <;> by_cases hj : gc.ljoin = GE_MITRE_JOIN <;>
    simp [h, hj, Rcd.selectedHandle]

theorem objSelection_selected (ih curr : Nat) :
    (objSelection ih curr).filterMap Rcd.selectedHandle
      = if ih ≠ curr then [ih] else [] := by
  unfold objSelection
  by_cases h : ih = curr <;> simp [h, Rcd.selectedHandle]

/-- The records `x_SetLinetype` writes: the creation record of the pen when it
is new, then the selection. -/
theorem x_SetLinetype_newRecords (gc : GEcontext) (s : CDevEMF) :
    newRecords s (x_SetLinetype gc s)
      = newRecords s (x_SetLinetype_intern gc s).1
          ++ penSelection gc (x_SetLinetype_intern gc s).2 s.m_CurrPen
      ∧ (newRecords s (x_SetLinetype_intern gc s).1 = []
          ∨ ∃ p, newRecords s (x_SetLinetype_intern gc s).1 = [Rcd.SPen p]) := by
  obtain ⟨hw, _⟩ := x_SetLinetype_facts gc s
  obtain ⟨_, _, _, hcase⟩ := x_SetLinetype_intern_facts gc s
  rcases hcase with ⟨_, h1, _⟩ | ⟨i, _, h1, _⟩
  · rw [newRecords_append s _ _ h1]
    refine ⟨?_, Or.inr ⟨_, rfl⟩⟩
    apply newRecords_append
    rw [hw, h1, List.append_assoc]
  · have h1' : (x_SetLinetype_intern gc s).1.written = s.written ++ [] := by simp [h1]
    rw [newRecords_append s _ _ h1']
    refine ⟨?_, Or.inl rfl⟩
    apply newRecords_append
    rw [hw, h1]
    simp

theorem x_SetFill_newRecords (col : Int) (s : CDevEMF) :
    newRecords s (x_SetFill col s)
      = newRecords s (x_SetFill_intern col s).1
          ++ objSelection (x_SetFill_intern col s).2 s.m_CurrBrush
      ∧ (newRecords s (x_SetFill_intern col s).1 = []
          ∨ ∃ b, newRecords s (x_SetFill_intern col s).1 = [Rcd.SBrush b]) := by
  obtain ⟨hw, _⟩ := x_SetFill_facts col s
  obtain ⟨_, _, _, hcase⟩ := x_SetFill_intern_facts col s
  rcases hcase with ⟨_, h1, _⟩ | ⟨i, _, h1, _⟩
  · rw [newRecords_append s _ _ h1]
    refine ⟨?_, Or.inr ⟨_, rfl⟩⟩
    apply newRecords_append
    rw [hw, h1, List.append_assoc]
  · have h1' : (x_SetFill_intern col s).1.written = s.written ++ [] := by simp [h1]
    rw [newRecords_append s _ _ h1']
    refine ⟨?_, Or.inl rfl⟩
    apply newRecords_append
    rw [hw, h1]
    simp

theorem x_SetFont_newRecords (face : Int) (size : ℚ) (rot : Int) (family : List Nat)
    (s s1 : CDevEMF) (font : EMF.SFont)
    (h : x_LoadFont face size rot family s = some (s1, font)) :
    ∃ t, x_SetFont face size rot family s = some t
      ∧ newRecords s t = newRecords s s1 ++ objSelection font.ihFont s.m_CurrFont
      ∧ (newRecords s s1 = [] ∨ newRecords s s1 = [Rcd.SFont font])
      ∧ t.m_CurrFont = font.ihFont := by
  obtain ⟨t, ht, hw, hc, _⟩ := x_SetFont_facts face size rot family s s1 font h
  obtain ⟨_, _, _, nf, _, _, hcase⟩ := x_LoadFont_facts face size rot family s s1 font h
  refine ⟨t, ht, ?_, ?_, hc⟩
  · rcases hcase with ⟨_, _, h1, _⟩ | ⟨_, h1⟩
    · rw [newRecords_append s _ _ h1]
      apply newRecords_append
      rw [hw, h1, List.append_assoc]
    · subst h1
      have h1' : s1.written = s1.written ++ [] := by simp
      rw [newRecords_append s1 s1 [] h1']
      apply newRecords_append
      rw [hw]
      simp
  · rcases hcase with ⟨_, _, h1, _⟩ | ⟨_, h1⟩
    · exact Or.inr (newRecords_append s _ _ h1)
    · subst h1
      exact Or.inl (newRecords_append s1 s1 [] (by simp))

/-- C5: for each category, in every device state, the function writes a
select-object record if and only if the handle that the request resolves to
differs from the active handle of the category; the record references the
resolved handle, and afterwards the active handle is the resolved handle.
(`x_SetFont` writes nothing and has no result when the font family is not
valid UTF-8.) -/
theorem select_iff_changed (gc : GEcontext) (col face rot : Int) (size : ℚ)
    (family : List Nat) (s : CDevEMF) :
    ((newRecords s (x_SetLinetype gc s)).filterMap Rcd.selectedHandle
          = (if (x_SetLinetype_intern gc s).2 ≠ s.m_CurrPen
              then [(x_SetLinetype_intern gc s).2] else [])
        ∧ (x_SetLinetype gc s).m_CurrPen = (x_SetLinetype_intern gc s).2)
      ∧ ((newRecords s (x_SetFill col s)).filterMap Rcd.selectedHandle
          = (if (x_SetFill_intern col s).2 ≠ s.m_CurrBrush
              then [(x_SetFill_intern col s).2] else [])
        ∧ (x_SetFill col s).m_CurrBrush = (x_SetFill_intern col s).2)
      ∧ (match x_LoadFont face size rot family s with
          | none => x_SetFont face size rot family s = none
          | some (_, font) =>
              ∃ t, x_SetFont face size rot family s = some t
                ∧ (newRecords s t).filterMap Rcd.selectedHandle
                    = (if font.ihFont ≠ s.m_CurrFont then [font.ihFont] else [])
                ∧ t.m_CurrFont = font.ihFont) := by
  refine ⟨⟨?_, (x_SetLinetype_facts gc s).2.1⟩, ⟨?_, (x_SetFill_facts col s).2.1⟩, ?_⟩
  · obtain ⟨h1, h2⟩ := x_SetLinetype_newRecords gc s
    rw [h1, List.filterMap_append, penSelection_selected]
    rcases h2 with h2 | ⟨p, h2⟩ <;> rw [h2] <;> simp [Rcd.selectedHandle]
  · obtain ⟨h1, h2⟩ := x_SetFill_newRecords col s
    rw [h1, List.filterMap_append, objSelection_selected]
    rcases h2 with h2 | ⟨p, h2⟩ <;> rw [h2] <;> simp [Rcd.selectedHandle]
  · cases hl : x_LoadFont face size rot family s with
    | none => exact x_SetFont_none face size rot family s hl
    | some r =>
        obtain ⟨s1, font⟩ := r
        obtain ⟨t, ht, h1, h2, hc⟩ := x_SetFont_newRecords face size rot family s s1 font hl
        refine ⟨t, ht, ?_, hc⟩
        rw [h1, List.filterMap_append, objSelection_selected]
        rcases h2 with h2 | h2 <;> rw [h2] <;> simp [Rcd.selectedHandle]

/-! ## A resource that is cached and active -/

theorem find?_concat_self {α : Type} (p : α → Bool) (l : List α) (a : α)
    (h : l.find? p = none) (ha : p a = true) : (l ++ [a]).find? p = some a := by
  rw [List.find?_append, h]
  simp [List.find?, ha]

theorem penEquiv_self (a : EMF.S_EXTCREATEPEN) (h : Nat) :
    penEquiv a { a with ihPen := h } = true := by
  simp [penEquiv]

theorem brushEquiv_self (a : EMF.SBrush) (h : Nat) :
    brushEquiv a { a with ihBrush := h } = true := by
  simp [brushEquiv]

theorem x_SetLinetype_ready (gc : GEcontext) (s : CDevEMF) : PenReady gc (x_SetLinetype gc s) := by
  obtain ⟨_, hc, _, _, _, _, _, _, _, hp, _, _, _, hu⟩ := x_SetLinetype_facts gc s
  obtain ⟨_, _, _, hcase⟩ := x_SetLinetype_intern_facts gc s
  unfold PenReady
  rw [hp, hc, hu]
  rcases hcase with ⟨hf, _, h2, _, h4⟩ | ⟨i, hf, _, h2, _, h4⟩
  · rw [h4, h2]
    exact ⟨_, find?_concat_self _ _ _ hf (penEquiv_self _ _), rfl⟩
  · rw [h4, h2]
    exact ⟨i, hf, rfl⟩

theorem x_SetFill_ready (col : Int) (s : CDevEMF) : BrushReady col (x_SetFill col s) := by
  obtain ⟨_, hc, _, _, _, _, _, _, _, _, hb, _, _, _⟩ := x_SetFill_facts col s
  obtain ⟨_, _, _, hcase⟩ := x_SetFill_intern_facts col s
  unfold BrushReady
  rw [hb, hc]
  rcases hcase with ⟨hf, _, h2, _, h4⟩ | ⟨i, hf, _, h2, _, h4⟩
  · rw [h4, h2]
    exact ⟨_, find?_concat_self _ _ _ hf (brushEquiv_self _ _), rfl⟩
  · rw [h4, h2]
    exact ⟨i, hf, rfl⟩

/-- When the pen of `gc` is cached and active, `x_SetLinetype` writes nothing
and changes neither cache, handle counter nor active handles. -/
theorem x_SetLinetype_of_ready (gc : GEcontext) (s : CDevEMF) (h : PenReady gc s) :
    (x_SetLinetype gc s).written = s.written
      ∧ (x_SetLinetype gc s).m_Pens = s.m_Pens
      ∧ (x_SetLinetype gc s).m_CurrPen = s.m_CurrPen
      ∧ (x_SetLinetype gc s).m_LastHandle = s.m_LastHandle := by
  obtain ⟨p, hf, hp⟩ := h
  obtain ⟨hw, hc, _, _, _, _, _, _, _, hpens, _, _, hl, _⟩ := x_SetLinetype_facts gc s
  obtain ⟨_, _, _, hcase⟩ := x_SetLinetype_intern_facts gc s
  rcases hcase with ⟨hf', _⟩ | ⟨i, hf', h1, h2, h3, h4⟩
  · rw [hf] at hf'; exact absurd hf' (by simp)
  · rw [hf] at hf'
    have hi : i = p := (Option.some.inj hf').symm
    subst hi
    have hsel : penSelection gc (x_SetLinetype_intern gc s).2 s.m_CurrPen = [] := by
      rw [h2, hp]; simp [penSelection]
    exact ⟨by rw [hw, hsel, h1, List.append_nil], by rw [hpens, h4], by rw [hc, h2, hp],
      by rw [hl, h3]⟩

theorem x_SetFill_of_ready (col : Int) (s : CDevEMF) (h : BrushReady col s) :
    (x_SetFill col s).written = s.written
      ∧ (x_SetFill col s).m_Brushes = s.m_Brushes
      ∧ (x_SetFill col s).m_CurrBrush = s.m_CurrBrush
      ∧ (x_SetFill col s).m_LastHandle = s.m_LastHandle := by
  obtain ⟨p, hf, hp⟩ := h
  obtain ⟨hw, hc, _, _, _, _, _, _, _, _, hbr, _, hl, _⟩ := x_SetFill_facts col s
  obtain ⟨_, _, _, hcase⟩ := x_SetFill_intern_facts col s
  rcases hcase with ⟨hf', _⟩ | ⟨i, hf', h1, h2, h3, h4⟩
  · rw [hf] at hf'; exact absurd hf' (by simp)
  · rw [hf] at hf'
    have hi : i = p := (Option.some.inj hf').symm
    subst hi
    have hsel : objSelection (x_SetFill_intern col s).2 s.m_CurrBrush = [] := by
      rw [h2, hp]; simp [objSelection]
    exact ⟨by rw [hw, hsel, h1, List.append_nil], by rw [hbr, h4], by rw [hc, h2, hp],
      by rw [hl, h3]⟩

/-- Whether a pen is ready depends on the pen cache, the line type mode and
the active pen only. -/
theorem PenReady.of_eq {gc : GEcontext} {s t : CDevEMF} (h : PenReady gc s)
    (h1 : t.m_Pens = s.m_Pens) (h2 : t.m_UseUserLty = s.m_UseUserLty)
    (h3 : t.m_CurrPen = s.m_CurrPen) : PenReady gc t := by
  unfold PenReady at h ⊢
  rw [h1, h2, h3]
  exact h

theorem BrushReady.of_eq' {col : Int} {s t : CDevEMF} (h : BrushReady col s)
    (h1 : t.m_Brushes = s.m_Brushes) (h3 : t.m_CurrBrush = s.m_CurrBrush) :
    BrushReady col t := by
  unfold BrushReady at h ⊢
  rw [h1, h3]
  exact h

/-- After `Rect` the pen and the brush of its graphics context are ready. -/
theorem Rect_ready (x0 y0 x1 y1 : ℚ) (gc : GEcontext) (s : CDevEMF) :
    PenReady gc (Rect x0 y0 x1 y1 gc s) ∧ BrushReady gc.fill (Rect x0 y0 x1 y1 gc s) := by
  have hp := x_SetLinetype_ready gc s
  have hb := x_SetFill_ready gc.fill (x_SetLinetype gc s)
  obtain ⟨_, _, hcp, _, _, _, _, _, _, hpens, _, _, _, hu⟩ :=
    x_SetFill_facts gc.fill (x_SetLinetype gc s)
  have hp2 : PenReady gc (x_SetFill gc.fill (x_SetLinetype gc s)) := hp.of_eq hpens hu hcp
  unfold Rect
  simp only [x_WriteRcd_eq]
  exact ⟨hp2.of_eq rfl rfl rfl, hb.of_eq' rfl rfl⟩

/-- `Rect` when the pen and the brush of its graphics context are ready: the
rectangle record is all that is written. -/
theorem Rect_of_ready (x0 y0 x1 y1 : ℚ) (gc : GEcontext) (s : CDevEMF)
    (hp : PenReady gc s) (hb : BrushReady gc.fill s) :
    ∃ box, (Rect x0 y0 x1 y1 gc s).written = s.written ++ [Rcd.S_RECTANGLE box]
      ∧ (Rect x0 y0 x1 y1 gc s).m_LastHandle = s.m_LastHandle
      ∧ (Rect x0 y0 x1 y1 gc s).m_Brushes = s.m_Brushes
      ∧ (Rect x0 y0 x1 y1 gc s).m_Pens = s.m_Pens := by
  obtain ⟨w1, p1, c1, l1⟩ := x_SetLinetype_of_ready gc s hp
  obtain ⟨_, _, cb, _, _, _, _, _, _, _, hbr, _, _, _⟩ := x_SetLinetype_facts gc s
  have hb1 : BrushReady gc.fill (x_SetLinetype gc s) := hb.of_eq' hbr cb
  obtain ⟨w2, b2, c2, l2⟩ := x_SetFill_of_ready gc.fill (x_SetLinetype gc s) hb1
  obtain ⟨_, _, _, _, _, _, _, _, _, hpens, _, _, _, _⟩ :=
    x_SetFill_facts gc.fill (x_SetLinetype gc s)
  unfold Rect
  simp only [x_WriteRcd_eq]
  exact ⟨_, by rw [w2, w1], by rw [l2, l1], by rw [b2, hbr], by rw [hpens, p1]⟩

/-! ## C10: two rectangles -/

theorem written_eq_newRecords {s t : CDevEMF} (h : Acts s t) :
    t.written = s.written ++ newRecords s t := by
  obtain ⟨rs, hrs⟩ := h.toExt1.written
  rw [newRecords_append s t rs hrs, hrs]

theorem newRecords_trans {s t u : CDevEMF} (h1 : Acts s t) (h2 : Acts t u) :
    newRecords s u = newRecords s t ++ newRecords t u := by
  apply newRecords_append
  rw [written_eq_newRecords h2, written_eq_newRecords h1, List.append_assoc]

theorem filter_of_find_pairwise {α : Type} (eq : α → α → Bool) (v : α) (l : List α) (b : α)
    (hpw : l.Pairwise (fun a c => eq c a = false))
    (htr : ∀ a c, eq v a = true → eq v c = true → eq c a = true)
    (hf : l.find? (eq v) = some b) : l.filter (eq v) = [b] := by
  induction l with
  | nil => simp at hf
  | cons a l ih =>
      rw [List.pairwise_cons] at hpw
      obtain ⟨ha, hl⟩ := hpw
      by_cases hva : eq v a = true
      · rw [List.find?_cons_of_pos _ hva] at hf
        have hab : a = b := Option.some.inj hf
        subst hab
        rw [List.filter_cons_of_pos hva]
        congr 1
        rw [List.filter_eq_nil_iff]
        intro c hc hvc
        have := htr a c hva hvc
        rw [ha c hc] at this
        exact absurd this (by simp)
      · rw [List.find?_cons_of_neg _ hva] at hf
        rw [List.filter_cons_of_neg hva]
        exact ih hl hf

/-- The brush creation records that `x_SetFill` writes: one when the brush is
not cached, none when it is. -/
theorem x_SetFill_created (col : Int) (s : CDevEMF) :
    ((newRecords s (x_SetFill col s)).filterMap Rcd.asBrush).length
      = if s.m_Brushes.find? (brushEquiv (SBrush col)) = none then 1 else 0 := by
  obtain ⟨h1, _⟩ := x_SetFill_newRecords col s
  obtain ⟨_, _, _, hcase⟩ := x_SetFill_intern_facts col s
  have hsel : (objSelection (x_SetFill_intern col s).2 s.m_CurrBrush).filterMap Rcd.asBrush
      = [] := by
    unfold objSelection
    split <;> simp [Rcd.asBrush]
  rw [h1, List.filterMap_append, hsel, List.append_nil]
  rcases hcase with ⟨hf, hw, _⟩ | ⟨i, hf, hw, _⟩
  · rw [newRecords_append s _ _ hw, hf]
    simp [Rcd.asBrush]
  · rw [newRecords_append s _ _ (by rw [hw]; simp : _ = s.written ++ []), hf]
    simp

theorem x_SetLinetype_no_brush (gc : GEcontext) (s : CDevEMF) :
    (newRecords s (x_SetLinetype gc s)).filterMap Rcd.asBrush = [] := by
  obtain ⟨h1, h2⟩ := x_SetLinetype_newRecords gc s
  have hsel : (penSelection gc (x_SetLinetype_intern gc s).2 s.m_CurrPen).filterMap Rcd.asBrush
      = [] := by
    unfold penSelection
    split
    · split <;> simp [Rcd.asBrush]
    · simp
  rw [h1, List.filterMap_append, hsel, List.append_nil]
  rcases h2 with h2 | ⟨p, h2⟩ <;> rw [h2] <;> simp [Rcd.asBrush]

/-- The brush creation records of one `Rect`. -/
theorem Rect_created (x0 y0 x1 y1 : ℚ) (gc : GEcontext) (s : CDevEMF) :
    ((newRecords s (Rect x0 y0 x1 y1 gc s)).filterMap Rcd.asBrush).length
      = if s.m_Brushes.find? (brushEquiv (SBrush gc.fill)) = none then 1 else 0 := by
  have a1 := x_SetLinetype_acts gc s
  have a2 := x_SetFill_acts gc.fill (x_SetLinetype gc s)
  have hr : (Rect x0 y0 x1 y1 gc s).written
      = s.written ++ (newRecords s (x_SetLinetype gc s)
          ++ newRecords (x_SetLinetype gc s) (x_SetFill gc.fill (x_SetLinetype gc s))
          ++ [Rcd.S_RECTANGLE
                ⟨lround x0,
                 lround ((x_TransformY (x_SetFill gc.fill (x_SetLinetype gc s)).m_Height
                   [y0] 1).getD 0 0),
                 lround x1,
                 lround ((x_TransformY (x_SetFill gc.fill (x_SetLinetype gc s)).m_Height
                   [y1] 1).getD 0 0)⟩]) := by
    unfold Rect
    simp only [x_WriteRcd_eq]
    rw [written_eq_newRecords a2, written_eq_newRecords a1]
    simp [List.append_assoc]
  rw [newRecords_append s _ _ hr]
  simp only [List.filterMap_append, x_SetLinetype_no_brush, List.nil_append, List.length_append]
  rw [x_SetFill_created]
  obtain ⟨_, _, _, _, _, _, _, _, _, _, hbr, _, _, _⟩ := x_SetLinetype_facts gc s
  rw [hbr]
  simp [Rcd.asBrush]

/-- The brush creation records of two `Rect` calls with the same graphics
context, and the records of the second call. -/
theorem Rect_Rect_records (x0 y0 x1 y1 x0' y0' x1' y1' : ℚ) (gc : GEcontext) (s : CDevEMF) :
    (∃ box, newRecords (Rect x0 y0 x1 y1 gc s)
        (Rect x0' y0' x1' y1' gc (Rect x0 y0 x1 y1 gc s)) = [Rcd.S_RECTANGLE box])
      ∧ ((newRecords s (Rect x0' y0' x1' y1' gc (Rect x0 y0 x1 y1 gc s))).filterMap
            Rcd.asBrush).length
          = if s.m_Brushes.find? (brushEquiv (SBrush gc.fill)) = none then 1 else 0 := by
  obtain ⟨hp, hb⟩ := Rect_ready x0 y0 x1 y1 gc s
  obtain ⟨box, hw, _⟩ := Rect_of_ready x0' y0' x1' y1' gc _ hp hb
  have h2 := newRecords_append _ _ _ hw
  refine ⟨⟨box, h2⟩, ?_⟩
  rw [newRecords_trans (Rect_acts x0 y0 x1 y1 gc s) (Rect_acts x0' y0' x1' y1' gc _), h2,
    List.filterMap_append, List.length_append, Rect_created]
  simp [Rcd.asBrush]

/-- C10 (amended): two consecutive `Rect` calls with the same graphics context
write at most one brush creation record between them: exactly one when the
brush of the fill colour was not cached before the first call, none when it
was. The second call writes its rectangle record and nothing else (no
select-object record). In every state of a session (where `Inv` holds) the
stream then holds exactly one creation record of that brush. -/
theorem Rect_twice (x0 y0 x1 y1 x0' y0' x1' y1' : ℚ) (gc : GEcontext) (s : CDevEMF) :
    (∃ box, newRecords (Rect x0 y0 x1 y1 gc s)
        (Rect x0' y0' x1' y1' gc (Rect x0 y0 x1 y1 gc s)) = [Rcd.S_RECTANGLE box])
      ∧ ((newRecords s (Rect x0' y0' x1' y1' gc (Rect x0 y0 x1 y1 gc s))).filterMap
            Rcd.asBrush).length
          = (if s.m_Brushes.find? (brushEquiv (SBrush gc.fill)) = none then 1 else 0)
      ∧ (Inv s →
          ∃ b, ((Rect x0' y0' x1' y1' gc (Rect x0 y0 x1 y1 gc s)).written.filterMap
                  Rcd.asBrush).filter (brushEquiv (SBrush gc.fill)) = [b]) := by
  obtain ⟨h1, h2⟩ := Rect_Rect_records x0 y0 x1 y1 x0' y0' x1' y1' gc s
  refine ⟨h1, h2, ?_⟩
  intro hinv
  have hacts := (Rect_acts x0 y0 x1 y1 gc s).andThen
    (Rect_acts x0' y0' x1' y1' gc (Rect x0 y0 x1 y1 gc s))
  have hinv2 := hacts.keepInv hinv
  obtain ⟨_, b, hf, _⟩ := Rect_ready x0' y0' x1' y1' gc (Rect x0 y0 x1 y1 gc s)
  refine ⟨b, ?_⟩
  rw [hinv2.brushes]
  apply filter_of_find_pairwise brushEquiv _ _ _ hinv2.brushesDistinct _ hf
  intro a c ha hc
  simp only [brushEquiv, beq_iff_eq] at ha hc ⊢
  rw [← hc, ← ha]

/-- C10, counterexample: after `Open` and one `Rect`, two further `Rect` calls
with the same graphics context write no brush creation record at all. -/
theorem Rect_twice_none :
    ((newRecords (session false [] 10160 7620 [Op.Rect 0 0 1 1 gcBlack])
        (Rect 2 2 3 3 gcBlack (Rect 1 1 2 2 gcBlack
          (session false [] 10160 7620 [Op.Rect 0 0 1 1 gcBlack])))).filterMap
        Rcd.asBrush).length = 0 := by
  have hs := session_one false [] 10160 7620 (Op.Rect 0 0 1 1 gcBlack)
  obtain ⟨_, b, hf, _⟩ := Rect_ready 0 0 1 1 gcBlack
    (Open true 10160 7620 (CDevEMF.new false [])).1
  have h := (Rect_Rect_records 1 1 2 2 2 2 3 3 gcBlack
    (session false [] 10160 7620 [Op.Rect 0 0 1 1 gcBlack])).2
  rw [h, hs]
  show (if List.find? (brushEquiv (SBrush gcBlack.fill))
    (Rect 0 0 1 1 gcBlack (Open true 10160 7620 (CDevEMF.new false [])).1).m_Brushes = none
    then 1 else 0) = 0
  rw [hf]
  simp

/-! ## C3: handles -/

/-- The handles of the creation records of a stream, sorted by kind, are the
handles of its creation records in stream order, up to the order. -/
theorem creation_handles_perm (w : List Rcd) :
    ((w.filterMap Rcd.asPen).map (fun p => p.ihPen)
        ++ (w.filterMap Rcd.asBrush).map (fun b => b.ihBrush)
        ++ (w.filterMap Rcd.asFont).map (fun f => f.ihFont)).Perm
      (w.filterMap Rcd.creationHandle) := by
  induction w with
  | nil => simp
  | cons r w ih =>
      cases r with
      | SPen p =>
          simp only [List.filterMap_cons, Rcd.asPen, Rcd.asBrush, Rcd.asFont,
            Rcd.creationHandle, List.map_cons, List.cons_append]
          exact List.Perm.cons _ ih
      | SBrush b =>
          simp only [List.filterMap_cons, Rcd.asPen, Rcd.asBrush, Rcd.asFont,
            Rcd.creationHandle, List.map_cons]
          refine List.Perm.trans ?_ (List.Perm.cons _ ih)
          rw [List.append_assoc, List.append_assoc]
          exact List.perm_middle
      | SFont f =>
          simp only [List.filterMap_cons, Rcd.asPen, Rcd.asBrush, Rcd.asFont,
            Rcd.creationHandle, List.map_cons]
          refine List.Perm.trans ?_ (List.Perm.cons _ ih)
          exact List.perm_middle
      | _ =>
          simpa only [List.filterMap_cons, Rcd.asPen, Rcd.asBrush, Rcd.asFont,
            Rcd.creationHandle] using ih

theorem Inv.handles_perm {s : CDevEMF} (h : Inv s) :
    s.handles.Perm (List.range' 1 s.m_LastHandle) := by
  have := creation_handles_perm s.written
  rw [h.pens, h.brushes, h.fonts, h.created] at this
  exact this

theorem count_range'_one (m h : Nat) (h1 : 1 ≤ h) (h2 : h ≤ m) :
    (List.range' 1 m).count h = 1 :=
  List.count_eq_one_of_mem (List.nodup_range' 1 m) (by rw [List.mem_range'_1]; omega)

/-- C3 (amended): in every state of a session (a successful `Open` on a new
device, then any calls) the handles of the cached pens, brushes and fonts are
exactly the integers `1..m_LastHandle`, each held by exactly one resource over
all three kinds; the creation records of the stream are those of the cached
resources and define the handles `1, 2, .., m_LastHandle` in this order, so
every handle has exactly one creation record; and the handle count that `Close`
writes into the header (offset 56) is `m_LastHandle + 1` reduced to the width
`nHandlesBits` of the header field `nHandles` (16 bits in the EMF header): it is
`m_LastHandle + 1` whenever that number fits the field. -/
theorem handles_dense (userLty : Bool) (family : List Nat) (width height : Int)
    (ops : List Op) (nHandlesBits : Nat) :
    (session userLty family width height ops).handles.Perm
        (List.range' 1 (session userLty family width height ops).m_LastHandle)
      ∧ (session userLty family width height ops).handles.Nodup
      ∧ (session userLty family width height ops).written.filterMap Rcd.creationHandle
          = List.range' 1 (session userLty family width height ops).m_LastHandle
      ∧ (∀ h : Nat, 1 ≤ h → h ≤ (session userLty family width height ops).m_LastHandle →
          ((session userLty family width height ops).written.filterMap
            Rcd.creationHandle).count h = 1)
      ∧ (session userLty family width height ops).written.filterMap Rcd.asPen
          = (session userLty family width height ops).m_Pens
      ∧ (session userLty family width height ops).written.filterMap Rcd.asBrush
          = (session userLty family width height ops).m_Brushes
      ∧ (session userLty family width height ops).written.filterMap Rcd.asFont
          = (session userLty family width height ops).m_Fonts
      ∧ readUInt4 (Close nHandlesBits (session userLty family width height ops)).m_File 56
          = ((session userLty family width height ops).m_LastHandle + 1) % 2 ^ nHandlesBits
              % 4294967296
      ∧ (nHandlesBits ≤ 32 →
          (session userLty family width height ops).m_LastHandle + 1 < 2 ^ nHandlesBits →
          readUInt4 (Close nHandlesBits (session userLty family width height ops)).m_File 56
            = (session userLty family width height ops).m_LastHandle + 1)
      ∧ (Close nHandlesBits (session userLty family width height ops)).m_LastHandle
          = (session userLty family width height ops).m_LastHandle := by
  have hinv := session_inv userLty family width height ops
  have hlen := session_file_length_ge userLty family width height ops
  obtain ⟨_, _, _, h56⟩ := Close_fields nHandlesBits
    (session userLty family width height ops) (by omega)
  have hperm := hinv.handles_perm
  refine ⟨hperm, (List.Perm.nodup_iff hperm).mpr (List.nodup_range' 1 _), hinv.created, ?_,
    hinv.pens, hinv.brushes, hinv.fonts, h56, ?_, ?_⟩
  · intro h h1 h2
    rw [hinv.created]
    exact count_range'_one _ h h1 h2
  · intro hbits hfit
    rw [h56, Nat.mod_eq_of_lt hfit]
    apply Nat.mod_eq_of_lt
    have : 2 ^ nHandlesBits ≤ 2 ^ 32 := Nat.pow_le_pow_right (by omega) hbits
    omega
  · rw [Close_eq _ _ (by omega)]

/-- C3, witness: `Open`, one `Rect`, one `Line`; the 16-bit handle count. -/
theorem handles_dense_witness :
    (session false [] 10160 7620
          [Op.Rect 0 0 1 1 gcBlack, Op.Line 0 0 1 1 gcBlack]).m_LastHandle + 1 < 2 ^ 16
      ∧ (session false [] 10160 7620
          [Op.Rect 0 0 1 1 gcBlack, Op.Line 0 0 1 1 gcBlack]).handles.Perm
            (List.range' 1 (session false [] 10160 7620
              [Op.Rect 0 0 1 1 gcBlack, Op.Line 0 0 1 1 gcBlack]).m_LastHandle)
      ∧ readUInt4 (Close 16 (session false [] 10160 7620
          [Op.Rect 0 0 1 1 gcBlack, Op.Line 0 0 1 1 gcBlack])).m_File 56
          = (session false [] 10160 7620
              [Op.Rect 0 0 1 1 gcBlack, Op.Line 0 0 1 1 gcBlack]).m_LastHandle + 1 :=
  have h := handles_dense false [] 10160 7620
    [Op.Rect 0 0 1 1 gcBlack, Op.Line 0 0 1 1 gcBlack] 16
  ⟨by decide!, h.1, h.2.2.2.2.2.2.2.2.1 (by decide) (by decide!)⟩

/-! ## C4: one creation record for each value -/

theorem fontEquiv_refl (a : EMF.SFont) : fontEquiv a a = true := by
  simp [fontEquiv]

theorem frameOf_tag (r : Rcd) : readUInt4 (frameOf r) 0 = r.iType % 4294967296 := by
  rw [frameOf_explicit, readUInt4_append_left _ _ 0 (by simp [TUInt4_length]), readUInt4_TUInt4]

theorem patchFrame_tag (f data : List Nat) (hf : 60 ≤ f.length) :
    readUInt4 (patchFrame f data) 0 = readUInt4 f 0 := by
  have h48 : (f.take 48).length = 48 := by simp; omega
  unfold patchFrame
  rw [List.append_assoc, readUInt4_append_left _ _ 0 (by omega)]
  conv_rhs => rw [← List.take_append_drop 48 f]
  rw [readUInt4_append_left _ _ 0 (by omega)]

theorem frameOf_small (r : Rcd) (h : (Serialize r).length ≤ 1000) :
    (frameOf r).length ≤ 1003 := by
  rw [frameOf_length]; omega

theorem serUInt4s_length (vs : List Nat) : (serUInt4s vs).length = 4 * vs.length := by
  induction vs with
  | nil => rfl
  | cons v vs ih =>
      simp only [serUInt4s, List.length_append, ih, TUInt4_length, List.length_cons]
      omega

theorem ltyStyleEntries_length_le (k : Nat) (lty : Int) : (ltyStyleEntries k lty).length ≤ k := by
  induction k generalizing lty with
  | zero => simp [ltyStyleEntries]
  | succ k ih =>
      unfold ltyStyleEntries
      split
      · simp only [List.length_cons]
        have := ih (lty / 16)
        omega
      · simp

theorem SPen_styleEntries_length_le (gc : GEcontext) (u : Bool) :
    (SPen gc u).styleEntries.length ≤ 8 := by
  unfold SPen
  simp only
  split
  · simp
  · show (if u = true ∧ (if u = true then ltyNumEntries 8 gc.lty else 0) ≠ 0
        then ltyStyleEntries 8 gc.lty else []).length ≤ 8
    by_cases hc : u = true ∧ (if u = true then ltyNumEntries 8 gc.lty else 0) ≠ 0
    · rw [if_pos hc]; exact ltyStyleEntries_length_le 8 gc.lty
    · rw [if_neg hc]; simp

theorem SPen_serialize_length_le (gc : GEcontext) (u : Bool) (h : Nat) :
    (Serialize (Rcd.SPen { SPen gc u with ihPen := h })).length ≤ 1000 := by
  have := SPen_styleEntries_length_le gc u
  rw [Serialize_length]
  simp only [Rcd.payload, List.length_append, TUInt4_length, TInt4_length, serUInt4s_length,
    serColor, List.length_cons, List.length_nil]
  omega

theorem header_serialize_length (emr : EMF.SHeader) :
    (Serialize (Rcd.SHeader emr)).length = 108 + emr.desc.length := by
  rw [Serialize_length]
  simp only [Rcd.payload, List.length_append, TUInt4_length, TInt4_length, serRect, serSize,
    TUInt2, List.length_cons, List.length_nil]
  omega

theorem x_CreateRcdHeader_desc (s : CDevEMF) :
    ∃ emr : EMF.SHeader,
      x_CreateRcdHeader s =
        x_WriteRcd (Rcd.S_SETMAPMODE EMF.eMM_TEXT)
          (x_WriteRcd (Rcd.S_SETBKMODE EMF.eTRANSPARENT) (x_WriteRcd (Rcd.SHeader emr) s))
      ∧ emr.desc.length = 52 := by
  unfold x_CreateRcdHeader
  rw [headerDescription_utf16]
  exact ⟨_, rfl, rfl⟩

/-- The device right after a successful `Open` on a new object. -/
theorem Open_fresh (u : Bool) (f : List Nat) (w h : Int) :
    ∃ emr : EMF.SHeader,
      (Open true w h (CDevEMF.new u f)).1.written
          = [Rcd.SHeader emr, Rcd.S_SETBKMODE EMF.eTRANSPARENT, Rcd.S_SETMAPMODE EMF.eMM_TEXT]
        ∧ emr.desc.length = 52
        ∧ (Open true w h (CDevEMF.new u f)).1.m_Pens = []
        ∧ (Open true w h (CDevEMF.new u f)).1.m_Brushes = []
        ∧ (Open true w h (CDevEMF.new u f)).1.m_Fonts = []
        ∧ (Open true w h (CDevEMF.new u f)).1.m_CurrPen = 0
        ∧ (Open true w h (CDevEMF.new u f)).1.m_LastHandle = 0
        ∧ (Open true w h (CDevEMF.new u f)).1.m_UseUserLty = u
        ∧ (Open true w h (CDevEMF.new u f)).1.m_Height = h
        ∧ (Open true w h (CDevEMF.new u f)).1.m_Width = w
        ∧ (Open true w h (CDevEMF.new u f)).1.m_CurrTextCol = -1
        ∧ (Open true w h (CDevEMF.new u f)).1.m_PageNum = 0
        ∧ (Open true w h (CDevEMF.new u f)).1.m_DefaultFontFamily = f := by
  have hO : (Open true w h (CDevEMF.new u f)).1
      = x_CreateRcdHeader { CDevEMF.new u f with m_Width := w, m_Height := h } := rfl
  obtain ⟨emr, he, hd⟩ := x_CreateRcdHeader_desc
    { CDevEMF.new u f with m_Width := w, m_Height := h }
  rw [hO, he]
  refine ⟨emr, ?_, hd, ?_⟩
  · simp [x_WriteRcd_eq, CDevEMF.new]
  · simp [x_WriteRcd_eq, CDevEMF.new]

/-- The first pen of a device whose pen cache is empty. -/
theorem x_SetLinetype_first (gc : GEcontext) (s : CDevEMF) (hp : s.m_Pens = []) :
    (x_SetLinetype gc s).written
      = s.written ++ (Rcd.SPen { SPen gc s.m_UseUserLty with ihPen := s.m_LastHandle + 1 }
          :: penSelection gc (s.m_LastHandle + 1) s.m_CurrPen) := by
  obtain ⟨hw, _⟩ := x_SetLinetype_facts gc s
  obtain ⟨_, _, _, hcase⟩ := x_SetLinetype_intern_facts gc s
  rcases hcase with ⟨_, h1, h2, _⟩ | ⟨i, hf, _⟩
  · rw [hw, h1, h2]
    simp
  · rw [hp] at hf
    simp at hf

theorem Polyline_written (n : Nat) (x y : List ℚ) (gc : GEcontext) (s : CDevEMF) :
    (Polyline n x y gc s).written
      = (x_SetLinetype gc s).written
          ++ [Rcd.SPoly (SPoly EMF.eEMR_POLYLINE n x (x_TransformY s.m_Height y n))] := by
  obtain ⟨_, _, _, _, _, _, _, hh, _⟩ := x_SetLinetype_facts gc s
  unfold Polyline
  simp only [x_WriteRcd_eq, hh]

theorem Line_written (x1 y1 x2 y2 : ℚ) (gc : GEcontext) (s : CDevEMF)
    (h : x1 ≠ x2 ∨ y1 ≠ y2) :
    (Line x1 y1 x2 y2 gc s).written
      = (x_SetLinetype gc s).written
          ++ [Rcd.SPoly (SPoly EMF.eEMR_POLYLINE 2 [x1, x2]
                (x_TransformY s.m_Height [y1, y2] 2))] := by
  obtain ⟨_, _, _, _, _, _, _, hh, _⟩ := x_SetLinetype_facts gc s
  obtain ⟨hw, _⟩ := x_SetLinetype_of_ready gc _ (x_SetLinetype_ready gc s)
  unfold Line
  rw [if_pos h]
  simp only
  rw [Polyline_written, hw, hh]

theorem penSelection_length_le (gc : GEcontext) (ih curr : Nat) :
    ∀ r ∈ penSelection gc ih curr, (Serialize r).length ≤ 1000 := by
  intro r hr
  unfold penSelection at hr
  split at hr
  · split at hr
    · simp only [List.mem_cons, List.mem_singleton, List.not_mem_nil, or_false] at hr
      rcases hr with rfl | rfl <;>
        simp [Serialize, Rcd.payload, TUInt4_length, TInt4, List.length_append]
    · simp only [List.mem_cons, List.mem_singleton, List.not_mem_nil, or_false] at hr
      subst hr
      simp [Serialize, Rcd.payload, TUInt4_length, List.length_append]
  · simp at hr

/-- The records of the session of one line between two distinct points. -/
theorem Line_session_written (u : Bool) (f : List Nat) (w h : Int) (x1 y1 x2 y2 : ℚ)
    (gc : GEcontext) (hne : x1 ≠ x2 ∨ y1 ≠ y2) :
    ∃ emr : EMF.SHeader, emr.desc.length = 52 ∧
      (session u f w h [Op.Line x1 y1 x2 y2 gc]).written
        = Rcd.SHeader emr :: ([Rcd.S_SETBKMODE EMF.eTRANSPARENT, Rcd.S_SETMAPMODE EMF.eMM_TEXT,
            Rcd.SPen { SPen gc u with ihPen := 1 }, Rcd.S_SELECTOBJECT 1]
          ++ (if gc.ljoin = GE_MITRE_JOIN then
                [Rcd.S_SETMITERLIMIT (x_Inches2Dev (gc.lmitre / 72))] else [])
          ++ [Rcd.SPoly (SPoly EMF.eEMR_POLYLINE 2 [x1, x2] (x_TransformY h [y1, y2] 2))]) := by
  obtain ⟨emr, hw, hd, hp, _, _, hcp, hlh, hu, hh, _⟩ := Open_fresh u f w h
  refine ⟨emr, hd, ?_⟩
  rw [session_one]
  show (Line x1 y1 x2 y2 gc (Open true w h (CDevEMF.new u f)).1).written = _
  rw [Line_written _ _ _ _ _ _ hne, x_SetLinetype_first _ _ hp, hw, hcp, hlh, hu, hh]
  simp [penSelection]

theorem streamOf_length_le (rs : List Rcd) (B : Nat)
    (h : ∀ r ∈ rs, (frameOf r).length ≤ B) : (streamOf rs).length ≤ rs.length * B := by
  induction rs with
  | nil => simp [streamOf]
  | cons r rs ih =>
      have h1 := h r (List.mem_cons_self _ _)
      have h2 := ih (fun q hq => h q (List.mem_cons_of_mem _ hq))
      simp only [streamOf, List.length_append, List.length_cons]
      rw [Nat.add_mul]
      omega

theorem Line_session_small (u : Bool) (f : List Nat) (w h : Int) (x1 y1 x2 y2 : ℚ)
    (gc : GEcontext) (hne : x1 ≠ x2 ∨ y1 ≠ y2) :
    ∀ r ∈ (session u f w h [Op.Line x1 y1 x2 y2 gc]).written ++ [eofRecord],
      (Serialize r).length ≤ 1000 := by
  obtain ⟨emr, hd, hw⟩ := Line_session_written u f w h x1 y1 x2 y2 gc hne
  rw [hw]
  intro r hr
  simp only [List.mem_append, List.mem_cons, List.mem_singleton, List.not_mem_nil,
    or_false] at hr
  rcases hr with (rfl | (((rfl | rfl | rfl | rfl) | hm) | rfl)) | rfl
  · rw [header_serialize_length, hd]; omega
  · simp [Serialize, Rcd.payload, TUInt4_length]
  · simp [Serialize, Rcd.payload, TUInt4_length]
  · exact SPen_serialize_length_le gc u 1
  · simp [Serialize, Rcd.payload, TUInt4_length]
  · split at hm
    · simp only [List.mem_singleton] at hm
      subst hm
      simp [Serialize, Rcd.payload, TUInt4_length, TInt4]
    · simp at hm
  · rw [SPoly_serialize_length]; omega
  · simp [Serialize, Rcd.payload, TUInt4_length, eofRecord]

/-- C9 (amended): for the session `Open`, one `Line` between two distinct
points, `Close` (any canvas, any graphics context): the finished stream splits
into its top-level records, which are, in this order, header,
set-background-mode, set-map-mode, pen creation, selection, a set-miter-limit
record when the line join of the context is mitred, polyline, terminator: 7
records (8 with a mitred join); and the byte count of the header (offset 48)
equals the length of the stream. -/
theorem Line_session_records (u : Bool) (f : List Nat) (w h : Int) (x1 y1 x2 y2 : ℚ)
    (gc : GEcontext) (nHandlesBits : Nat) (hne : x1 ≠ x2 ∨ y1 ≠ y2) :
    ∃ recs : List (List Nat),
      streamRecords (Close nHandlesBits (session u f w h [Op.Line x1 y1 x2 y2 gc])).m_File
          = some recs
        ∧ recs.flatten = (Close nHandlesBits (session u f w h [Op.Line x1 y1 x2 y2 gc])).m_File
        ∧ recs.map (fun r => readUInt4 r 0)
            = [EMF.eEMR_HEADER, EMF.eEMR_SETBKMODE, EMF.eEMR_SETMAPMODE, EMF.eEMR_EXTCREATEPEN,
                EMF.eEMR_SELECTOBJECT]
              ++ (if gc.ljoin = GE_MITRE_JOIN then [EMF.eEMR_SETMITERLIMIT] else [])
              ++ [EMF.eEMR_POLYLINE, EMF.eEMR_EOF]
        ∧ recs.length = (if gc.ljoin = GE_MITRE_JOIN then 8 else 7)
        ∧ readUInt4 (Close nHandlesBits (session u f w h [Op.Line x1 y1 x2 y2 gc])).m_File 48
            = (Close nHandlesBits (session u f w h [Op.Line x1 y1 x2 y2 gc])).m_File.length := by
  obtain ⟨emr, hd, hw⟩ := Line_session_written u f w h x1 y1 x2 y2 gc hne
  have hsmall := Line_session_small u f w h x1 y1 x2 y2 gc hne
  have hI := session_inv u f w h [Op.Line x1 y1 x2 y2 gc]
  have h108 := session_file_length_ge u f w h [Op.Line x1 y1 x2 y2 gc]
  obtain ⟨hcf, hcw, _, _⟩ := Close_stream nHandlesBits _ emr _ hI.file hw
  have hsize : ∀ r ∈ (Close nHandlesBits (session u f w h [Op.Line x1 y1 x2 y2 gc])).written,
      (frameOf r).length < 4294967296 := by
    intro r hr
    rw [hcw, ← List.cons_append, ← hw] at hr
    have := frameOf_small r (hsmall r hr)
    omega
  have hrec := Close_streamRecords nHandlesBits _ emr _ hI.file hw hsize
  have hlen : (session u f w h [Op.Line x1 y1 x2 y2 gc]).m_File.length ≤ 8 * 1003 := by
    have h1 := streamOf_length_le (session u f w h [Op.Line x1 y1 x2 y2 gc]).written 1003
      (fun r hr => frameOf_small r (hsmall r (List.mem_append_left _ hr)))
    rw [← hI.file] at h1
    have h2 : (session u f w h [Op.Line x1 y1 x2 y2 gc]).written.length ≤ 8 := by
      rw [hw]
      by_cases hj : gc.ljoin = GE_MITRE_JOIN <;> simp [hj]
    calc _ ≤ _ := h1
      _ ≤ 8 * 1003 := Nat.mul_le_mul_right _ h2
  obtain ⟨hf1, hf2, _, _⟩ := Close_fields nHandlesBits
    (session u f w h [Op.Line x1 y1 x2 y2 gc]) (by omega)
  have h60 : 60 ≤ (frameOf (Rcd.SHeader emr)).length := by
    have := header_frame_length_ge emr
    omega
  refine ⟨_, hrec, ?_, ?_, ?_, ?_⟩
  · rw [hcf, streamOf_eq_flatten, List.flatten_cons]
  · rw [List.map_cons, patchFrame_tag _ _ h60, frameOf_tag, List.map_map]
    by_cases hj : gc.ljoin = GE_MITRE_JOIN <;>
      simp [hj, frameOf_tag, Rcd.iType, eofRecord, SPoly, EMF.eEMR_HEADER, EMF.eEMR_SETBKMODE,
        EMF.eEMR_SETMAPMODE, EMF.eEMR_EXTCREATEPEN, EMF.eEMR_SELECTOBJECT,
        EMF.eEMR_SETMITERLIMIT, EMF.eEMR_POLYLINE, EMF.eEMR_EOF]
  · by_cases hj : gc.ljoin = GE_MITRE_JOIN <;> simp [hj]
  · rw [hf2, hf1]
    exact Nat.mod_eq_of_lt (by omega)

/-- C9, witness: the line from (0,0) to (1,1) on the 10160 x 7620 canvas with
the solid opaque black pen. -/
theorem Line_session_records_witness :
    ((0 : ℚ) ≠ 1 ∨ (0 : ℚ) ≠ 1) ∧
    ∃ recs : List (List Nat),
      streamRecords (Close 16 (session false [] 10160 7620 [Op.Line 0 0 1 1 gcBlack])).m_File
          = some recs
        ∧ recs.flatten = (Close 16 (session false [] 10160 7620 [Op.Line 0 0 1 1 gcBlack])).m_File
        ∧ recs.map (fun r => readUInt4 r 0)
            = [EMF.eEMR_HEADER, EMF.eEMR_SETBKMODE, EMF.eEMR_SETMAPMODE, EMF.eEMR_EXTCREATEPEN,
                EMF.eEMR_SELECTOBJECT]
              ++ (if gcBlack.ljoin = GE_MITRE_JOIN then [EMF.eEMR_SETMITERLIMIT] else [])
              ++ [EMF.eEMR_POLYLINE, EMF.eEMR_EOF]
        ∧ recs.length = (if gcBlack.ljoin = GE_MITRE_JOIN then 8 else 7)
        ∧ readUInt4 (Close 16 (session false [] 10160 7620 [Op.Line 0 0 1 1 gcBlack])).m_File 48
            = (Close 16 (session false [] 10160 7620 [Op.Line 0 0 1 1 gcBlack])).m_File.length :=
  ⟨Or.inl (by simp), Line_session_records false [] 10160 7620 0 0 1 1 gcBlack 16 (Or.inl (by simp))⟩

/-- C9, counterexample: the session of the scenario (4 x 3 inch canvas, line
from (0,0) to (1,1), solid opaque black pen of width 1) has 7 top-level
records, not 5: `Open` writes a set-background-mode and a set-map-mode record
after the header. -/
theorem Line_session_seven :
    (streamRecords
        (Close 16 (session false [] 10160 7620 [Op.Line 0 0 1 1 gcBlack])).m_File).map
        (List.map (fun r => readUInt4 r 0))
      = some [1, 18, 17, 95, 37, 4, 14]
    ∧ (streamRecords
        (Close 16 (session false [] 10160 7620 [Op.Line 0 0 1 1 gcBlack])).m_File).map
        List.length ≠ some 5 := by
  decide!

/-! ## C1: the record count of the header -/

theorem Setup.nil (s : CDevEMF) : Setup s s [] :=
  ⟨by simp, by simp⟩

theorem Setup.followedBy {s t u : CDevEMF} {p q : List Rcd} (h1 : Setup s t p) (h2 : Setup t u q) :
    Setup s u (p ++ q) := by
  refine ⟨by rw [h2.1, h1.1, List.append_assoc], ?_⟩
  intro r hr
  rcases List.mem_append.mp hr with h | h
  · exact h1.2 r h
  · exact h2.2 r h

theorem penSelection_setup (gc : GEcontext) (ih curr : Nat) :
    ∀ q ∈ penSelection gc ih curr, q.isPrimitive = false := by
  intro q hq
  unfold penSelection at hq
  split at hq
  · split at hq
    · simp only [List.mem_cons, List.mem_singleton, List.not_mem_nil, or_false] at hq
      rcases hq with rfl | rfl <;> rfl
    · simp only [List.mem_singleton] at hq
      subst hq
      rfl
  · simp at hq

theorem objSelection_setup (ih curr : Nat) :
    ∀ q ∈ objSelection ih curr, q.isPrimitive = false := by
  intro q hq
  unfold objSelection at hq
  split at hq
  · simp only [List.mem_singleton] at hq
    subst hq
    rfl
  · simp at hq

theorem x_SetLinetype_setup (gc : GEcontext) (s : CDevEMF) :
    ∃ pre, Setup s (x_SetLinetype gc s) pre := by
  obtain ⟨hw, _⟩ := x_SetLinetype_facts gc s
  obtain ⟨_, _, _, hcase⟩ := x_SetLinetype_intern_facts gc s
  rcases hcase with ⟨_, h1, _⟩ | ⟨i, _, h1, _⟩
  · refine ⟨_ :: penSelection gc _ _, by rw [hw, h1, List.append_assoc]; rfl, ?_⟩
    intro q hq
    rcases List.mem_cons.mp hq with rfl | h
    · rfl
    · exact penSelection_setup _ _ _ q h
  · exact ⟨penSelection gc _ _, by rw [hw, h1], penSelection_setup _ _ _⟩

theorem x_SetFill_setup (col : Int) (s : CDevEMF) :
    ∃ pre, Setup s (x_SetFill col s) pre := by
  obtain ⟨hw, _⟩ := x_SetFill_facts col s
  obtain ⟨_, _, _, hcase⟩ := x_SetFill_intern_facts col s
  rcases hcase with ⟨_, h1, _⟩ | ⟨i, _, h1, _⟩
  · refine ⟨_ :: objSelection _ _, by rw [hw, h1, List.append_assoc]; rfl, ?_⟩
    intro q hq
    rcases List.mem_cons.mp hq with rfl | h
    · rfl
    · exact objSelection_setup _ _ q h
  · exact ⟨objSelection _ _, by rw [hw, h1], objSelection_setup _ _⟩

theorem x_SetFont_setup (face : Int) (size : ℚ) (rot : Int) (family : List Nat)
    (s t : CDevEMF) (h : x_SetFont face size rot family s = some t) :
    ∃ pre, Setup s t pre := by
  cases hl : x_LoadFont face size rot family s with
  | none =>
      rw [x_SetFont_none _ _ _ _ _ hl] at h
      exact absurd h (by simp)
  | some p =>
      obtain ⟨s1, font⟩ := p
      obtain ⟨t1, ht1, hw, _⟩ := x_SetFont_facts face size rot family s s1 font hl
      rw [h] at ht1
      cases ht1
      obtain ⟨_, _, _, newFont, _, _, hcase⟩ := x_LoadFont_facts face size rot family s s1 font hl
      rcases hcase with ⟨_, _, h1, _⟩ | ⟨_, h1⟩
      · refine ⟨_ :: objSelection _ _, by rw [hw, h1, List.append_assoc]; rfl, ?_⟩
        intro q hq
        rcases List.mem_cons.mp hq with rfl | h2
        · rfl
        · exact objSelection_setup _ _ q h2
      · exact ⟨objSelection _ _, by rw [hw, h1], objSelection_setup _ _⟩

theorem x_SetHAdj_setup (hadj : ℚ) (s : CDevEMF) :
    ∃ pre, Setup s (x_SetHAdj hadj s) pre := by
  unfold x_SetHAdj
  split
  · refine ⟨[_], by simp only [x_WriteRcd_eq]; rfl, ?_⟩
    intro q hq
    rw [List.mem_singleton] at hq
    subst hq
    rfl
  · exact ⟨[], Setup.nil s⟩

theorem x_SetTextColor_setup (col : Int) (s : CDevEMF) :
    ∃ pre, Setup s (x_SetTextColor col s) pre := by
  unfold x_SetTextColor
  split
  · refine ⟨[_], by simp only [x_WriteRcd_eq]; rfl, ?_⟩
    intro q hq
    rw [List.mem_singleton] at hq
    subst hq
    rfl
  · exact ⟨[], Setup.nil s⟩

theorem Polygon_written (n : Nat) (x y : List ℚ) (gc : GEcontext) (s : CDevEMF) :
    (Polygon n x y gc s).written
      = (x_SetFill gc.fill (x_SetLinetype gc s)).written
          ++ [Rcd.SPoly (SPoly EMF.eEMR_POLYGON n x (x_TransformY s.m_Height y n))] := by
  obtain ⟨_, _, _, _, _, _, _, hh, _⟩ := x_SetLinetype_facts gc s
  obtain ⟨_, _, _, _, _, _, _, hh2, _⟩ := x_SetFill_facts gc.fill (x_SetLinetype gc s)
  unfold Polygon
  simp only [x_WriteRcd_eq, hh, hh2]

theorem Rect_written (x0 y0 x1 y1 : ℚ) (gc : GEcontext) (s : CDevEMF) :
    (Rect x0 y0 x1 y1 gc s).written
      = (x_SetFill gc.fill (x_SetLinetype gc s)).written
          ++ [Rcd.S_RECTANGLE ⟨lround x0, lround ((s.m_Height : ℚ) - y0), lround x1,
                lround ((s.m_Height : ℚ) - y1)⟩] := by
  obtain ⟨_, _, _, _, _, _, _, hh, _⟩ := x_SetLinetype_facts gc s
  obtain ⟨_, _, _, _, _, _, _, hh2, _⟩ := x_SetFill_facts gc.fill (x_SetLinetype gc s)
  unfold Rect
  simp only [x_WriteRcd_eq, hh, hh2, x_TransformY, List.getD_cons_zero]

theorem Circle_written (x y r : ℚ) (gc : GEcontext) (s : CDevEMF) :
    (Circle x y r gc s).written
      = (x_SetFill gc.fill (x_SetLinetype gc s)).written
          ++ [Rcd.S_ELLIPSE ⟨lround (x - r), lround ((s.m_Height : ℚ) - y - r), lround (x + r),
                lround ((s.m_Height : ℚ) - y + r)⟩] := by
  obtain ⟨_, _, _, _, _, _, _, hh, _⟩ := x_SetLinetype_facts gc s
  obtain ⟨_, _, _, _, _, _, _, hh2, _⟩ := x_SetFill_facts gc.fill (x_SetLinetype gc s)
  unfold Circle
  simp only [x_WriteRcd_eq, hh, hh2, x_TransformY, List.getD_cons_zero]

theorem pen_brush_setup (gc : GEcontext) (s : CDevEMF) :
    ∃ pre, Setup s (x_SetFill gc.fill (x_SetLinetype gc s)) pre := by
  obtain ⟨p, hp⟩ := x_SetLinetype_setup gc s
  obtain ⟨q, hq⟩ := x_SetFill_setup gc.fill (x_SetLinetype gc s)
  exact ⟨p ++ q, hp.followedBy hq⟩

/-- The records of one `TextUTF8` call: records that are no drawing records,
then the text record when the font family and the string both convert. -/
theorem TextUTF8_written (x y : ℚ) (str : List Nat) (rot hadj : ℚ) (gc : GEcontext)
    (s : CDevEMF) :
    ∃ pre : List Rcd, (∀ q ∈ pre, q.isPrimitive = false) ∧
      ((∃ (t : CDevEMF) (utf16 : List Nat) (emr : EMF.S_EXTTEXTOUTW),
          x_SetFont gc.fontface (x_EffPointsize gc) (truncToInt rot) gc.fontfamily s = some t
            ∧ iConvUTF8toUTF16LE str = some utf16
            ∧ emr.emrtext.str = utf16 ∧ emr.emrtext.nChars = utf16.length / 2
            ∧ emr.emrtext.reference = ⟨lround x, lround ((s.m_Height : ℚ) - y)⟩
            ∧ (TextUTF8 x y str rot hadj gc s).written
                = s.written ++ pre ++ [Rcd.S_EXTTEXTOUTW emr])
        ∨ ((x_SetFont gc.fontface (x_EffPointsize gc) (truncToInt rot) gc.fontfamily s = none
              ∨ iConvUTF8toUTF16LE str = none)
            ∧ (TextUTF8 x y str rot hadj gc s).written = s.written ++ pre)) := by
  cases hf : x_SetFont gc.fontface (x_EffPointsize gc) (truncToInt rot) gc.fontfamily s with
  | none =>
      refine ⟨[], by simp, Or.inr ⟨Or.inl rfl, ?_⟩⟩
      unfold TextUTF8
      rw [hf]
      simp
  | some s1 =>
      obtain ⟨p1, h1⟩ := x_SetFont_setup _ _ _ _ s s1 hf
      obtain ⟨p2, h2⟩ := x_SetHAdj_setup hadj s1
      obtain ⟨p3, h3⟩ := x_SetTextColor_setup gc.col (x_SetHAdj hadj s1)
      have h123 := (h1.followedBy h2).followedBy h3
      have hheight : (x_SetTextColor gc.col (x_SetHAdj hadj s1)).m_Height = s.m_Height := by
        have e1 : s1.m_Height = s.m_Height :=
          ((x_SetFont_acts _ _ _ _ s s1 hf).toExt1).height
        have e2 : (x_SetHAdj hadj s1).m_Height = s1.m_Height := by
          unfold x_SetHAdj
          split <;> simp [x_WriteRcd_eq]
        have e3 : (x_SetTextColor gc.col (x_SetHAdj hadj s1)).m_Height
            = (x_SetHAdj hadj s1).m_Height := by
          unfold x_SetTextColor
          split <;> simp [x_WriteRcd_eq]
        rw [e3, e2, e1]
      refine ⟨p1 ++ p2 ++ p3, h123.2, ?_⟩
      cases hc : iConvUTF8toUTF16LE str with
      | none =>
          refine Or.inr ⟨Or.inr rfl, ?_⟩
          unfold TextUTF8
          rw [hf]
          simp only [hc]
          exact h123.1
      | some utf16 =>
          refine Or.inl ⟨s1, utf16,
            { bounds := ⟨0, 0, 0, 0⟩, graphicsMode := EMF.eGM_COMPATIBLE,
              exScale := 0x3F800000, eyScale := 0x3F800000,
              emrtext := { reference := ⟨lround x, lround ((s.m_Height : ℚ) - y)⟩,
                           nChars := utf16.length / 2, offString := 0, options := 0,
                           rect := ⟨0, 0, 0, 0⟩, offDx := 0, str := utf16 } },
            rfl, rfl, rfl, rfl, rfl, ?_⟩
          unfold TextUTF8
          rw [hf]
          simp only [hc, x_WriteRcd_eq, h123.1, hheight, x_TransformY, List.getD_cons_zero]

/-- C12 (amended): each call to `Polyline`, `Polygon`, `Rect` or `Circle`, and
each call to `Line` with two distinct end points, writes exactly one drawing
record, which is the last record of the call and follows records that are no
drawing records (creation, selection, state). A `TextUTF8` call does so when
the font family and the string both convert to UTF-16; when one of them does
not, the call writes no drawing record. -/
theorem drawing_record_last (gc : GEcontext) (s : CDevEMF) :
    (∀ (n : Nat) (x y : List ℚ), ∃ (pre : List Rcd) (p : EMF.SPoly),
        (∀ q ∈ pre, q.isPrimitive = false) ∧ p.iType = EMF.eEMR_POLYLINE ∧ p.count = n
          ∧ (Polyline n x y gc s).written = s.written ++ pre ++ [Rcd.SPoly p])
    ∧ (∀ (n : Nat) (x y : List ℚ), ∃ (pre : List Rcd) (p : EMF.SPoly),
        (∀ q ∈ pre, q.isPrimitive = false) ∧ p.iType = EMF.eEMR_POLYGON ∧ p.count = n
          ∧ (Polygon n x y gc s).written = s.written ++ pre ++ [Rcd.SPoly p])
    ∧ (∀ x0 y0 x1 y1 : ℚ, ∃ (pre : List Rcd) (box : EMF.SRect),
        (∀ q ∈ pre, q.isPrimitive = false)
          ∧ (Rect x0 y0 x1 y1 gc s).written = s.written ++ pre ++ [Rcd.S_RECTANGLE box])
    ∧ (∀ x y r : ℚ, ∃ (pre : List Rcd) (box : EMF.SRect),
        (∀ q ∈ pre, q.isPrimitive = false)
          ∧ (Circle x y r gc s).written = s.written ++ pre ++ [Rcd.S_ELLIPSE box])
    ∧ (∀ x1 y1 x2 y2 : ℚ, (x1 ≠ x2 ∨ y1 ≠ y2) → ∃ (pre : List Rcd) (p : EMF.SPoly),
        (∀ q ∈ pre, q.isPrimitive = false) ∧ p.iType = EMF.eEMR_POLYLINE ∧ p.count = 2
          ∧ (Line x1 y1 x2 y2 gc s).written = s.written ++ pre ++ [Rcd.SPoly p])
    ∧ (∀ (x y : ℚ) (str : List Nat) (rot hadj : ℚ), ∃ pre : List Rcd,
        (∀ q ∈ pre, q.isPrimitive = false) ∧
        ((∃ (t : CDevEMF) (utf16 : List Nat) (emr : EMF.S_EXTTEXTOUTW),
            x_SetFont gc.fontface (x_EffPointsize gc) (truncToInt rot) gc.fontfamily s = some t
              ∧ iConvUTF8toUTF16LE str = some utf16 ∧ emr.emrtext.str = utf16
              ∧ (TextUTF8 x y str rot hadj gc s).written
                  = s.written ++ pre ++ [Rcd.S_EXTTEXTOUTW emr])
          ∨ ((x_SetFont gc.fontface (x_EffPointsize gc) (truncToInt rot) gc.fontfamily s = none
                ∨ iConvUTF8toUTF16LE str = none)
              ∧ (TextUTF8 x y str rot hadj gc s).written = s.written ++ pre))) := by
  refine ⟨?_, ?_, ?_, ?_, ?_, ?_⟩
  · intro n x y
    obtain ⟨pre, hp⟩ := x_SetLinetype_setup gc s
    exact ⟨pre, _, hp.2, rfl, rfl, by rw [Polyline_written, hp.1]⟩
  · intro n x y
    obtain ⟨pre, hp⟩ := pen_brush_setup gc s
    exact ⟨pre, _, hp.2, rfl, rfl, by rw [Polygon_written, hp.1]⟩
  · intro x0 y0 x1 y1
    obtain ⟨pre, hp⟩ := pen_brush_setup gc s
    exact ⟨pre, _, hp.2, by rw [Rect_written, hp.1]⟩
  · intro x y r
    obtain ⟨pre, hp⟩ := pen_brush_setup gc s
    exact ⟨pre, _, hp.2, by rw [Circle_written, hp.1]⟩
  · intro x1 y1 x2 y2 hne
    obtain ⟨pre, hp⟩ := x_SetLinetype_setup gc s
    exact ⟨pre, _, hp.2, rfl, rfl, by rw [Line_written _ _ _ _ _ _ hne, hp.1]⟩
  · intro x y str rot hadj
    obtain ⟨pre, hpre, hcase⟩ := TextUTF8_written x y str rot hadj gc s
    refine ⟨pre, hpre, ?_⟩
    rcases hcase with ⟨t, utf16, emr, h1, h2, h3, _, _, h4⟩ | h
    · exact Or.inl ⟨t, utf16, emr, h1, h2, h3, h4⟩
    · exact Or.inr h

/-- C12, counterexample: a `TextUTF8` call on a new document with the string of
the single byte 0xFF, which is not UTF-8: the call writes a font creation, a
selection, a set-text-align and a set-text-color record, and no drawing
record. -/
theorem TextUTF8_no_record :
    (newRecords (session false [65, 114, 105, 97, 108] 10160 7620 [])
        (TextUTF8 0 0 [255] 0 0 gcBlack
          (session false [65, 114, 105, 97, 108] 10160 7620 []))).map Rcd.iType
      = [82, 37, 22, 24]
    ∧ (newRecords (session false [65, 114, 105, 97, 108] 10160 7620 [])
        (TextUTF8 0 0 [255] 0 0 gcBlack
          (session false [65, 114, 105, 97, 108] 10160 7620 []))).map Rcd.isPrimitive
      = [false, false, false, false] := by
  decide!

/-! ## C14: a new page -/

theorem lround_intCast (z : Int) : lround (z : ℚ) = z := by
  unfold lround
  split
  · rw [Int.floor_eq_iff]
    constructor <;> norm_num
  · rw [Int.ceil_eq_iff]
    constructor <;> norm_num

theorem x_SetLinetype_quiet (gc : GEcontext) (s : CDevEMF)
    (h1 : penWarnsLty gc s.m_UseUserLty = false)
    (h2 : ¬ (0 < R_ALPHA gc.col ∧ R_ALPHA gc.col < 255)) :
    (x_SetLinetype gc s).warnings = s.warnings := by
  unfold x_SetLinetype x_SetLinetype_intern
  simp only [h1, Bool.false_eq_true, if_false, h2]
  cases hfind : s.m_Pens.find? (penEquiv (SPen gc s.m_UseUserLty)) with
  | none =>
      simp only [x_WriteRcd_eq, x_CreateRcdSelectObj]
      split
      · split <;> rfl
      · rfl
  | some i =>
      simp only [x_WriteRcd_eq, x_CreateRcdSelectObj]
      split
      · split <;> rfl
      · rfl

theorem x_SetFill_quiet (col : Int) (s : CDevEMF)
    (h2 : ¬ (0 < R_ALPHA col ∧ R_ALPHA col < 255)) :
    (x_SetFill col s).warnings = s.warnings := by
  unfold x_SetFill x_SetFill_intern
  simp only [h2, if_false]
  cases hfind : s.m_Brushes.find? (brushEquiv (SBrush col)) with
  | none =>
      simp only [x_WriteRcd_eq, x_CreateRcdSelectObj]
      split <;> rfl
  | some i =>
      simp only [x_WriteRcd_eq, x_CreateRcdSelectObj]
      split <;> rfl

theorem Rect_warnings (x0 y0 x1 y1 : ℚ) (gc : GEcontext) (s : CDevEMF) :
    (Rect x0 y0 x1 y1 gc s).warnings = (x_SetFill gc.fill (x_SetLinetype gc s)).warnings := by
  unfold Rect
  simp only [x_WriteRcd_eq]

theorem x_SetHAdj_page (hadj : ℚ) (s : CDevEMF) :
    (x_SetHAdj hadj s).m_PageNum = s.m_PageNum := by
  unfold x_SetHAdj
  split <;> simp [x_WriteRcd_eq]

theorem x_SetTextColor_page (col : Int) (s : CDevEMF) :
    (x_SetTextColor col s).m_PageNum = s.m_PageNum := by
  unfold x_SetTextColor
  split <;> simp [x_WriteRcd_eq]

theorem pen_brush_page (gc : GEcontext) (s : CDevEMF) :
    (x_SetFill gc.fill (x_SetLinetype gc s)).m_PageNum = s.m_PageNum := by
  obtain ⟨_, _, _, _, _, _, h1, _⟩ := x_SetLinetype_facts gc s
  obtain ⟨_, _, _, _, _, _, h2, _⟩ := x_SetFill_facts gc.fill (x_SetLinetype gc s)
  rw [h2, h1]

theorem Rect_page (x0 y0 x1 y1 : ℚ) (gc : GEcontext) (s : CDevEMF) :
    (Rect x0 y0 x1 y1 gc s).m_PageNum = s.m_PageNum := by
  have h := pen_brush_page gc s
  unfold Rect
  simp only [x_WriteRcd_eq]
  exact h

theorem x_LoadFont_page (face : Int) (size : ℚ) (rot : Int) (family : List Nat)
    (s s1 : CDevEMF) (font : EMF.SFont)
    (h : x_LoadFont face size rot family s = some (s1, font)) :
    s1.m_PageNum = s.m_PageNum :=
  (x_LoadFont_facts face size rot family s s1 font h).1.page

theorem NewPage_pageNum (gc : GEcontext) (s : CDevEMF) :
    (NewPage gc s).1.m_PageNum = s.m_PageNum + 1 := by
  unfold NewPage
  simp only
  split
  · rw [Rect_page]
    split <;> rfl
  · split <;> rfl

theorem Op_apply_page (op : Op) (s : CDevEMF) :
    (op.apply s).m_PageNum = s.m_PageNum + (if op.isNewPage then 1 else 0) := by
  cases op with
  | NewPage gc => exact NewPage_pageNum gc s
  | Line x1 y1 x2 y2 gc =>
      obtain ⟨_, _, _, _, _, _, h1, _⟩ := x_SetLinetype_facts gc s
      obtain ⟨_, _, _, _, _, _, h2, _⟩ := x_SetLinetype_facts gc (x_SetLinetype gc s)
      show (Line x1 y1 x2 y2 gc s).m_PageNum = _
      unfold Line Polyline
      split
      · simp only [x_WriteRcd_eq, Op.isNewPage]
        rw [h2, h1]
        rfl
      · rfl
  | Polyline n x y gc =>
      obtain ⟨_, _, _, _, _, _, h1, _⟩ := x_SetLinetype_facts gc s
      show (Polyline n x y gc s).m_PageNum = _
      unfold Polyline
      simp only [x_WriteRcd_eq, Op.isNewPage]
      rw [h1]
      rfl
  | Polygon n x y gc =>
      have h := pen_brush_page gc s
      show (Polygon n x y gc s).m_PageNum = _
      unfold Polygon
      simp only [x_WriteRcd_eq, Op.isNewPage]
      rw [h]
      rfl
  | Rect x0 y0 x1 y1 gc => exact Rect_page x0 y0 x1 y1 gc s
  | Circle x y r gc =>
      have h := pen_brush_page gc s
      show (Circle x y r gc s).m_PageNum = _
      unfold Circle
      simp only [x_WriteRcd_eq, Op.isNewPage]
      rw [h]
      rfl
  | TextUTF8 x y str rot hadj gc =>
      show (TextUTF8 x y str rot hadj gc s).m_PageNum = _
      unfold TextUTF8
      cases hf : x_SetFont gc.fontface (x_EffPointsize gc) (truncToInt rot) gc.fontfamily s with
      | none => rfl
      | some s1 =>
          have e1 : s1.m_PageNum = s.m_PageNum := by
            cases hl : x_LoadFont gc.fontface (x_EffPointsize gc) (truncToInt rot)
                gc.fontfamily s with
            | none =>
                rw [x_SetFont_none _ _ _ _ _ hl] at hf
                exact absurd hf (by simp)
            | some p =>
                obtain ⟨s0, font⟩ := p
                obtain ⟨t, ht, _, _, _, _, _, _, hpg, _⟩ :=
                  x_SetFont_facts _ _ _ _ s s0 font hl
                rw [hf] at ht
                cases ht
                exact hpg
          simp only
          split
          · rw [x_SetTextColor_page, x_SetHAdj_page, e1]
            rfl
          · simp only [x_WriteRcd_eq]
            rw [x_SetTextColor_page, x_SetHAdj_page, e1]
            rfl
  | MetricInfo hasChar gc =>
      show (MetricInfo hasChar gc s).m_PageNum = _
      unfold MetricInfo
      split
      · rfl
      · rename_i s1 font h1
        have e1 := x_LoadFont_page _ _ _ _ s s1 font h1
        split
        · split
          · rw [e1]; rfl
          · rename_i s2 font2 h2
            rw [x_LoadFont_page _ _ _ _ s1 s2 font2 h2, e1]
            rfl
        · rw [e1]; rfl
  | StrWidth gc =>
      show (StrWidth gc s).m_PageNum = _
      unfold StrWidth
      split
      · rfl
      · rename_i s1 font h1
        rw [x_LoadFont_page _ _ _ _ s s1 font h1]
        rfl

theorem runOps_page (ops : List Op) (s : CDevEMF) :
    (runOps ops s).m_PageNum = s.m_PageNum + ops.countP Op.isNewPage := by
  induction ops generalizing s with
  | nil => simp [runOps]
  | cons op ops ih =>
      rw [runOps, ih, Op_apply_page, List.countP_cons]
      omega

theorem session_page (u : Bool) (f : List Nat) (w h : Int) (ops : List Op) :
    (session u f w h ops).m_PageNum = ops.countP Op.isNewPage := by
  obtain ⟨_, _, _, _, _, _, _, _, _, _, _, _, hp, _⟩ := Open_fresh u f w h
  unfold session
  rw [runOps_page, hp, Nat.zero_add]

theorem tranwhite_facts :
    R_TRANSPARENT R_TRANWHITE = true ∧ R_ALPHA R_TRANWHITE = 0 := by
  decide

theorem NewPage_fill_solid (gc : GEcontext) (s : CDevEMF) (h : R_OPAQUE gc.fill = true) :
    (NewPage gc s).1
      = Rect 0 0 s.m_Width s.m_Height { gc with col := R_TRANWHITE }
          (if 1 < s.m_PageNum + 1 then
            Rf_warning "Multiple pages not available for EMF device"
              { s with m_PageNum := s.m_PageNum + 1 }
           else { s with m_PageNum := s.m_PageNum + 1 }) := by
  unfold NewPage
  simp only [h, if_true]
  split <;> rfl

theorem NewPage_fill_clear (gc : GEcontext) (s : CDevEMF) (h : R_OPAQUE gc.fill = false) :
    (NewPage gc s).1
      = (if 1 < s.m_PageNum + 1 then
            Rf_warning "Multiple pages not available for EMF device"
              { s with m_PageNum := s.m_PageNum + 1 }
           else { s with m_PageNum := s.m_PageNum + 1 }) := by
  unfold NewPage
  simp only [h, Bool.false_eq_true, if_false]

/-- C14: for every state of the device and every `NewPage` call: the page
number goes up by one; the call raises the multi-page warning, and no other
warning, exactly when a page was begun before (in a session: when an earlier
call was `NewPage`); with an opaque background fill the call writes, as its
last record and after records that are no drawing records, the rectangle with
the corners `(0, H)` and `(W, 0)`, and the active pen is then a null pen and the
active brush the solid brush of the fill colour; with a fill that is not opaque
it writes no record. -/
theorem NewPage_page (gc : GEcontext) (s : CDevEMF) :
    (NewPage gc s).1.m_PageNum = s.m_PageNum + 1
      ∧ (NewPage gc s).1.warnings
          = s.warnings ++ (if s.m_PageNum ≠ 0 then
              ["Multiple pages not available for EMF device"] else [])
      ∧ (∀ (u : Bool) (f : List Nat) (w h : Int) (ops : List Op),
          (session u f w h ops).m_PageNum = ops.countP Op.isNewPage)
      ∧ (R_OPAQUE gc.fill = true →
          ∃ pre : List Rcd, (∀ q ∈ pre, q.isPrimitive = false)
            ∧ (NewPage gc s).1.written
                = s.written ++ pre ++ [Rcd.S_RECTANGLE ⟨0, s.m_Height, s.m_Width, 0⟩]
            ∧ (∃ p ∈ (NewPage gc s).1.m_Pens, p.ihPen = (NewPage gc s).1.m_CurrPen
                ∧ p.elp.penStyle = EMF.ePS_GEOMETRIC ||| EMF.ePS_NULL)
            ∧ (∃ b ∈ (NewPage gc s).1.m_Brushes, b.ihBrush = (NewPage gc s).1.m_CurrBrush
                ∧ b.lb.brushStyle = EMF.eBS_SOLID
                ∧ b.lb.color = ⟨R_RED gc.fill, R_GREEN gc.fill, R_BLUE gc.fill⟩))
      ∧ (R_OPAQUE gc.fill = false → (NewPage gc s).1.written = s.written) := by
  have hwarn : ∀ t : CDevEMF, t.warnings = s.warnings →
      (if 1 < s.m_PageNum + 1 then
          Rf_warning "Multiple pages not available for EMF device" t else t).warnings
        = s.warnings ++ (if s.m_PageNum ≠ 0 then
              ["Multiple pages not available for EMF device"] else []) := by
    intro t ht
    by_cases hp : s.m_PageNum = 0
    · simp [hp, ht]
    · have : 1 < s.m_PageNum + 1 := by omega
      simp [hp, this, Rf_warning, ht]
  refine ⟨NewPage_pageNum gc s, ?_, session_page, ?_, ?_⟩
  · cases ho : R_OPAQUE gc.fill with
    | false =>
        rw [NewPage_fill_clear gc s ho]
        exact hwarn _ rfl
    | true =>
        rw [NewPage_fill_solid gc s ho, Rect_warnings, x_SetFill_quiet, x_SetLinetype_quiet]
        · exact hwarn _ rfl
        · simp [penWarnsLty, tranwhite_facts.1]
        · simp [tranwhite_facts.2]
        · have ha : R_ALPHA gc.fill = 255 := by
            simpa [R_OPAQUE] using ho
          simp [ha]
  · intro ho
    rw [NewPage_fill_solid gc s ho]
    generalize hs2 : (if 1 < s.m_PageNum + 1 then
            Rf_warning "Multiple pages not available for EMF device"
              { s with m_PageNum := s.m_PageNum + 1 }
           else { s with m_PageNum := s.m_PageNum + 1 }) = s2
    have hw2 : s2.written = s.written := by rw [← hs2]; split <;> rfl
    have hh2 : s2.m_Height = s.m_Height := by rw [← hs2]; split <;> rfl
    obtain ⟨pre, hp⟩ := pen_brush_setup { gc with col := R_TRANWHITE } s2
    obtain ⟨⟨p, hpf, hpc⟩, ⟨b, hbf, hbc⟩⟩ :=
      Rect_ready 0 0 s.m_Width s.m_Height { gc with col := R_TRANWHITE } s2
    refine ⟨pre, hp.2, ?_, ⟨p, List.mem_of_find?_eq_some hpf, hpc, ?_⟩,
      ⟨b, List.mem_of_find?_eq_some hbf, hbc, ?_⟩⟩
    · rw [Rect_written, hp.1, hw2, hh2]
      simp only [sub_zero, sub_self]
      rw [lround_intCast, lround_intCast]
      have h0 : lround 0 = 0 := by
        have := lround_intCast 0
        simpa using this
      rw [h0]
    · have he := List.find?_some hpf
      simp only [penEquiv, Bool.and_eq_true, beq_iff_eq] at he
      rw [← he.1]
      simp [SPen, tranwhite_facts.1]
    · have he := List.find?_some hbf
      simp only [brushEquiv, beq_iff_eq] at he
      rw [← he]
      have ha : R_ALPHA gc.fill = 255 := by
        simpa [R_OPAQUE] using ho
      simp [SBrush, R_TRANSPARENT, ha]
  · intro ho
    rw [NewPage_fill_clear gc s ho]
    split <;> rfl

/-! ## The order of selections in the stream -/

theorem StreamOk.ofNil : StreamOk [] := by
  intro a r b h
  simp at h

theorem StreamOk.snoc {w : List Rcd} {r : Rcd} (hw : StreamOk w) (hr : RecordOk w r) :
    StreamOk (w ++ [r]) := by
  intro a r1 b h
  rcases List.eq_nil_or_concat b with rfl | ⟨b1, x, rfl⟩
  · have h2 := List.append_inj' h rfl
    simp only [List.cons.injEq, and_true] at h2
    obtain ⟨ha, hr1⟩ := h2
    subst ha
    subst hr1
    exact hr
  · have h1 : w ++ [r] = (a ++ r1 :: b1) ++ [x] := by
      rw [h]; simp
    have h2 := List.append_inj' h1 rfl
    exact hw a r1 b1 h2.1

theorem RecordOk.plain (w : List Rcd) (r : Rcd) (hs : r.selectedHandle = none)
    (hm : r.miterLimit = none) : RecordOk w r := by
  cases r <;> simp_all [Rcd.selectedHandle, Rcd.miterLimit, RecordOk]

theorem pen_handle_created (w : List Rcd) (p : EMF.S_EXTCREATEPEN)
    (h : p ∈ w.filterMap Rcd.asPen) : p.ihPen ∈ w.filterMap Rcd.creationHandle := by
  rw [List.mem_filterMap] at h ⊢
  obtain ⟨r, hr, hp⟩ := h
  refine ⟨r, hr, ?_⟩
  cases r <;> simp_all [Rcd.asPen, Rcd.creationHandle]

theorem brush_handle_created (w : List Rcd) (b : EMF.SBrush)
    (h : b ∈ w.filterMap Rcd.asBrush) : b.ihBrush ∈ w.filterMap Rcd.creationHandle := by
  rw [List.mem_filterMap] at h ⊢
  obtain ⟨r, hr, hp⟩ := h
  refine ⟨r, hr, ?_⟩
  cases r <;> simp_all [Rcd.asBrush, Rcd.creationHandle]

theorem font_handle_created (w : List Rcd) (f : EMF.SFont)
    (h : f ∈ w.filterMap Rcd.asFont) : f.ihFont ∈ w.filterMap Rcd.creationHandle := by
  rw [List.mem_filterMap] at h ⊢
  obtain ⟨r, hr, hp⟩ := h
  refine ⟨r, hr, ?_⟩
  cases r <;> simp_all [Rcd.asFont, Rcd.creationHandle]

theorem Act.keepsActive {s t : CDevEMF} (h : Act s t) (hs : Inv s) (ha : Active s) :
    Active t := by
  cases h with
  | write r hr =>
      obtain ⟨_, _, _, _, h5⟩ := isPlain_facts r hr
      rw [x_WriteRcd_eq]
      refine ⟨ha.stream.snoc (RecordOk.plain _ r h5 ?_), ha.pen, ha.brush, ha.font⟩
      cases r <;> simp_all [Rcd.isPlain, Rcd.miterLimit]
  | newPen pen hfind =>
      rw [x_WriteRcd_eq]
      refine ⟨ha.stream.snoc (RecordOk.plain _ _ rfl rfl), ?_, ha.brush, ha.font⟩
      rcases ha.pen with h0 | ⟨p, hp, he⟩
      · exact Or.inl h0
      · exact Or.inr ⟨p, List.mem_append_left _ hp, he⟩
  | newBrush brush hfind =>
      rw [x_WriteRcd_eq]
      refine ⟨ha.stream.snoc (RecordOk.plain _ _ rfl rfl), ha.pen, ?_, ha.font⟩
      rcases ha.brush with h0 | ⟨p, hp, he⟩
      · exact Or.inl h0
      · exact Or.inr ⟨p, List.mem_append_left _ hp, he⟩
  | newFont font hfind =>
      rw [x_WriteRcd_eq]
      refine ⟨ha.stream.snoc (RecordOk.plain _ _ rfl rfl), ha.pen, ha.brush, ?_⟩
      rcases ha.font with h0 | ⟨p, hp, he⟩
      · exact Or.inl h0
      · exact Or.inr ⟨p, List.mem_append_left _ hp, he⟩
  | selectPen p miter hp =>
      have hsel : RecordOk s.written (Rcd.S_SELECTOBJECT p.ihPen) :=
        pen_handle_created _ p (by rw [hs.pens]; exact hp)
      cases miter with
      | none =>
          simp only [selectPenAct, x_CreateRcdSelectObj, x_WriteRcd_eq]
          exact ⟨ha.stream.snoc hsel, Or.inr ⟨p, hp, rfl⟩, ha.brush, ha.font⟩
      | some m =>
          simp only [selectPenAct, x_CreateRcdSelectObj, x_WriteRcd_eq]
          refine ⟨(ha.stream.snoc hsel).snoc ?_, Or.inr ⟨p, hp, rfl⟩, ha.brush, ha.font⟩
          exact ⟨s.written, p.ihPen, rfl,
            List.mem_map.mpr ⟨p, by rw [hs.pens]; exact hp, rfl⟩⟩
  | selectBrush b hb =>
      simp only [x_CreateRcdSelectObj, x_WriteRcd_eq]
      refine ⟨ha.stream.snoc ?_, ha.pen, Or.inr ⟨b, hb, rfl⟩, ha.font⟩
      exact brush_handle_created _ b (by rw [hs.brushes]; exact hb)
  | selectFont f hf =>
      simp only [x_CreateRcdSelectObj, x_WriteRcd_eq]
      refine ⟨ha.stream.snoc ?_, ha.pen, ha.brush, Or.inr ⟨f, hf, rfl⟩⟩
      exact font_handle_created _ f (by rw [hs.fonts]; exact hf)
  | setHAdj hadj =>
      unfold x_SetHAdj
      split
      · simp only [x_WriteRcd_eq]
        exact ⟨ha.stream.snoc (RecordOk.plain _ _ rfl rfl), ha.pen, ha.brush, ha.font⟩
      · exact ha
  | setTextColor col =>
      unfold x_SetTextColor
      split
      · simp only [x_WriteRcd_eq]
        exact ⟨ha.stream.snoc (RecordOk.plain _ _ rfl rfl), ha.pen, ha.brush, ha.font⟩
      · exact ha
  | warn msg => exact ⟨ha.stream, ha.pen, ha.brush, ha.font⟩
  | page n => exact ⟨ha.stream, ha.pen, ha.brush, ha.font⟩

theorem Acts.keepActive {s t : CDevEMF} (h : Acts s t) (hs : Inv s) (ha : Active s) :
    Active t := by
  induction h with
  | refl => exact ha
  | tail u v huv hact ih => exact hact.keepsActive (huv.keepInv hs) ih

theorem session_active (userLty : Bool) (family : List Nat) (width height : Int)
    (ops : List Op) : Active (session userLty family width height ops) :=
  (session_acts userLty family width height ops).keepActive
    (Inv_new userLty family width height)
    ⟨StreamOk.ofNil, Or.inl rfl, Or.inl rfl, Or.inl rfl⟩

/-- C22: in every state of a session (a successful `Open`, then any calls)
every select-object record of the stream refers to a handle `h` with
`1 <= h <= m_LastHandle` that a creation record earlier in the stream defines,
and each of `m_CurrPen`, `m_CurrBrush`, `m_CurrFont` is 0 or the handle of a
resource in the cache of its kind. -/
theorem selections_defined (userLty : Bool) (family : List Nat) (width height : Int)
    (ops : List Op) :
    (∀ (a : List Rcd) (h : Nat) (b : List Rcd),
        (session userLty family width height ops).written = a ++ Rcd.S_SELECTOBJECT h :: b →
          1 ≤ h ∧ h ≤ (session userLty family width height ops).m_LastHandle
            ∧ h ∈ a.filterMap Rcd.creationHandle)
      ∧ ((session userLty family width height ops).m_CurrPen = 0
          ∨ ∃ p ∈ (session userLty family width height ops).m_Pens,
              p.ihPen = (session userLty family width height ops).m_CurrPen)
      ∧ ((session userLty family width height ops).m_CurrBrush = 0
          ∨ ∃ b ∈ (session userLty family width height ops).m_Brushes,
              b.ihBrush = (session userLty family width height ops).m_CurrBrush)
      ∧ ((session userLty family width height ops).m_CurrFont = 0
          ∨ ∃ f ∈ (session userLty family width height ops).m_Fonts,
              f.ihFont = (session userLty family width height ops).m_CurrFont) := by
  have ha := session_active userLty family width height ops
  have hi := session_inv userLty family width height ops
  refine ⟨?_, ha.pen, ha.brush, ha.font⟩
  intro a h b hw
  have hmem : h ∈ a.filterMap Rcd.creationHandle := ha.stream a _ b hw
  have hall : h ∈ (session userLty family width height ops).written.filterMap
      Rcd.creationHandle := by
    rw [hw, List.filterMap_append]
    exact List.mem_append_left _ hmem
  rw [hi.created, List.mem_range'_1] at hall
  exact ⟨hall.1, by omega, hmem⟩

/-! ## C15: the miter limit -/

theorem utf8Go_cont_last (c : Nat) (bs : List Nat) (cp lo : Nat) (cps : List Nat)
    (h : utf8Go (c :: bs) 1 cp lo = some cps) :
    0x80 ≤ c ∧ c < 0xC0 ∧ lo ≤ cp * 64 + (c - 0x80) ∧ IsScalar (cp * 64 + (c - 0x80))
      ∧ ∃ cps1, utf8Go bs 0 0 0 = some cps1 ∧ cps = (cp * 64 + (c - 0x80)) :: cps1 := by
  have e : utf8Go (c :: bs) (0 + 1) cp lo = some cps := h
  unfold utf8Go at e
  split at e
  · rename_i hc
    simp only [if_true] at e
    split at e
    · exact absurd e (by simp)
    · rename_i hbad
      cases hr : utf8Go bs 0 0 0 with
      | none => rw [hr] at e; exact absurd e (by simp)
      | some cps1 =>
          rw [hr] at e
          simp only [Option.map_some', Option.some.injEq] at e
          refine ⟨hc.1, hc.2, by omega, ?_, cps1, rfl, e.symm⟩
          unfold IsScalar
          omega
  · exact absurd e (by simp)

theorem utf8Go_cont_more (c : Nat) (bs : List Nat) (need cp lo : Nat) (cps : List Nat)
    (h : utf8Go (c :: bs) (need + 2) cp lo = some cps) :
    0x80 ≤ c ∧ c < 0xC0 ∧ utf8Go bs (need + 1) (cp * 64 + (c - 0x80)) lo = some cps := by
  have e : utf8Go (c :: bs) ((need + 1) + 1) cp lo = some cps := h
  unfold utf8Go at e
  split at e
  · rename_i hc
    simp only [Nat.add_one_ne_zero, if_false] at e
    exact ⟨hc.1, hc.2, e⟩
  · exact absurd e (by simp)

theorem utf8Go_nil_need (need cp lo : Nat) : utf8Go [] (need + 1) cp lo = none := by
  unfold utf8Go
  simp

/-- The decoder accepts only the encodings of scalar values. -/
theorem utf8Go_sound : ∀ (n : Nat) (s : List Nat), s.length ≤ n → ∀ cps : List Nat,
    utf8Go s 0 0 0 = some cps → s = utf8Encode cps ∧ ∀ cp ∈ cps, IsScalar cp := by
  intro n
  induction n with
  | zero =>
      intro s hs cps h
      have : s = [] := List.length_eq_zero.mp (by omega)
      subst this
      simp [utf8Go] at h
      subst h
      exact ⟨rfl, by simp⟩
  | succ n ih =>
      intro s hs cps h
      cases s with
      | nil =>
          simp [utf8Go] at h
          subst h
          exact ⟨rfl, by simp⟩
      | cons b bs =>
          simp only [List.length_cons] at hs
          unfold utf8Go at h
          split at h
          · -- one byte
            rename_i hb
            cases hr : utf8Go bs 0 0 0 with
            | none => rw [hr] at h; exact absurd h (by simp)
            | some cps1 =>
                rw [hr] at h
                simp only [Option.map_some', Option.some.injEq] at h
                subst h
                obtain ⟨e1, e2⟩ := ih bs (by omega) cps1 hr
                refine ⟨by simp [utf8Encode, utf8Unit, hb, ← e1], ?_⟩
                intro cp hcp
                rcases List.mem_cons.mp hcp with rfl | h1
                · exact Or.inl (by omega)
                · exact e2 cp h1
          · split at h
            · exact absurd h (by simp)
            · split at h
              · -- two bytes
                rename_i h80 hC2 hE0
                cases bs with
                | nil => rw [utf8Go_nil_need] at h; exact absurd h (by simp)
                | cons c bs1 =>
                    obtain ⟨hc1, hc2, hlo, hsc, cps1, hr, hcps⟩ :=
                      utf8Go_cont_last c bs1 _ _ cps h
                    simp only [List.length_cons] at hs
                    obtain ⟨e1, e2⟩ := ih bs1 (by omega) cps1 hr
                    subst hcps
                    refine ⟨?_, ?_⟩
                    · have k1 : ¬ ((b - 0xC0) * 64 + (c - 0x80) < 0x80) := by omega
                      have k2 : (b - 0xC0) * 64 + (c - 0x80) < 0x800 := by omega
                      have k3 : 0xC0 + ((b - 0xC0) * 64 + (c - 0x80)) / 64 = b := by omega
                      have k4 : 0x80 + ((b - 0xC0) * 64 + (c - 0x80)) % 64 = c := by omega
                      simp only [utf8Encode, utf8Unit, if_neg k1, if_pos k2, k3, k4, ← e1]
                      rfl
                    · intro cp hcp
                      rcases List.mem_cons.mp hcp with h0 | h1
                      · rw [h0]; exact hsc
                      · exact e2 cp h1
              · split at h
                · -- three bytes
                  rename_i h80 hC2 hE0 hF0
                  cases bs with
                  | nil => rw [utf8Go_nil_need] at h; exact absurd h (by simp)
                  | cons c bs1 =>
                      obtain ⟨hc1, hc2, h2⟩ := utf8Go_cont_more c bs1 0 _ _ cps h
                      cases bs1 with
                      | nil => rw [utf8Go_nil_need] at h2; exact absurd h2 (by simp)
                      | cons d bs2 =>
                          obtain ⟨hd1, hd2, hlo, hsc, cps1, hr, hcps⟩ :=
                            utf8Go_cont_last d bs2 _ _ cps h2
                          simp only [List.length_cons] at hs
                          obtain ⟨e1, e2⟩ := ih bs2 (by omega) cps1 hr
                          subst hcps
                          refine ⟨?_, ?_⟩
                          · have k1 : ¬ (((b - 0xE0) * 64 + (c - 0x80)) * 64 + (d - 0x80)
                                < 0x80) := by omega
                            have k2 : ¬ (((b - 0xE0) * 64 + (c - 0x80)) * 64 + (d - 0x80)
                                < 0x800) := by omega
                            have k3 : ((b - 0xE0) * 64 + (c - 0x80)) * 64 + (d - 0x80)
                                < 0x10000 := by omega
                            have k4 : 0xE0 + (((b - 0xE0) * 64 + (c - 0x80)) * 64 + (d - 0x80))
                                / 4096 = b := by omega
                            have k5 : 0x80 + (((b - 0xE0) * 64 + (c - 0x80)) * 64 + (d - 0x80))
                                / 64 % 64 = c := by omega
                            have k6 : 0x80 + (((b - 0xE0) * 64 + (c - 0x80)) * 64 + (d - 0x80))
                                % 64 = d := by omega
                            simp only [utf8Encode, utf8Unit, if_neg k1, if_neg k2, if_pos k3, k4,
                              k5, k6, ← e1]
                            rfl
                          · intro cp hcp
                            rcases List.mem_cons.mp hcp with h0 | h1
                            · rw [h0]; exact hsc
                            · exact e2 cp h1
                · split at h
                  · -- four bytes
                    rename_i h80 hC2 hE0 hF0 hF5
                    cases bs with
                    | nil => rw [utf8Go_nil_need] at h; exact absurd h (by simp)
                    | cons c bs1 =>
                        obtain ⟨hc1, hc2, h2⟩ := utf8Go_cont_more c bs1 1 _ _ cps h
                        cases bs1 with
                        | nil => rw [utf8Go_nil_need] at h2; exact absurd h2 (by simp)
                        | cons d bs2 =>
                            obtain ⟨hd1, hd2, h3⟩ := utf8Go_cont_more d bs2 0 _ _ cps h2
                            cases bs2 with
                            | nil => rw [utf8Go_nil_need] at h3; exact absurd h3 (by simp)
                            | cons e bs3 =>
                                obtain ⟨he1, he2, hlo, hsc, cps1, hr, hcps⟩ :=
                                  utf8Go_cont_last e bs3 _ _ cps h3
                                simp only [List.length_cons] at hs
                                obtain ⟨e1, e2⟩ := ih bs3 (by omega) cps1 hr
                                subst hcps
                                refine ⟨?_, ?_⟩
                                · generalize hv : (((b - 0xF0) * 64 + (c - 0x80)) * 64
                                    + (d - 0x80)) * 64 + (e - 0x80) = v at hlo hsc ⊢
                                  have k1 : ¬ (v < 0x80) := by omega
                                  have k2 : ¬ (v < 0x800) := by omega
                                  have k3 : ¬ (v < 0x10000) := by omega
                                  have k4 : 0xF0 + v / 262144 = b := by omega
                                  have k5 : 0x80 + v / 4096 % 64 = c := by omega
                                  have k6 : 0x80 + v / 64 % 64 = d := by omega
                                  have k7 : 0x80 + v % 64 = e := by omega
                                  simp only [utf8Encode, utf8Unit, if_neg k1, if_neg k2,
                                    if_neg k3, k4, k5, k6, k7, ← e1]
                                  rfl
                                · intro cp hcp
                                  rcases List.mem_cons.mp hcp with h0 | h1
                                  · rw [h0]; exact hsc
                                  · exact e2 cp h1
                  · exact absurd h (by simp)

theorem utf8Go_step_last (c : Nat) (bs : List Nat) (cp lo : Nat)
    (hc : 0x80 ≤ c ∧ c < 0xC0) (hlo : lo ≤ cp * 64 + (c - 0x80))
    (hs : IsScalar (cp * 64 + (c - 0x80))) :
    utf8Go (c :: bs) 1 cp lo
      = (utf8Go bs 0 0 0).map (fun cps => (cp * 64 + (c - 0x80)) :: cps) := by
  show utf8Go (c :: bs) (0 + 1) cp lo = _
  conv_lhs => unfold utf8Go
  unfold IsScalar at hs
  rw [if_pos hc]
  simp only [if_true]
  rw [if_neg (by omega)]

theorem utf8Go_step_more (c : Nat) (bs : List Nat) (need cp lo : Nat)
    (hc : 0x80 ≤ c ∧ c < 0xC0) :
    utf8Go (c :: bs) (need + 2) cp lo = utf8Go bs (need + 1) (cp * 64 + (c - 0x80)) lo := by
  show utf8Go (c :: bs) ((need + 1) + 1) cp lo = _
  conv_lhs => unfold utf8Go
  rw [if_pos hc]
  simp only [Nat.add_one_ne_zero, if_false]

/-- The decoder reads the encoding of a scalar value back. -/
theorem utf8Go_unit (cp : Nat) (h : IsScalar cp) (rest : List Nat) :
    utf8Go (utf8Unit cp ++ rest) 0 0 0 = (utf8Go rest 0 0 0).map (fun cps => cp :: cps) := by
  unfold IsScalar at h
  unfold utf8Unit
  split
  · rename_i h1
    simp only [List.singleton_append]
    conv_lhs => unfold utf8Go
    rw [if_pos h1]
  · split
    · rename_i h1 h2
      simp only [List.cons_append, List.nil_append]
      conv_lhs => unfold utf8Go
      rw [if_neg (by omega), if_neg (by omega), if_pos (by omega),
        utf8Go_step_last _ _ _ _ (by omega) (by omega) (by unfold IsScalar; omega)]
      have e : (0xC0 + cp / 64 - 0xC0) * 64 + (0x80 + cp % 64 - 0x80) = cp := by omega
      rw [e]
    · split
      · rename_i h1 h2 h3
        simp only [List.cons_append, List.nil_append]
        conv_lhs => unfold utf8Go
        rw [if_neg (by omega), if_neg (by omega), if_neg (by omega), if_pos (by omega),
          utf8Go_step_more _ _ 0 _ _ (by omega),
          utf8Go_step_last _ _ _ _ (by omega) (by omega) (by unfold IsScalar; omega)]
        have e : ((0xE0 + cp / 4096 - 0xE0) * 64 + (0x80 + cp / 64 % 64 - 0x80)) * 64
            + (0x80 + cp % 64 - 0x80) = cp := by omega
        rw [e]
      · rename_i h1 h2 h3
        simp only [List.cons_append, List.nil_append]
        conv_lhs => unfold utf8Go
        rw [if_neg (by omega), if_neg (by omega), if_neg (by omega), if_neg (by omega),
          if_pos (by omega), utf8Go_step_more _ _ 1 _ _ (by omega),
          utf8Go_step_more _ _ 0 _ _ (by omega),
          utf8Go_step_last _ _ _ _ (by omega) (by omega) (by unfold IsScalar; omega)]
        have e : (((0xF0 + cp / 262144 - 0xF0) * 64 + (0x80 + cp / 4096 % 64 - 0x80)) * 64
            + (0x80 + cp / 64 % 64 - 0x80)) * 64 + (0x80 + cp % 64 - 0x80) = cp := by omega
        rw [e]

theorem utf8Go_complete (cps : List Nat) (h : ∀ cp ∈ cps, IsScalar cp) :
    utf8Go (utf8Encode cps) 0 0 0 = some cps := by
  induction cps with
  | nil => rfl
  | cons cp cps ih =>
      rw [utf8Encode, utf8Go_unit cp (h cp (List.mem_cons_self _ _)),
        ih (fun c hc => h c (List.mem_cons_of_mem _ hc))]
      rfl

/-- The decoder accepts exactly the valid UTF-8 byte sequences. -/
theorem utf8Go_valid (s : List Nat) : (∃ cps, utf8Go s 0 0 0 = some cps) ↔ ValidUTF8 s := by
  constructor
  · rintro ⟨cps, h⟩
    obtain ⟨e1, e2⟩ := utf8Go_sound s.length s (Nat.le_refl _) cps h
    exact ⟨cps, e2, e1⟩
  · rintro ⟨cps, h1, h2⟩
    exact ⟨cps, by rw [h2]; exact utf8Go_complete cps h1⟩

theorem utf8Go_encode_append (cps : List Nat) (h : ∀ cp ∈ cps, IsScalar cp) (rest : List Nat) :
    utf8Go (utf8Encode cps ++ rest) 0 0 0
      = (utf8Go rest 0 0 0).map (fun tl => cps ++ tl) := by
  induction cps with
  | nil => simp [utf8Encode]
  | cons cp cps ih =>
      rw [utf8Encode, List.append_assoc, utf8Go_unit cp (h cp (List.mem_cons_self _ _)),
        ih (fun c hc => h c (List.mem_cons_of_mem _ hc))]
      cases utf8Go rest 0 0 0 <;> rfl

/-- A proper, non-empty prefix of the encoding of a code point is rejected. -/
theorem utf8Go_truncated (cp : Nat) (h : IsScalar cp) (k : Nat) (h0 : 0 < k)
    (hk : k < (utf8Unit cp).length) : utf8Go ((utf8Unit cp).take k) 0 0 0 = none := by
  unfold IsScalar at h
  unfold utf8Unit at hk ⊢
  split at hk
  · simp only [List.length_singleton] at hk
    omega
  · split at hk
    · rename_i h1 h2
      simp only [List.length_cons, List.length_nil] at hk
      have hk1 : k = 1 := by omega
      subst hk1
      rw [if_neg h1, if_pos h2]
      simp only [List.take_succ_cons, List.take_zero]
      conv_lhs => unfold utf8Go
      rw [if_neg (by omega), if_neg (by omega), if_pos (by omega), utf8Go_nil_need]
    · split at hk
      · rename_i h1 h2 h3
        simp only [List.length_cons, List.length_nil] at hk
        rw [if_neg h1, if_neg h2, if_pos h3]
        have hk1 : k = 1 ∨ k = 2 := by omega
        rcases hk1 with rfl | rfl
        · simp only [List.take_succ_cons, List.take_zero]
          conv_lhs => unfold utf8Go
          rw [if_neg (by omega), if_neg (by omega), if_neg (by omega), if_pos (by omega),
            utf8Go_nil_need]
        · simp only [List.take_succ_cons, List.take_zero]
          conv_lhs => unfold utf8Go
          rw [if_neg (by omega), if_neg (by omega), if_neg (by omega), if_pos (by omega),
            utf8Go_step_more _ _ 0 _ _ (by omega), utf8Go_nil_need]
      · rename_i h1 h2 h3
        simp only [List.length_cons, List.length_nil] at hk
        rw [if_neg h1, if_neg h2, if_neg h3]
        have hk1 : k = 1 ∨ k = 2 ∨ k = 3 := by omega
        rcases hk1 with rfl | rfl | rfl
        · simp only [List.take_succ_cons, List.take_zero]
          conv_lhs => unfold utf8Go
          rw [if_neg (by omega), if_neg (by omega), if_neg (by omega), if_neg (by omega),
            if_pos (by omega), utf8Go_nil_need]
        · simp only [List.take_succ_cons, List.take_zero]
          conv_lhs => unfold utf8Go
          rw [if_neg (by omega), if_neg (by omega), if_neg (by omega), if_neg (by omega),
            if_pos (by omega), utf8Go_step_more _ _ 1 _ _ (by omega), utf8Go_nil_need]
        · simp only [List.take_succ_cons, List.take_zero]
          conv_lhs => unfold utf8Go
          rw [if_neg (by omega), if_neg (by omega), if_neg (by omega), if_neg (by omega),
            if_pos (by omega), utf8Go_step_more _ _ 1 _ _ (by omega),
            utf8Go_step_more _ _ 0 _ _ (by omega), utf8Go_nil_need]

theorem TUInt2_length (v : Nat) : (TUInt2 v).length = 2 := rfl

theorem utf16Unit_length (cp : Nat) :
    (utf16Unit cp).length = 2 * (if cp < 0x10000 then 1 else 2) := by
  unfold utf16Unit
  split <;> simp [TUInt2_length]

theorem utf16Encode_length (cps : List Nat) :
    (utf16Encode cps).length = 2 * utf16Units cps := by
  induction cps with
  | nil => rfl
  | cons cp cps ih =>
      simp only [utf16Encode, List.length_append, ih, utf16Unit_length, utf16Units,
        List.map_cons, List.sum_cons]
      omega

theorem utf16Unit_le (cp : Nat) : (utf16Unit cp).length ≤ 2 * (utf8Unit cp).length := by
  rw [utf16Unit_length]
  unfold utf8Unit
  split_ifs <;> (simp; try omega)

theorem utf16Encode_le (cps : List Nat) :
    (utf16Encode cps).length ≤ 2 * (utf8Encode cps).length := by
  induction cps with
  | nil => simp [utf16Encode, utf8Encode]
  | cons cp cps ih =>
      have := utf16Unit_le cp
      simp only [utf16Encode, utf8Encode, List.length_append]
      omega

/-- The conversion fails exactly when the decoder rejects the bytes: for bytes
it accepts the output fits the buffer of twice the length. -/
theorem iConv_eq (s : List Nat) :
    iConvUTF8toUTF16LE s = (utf8Go s 0 0 0).map utf16Encode := by
  unfold iConvUTF8toUTF16LE
  cases h : utf8Go s 0 0 0 with
  | none => rfl
  | some cps =>
      obtain ⟨e1, _⟩ := utf8Go_sound s.length s (Nat.le_refl _) cps h
      have := utf16Encode_le cps
      simp only [Option.map_some']
      rw [if_pos (by rw [← e1] at this; omega)]

theorem iConv_none_iff (s : List Nat) : iConvUTF8toUTF16LE s = none ↔ ¬ ValidUTF8 s := by
  rw [iConv_eq, ← utf8Go_valid]
  cases utf8Go s 0 0 0 <;> simp

/-! ## C18, C25: what the conversion accepts and returns -/

/-- C18: `iConvUTF8toUTF16LE` raises its error, and returns nothing, exactly
for the byte sequences that are not valid UTF-8 (not the encoding of a
sequence of Unicode scalar values), among them every sequence that ends inside
the encoding of a code point; a `TextUTF8` call with such a string writes no
drawing record, so no text record. -/
theorem iConv_invalid (s : List Nat) :
    (iConvUTF8toUTF16LE s = none ↔ ¬ ValidUTF8 s)
      ∧ (∀ (cps : List Nat) (cp k : Nat), (∀ c ∈ cps, IsScalar c) → IsScalar cp → 0 < k →
          k < (utf8Unit cp).length →
            ¬ ValidUTF8 (utf8Encode cps ++ (utf8Unit cp).take k)
              ∧ iConvUTF8toUTF16LE (utf8Encode cps ++ (utf8Unit cp).take k) = none)
      ∧ iConvUTF8toUTF16LE [0xFF] = none
      ∧ iConvUTF8toUTF16LE [0xE2, 0x82] = none
      ∧ (¬ ValidUTF8 s → ∀ (x y rot hadj : ℚ) (gc : GEcontext) (st : CDevEMF),
          ∃ pre : List Rcd, (∀ q ∈ pre, q.isPrimitive = false)
            ∧ (TextUTF8 x y s rot hadj gc st).written = st.written ++ pre) := by
  refine ⟨iConv_none_iff s, ?_, by decide, by decide, ?_⟩
  · intro cps cp k hcps hcp h0 hk
    have hnone : iConvUTF8toUTF16LE (utf8Encode cps ++ (utf8Unit cp).take k) = none := by
      rw [iConv_eq, utf8Go_encode_append cps hcps, utf8Go_truncated cp hcp k h0 hk]
      rfl
    exact ⟨(iConv_none_iff _).mp hnone, hnone⟩
  · intro hs x y rot hadj gc st
    have hnone := (iConv_none_iff s).mpr hs
    obtain ⟨pre, hpre, hcase⟩ := TextUTF8_written x y s rot hadj gc st
    refine ⟨pre, hpre, ?_⟩
    rcases hcase with ⟨_, utf16, _, _, h2, _⟩ | ⟨_, h⟩
    · rw [hnone] at h2
      exact absurd h2 (by simp)
    · exact h

/-- C25: for every valid UTF-8 string `s` of `n` bytes the conversion returns
its UTF-16LE form: an even number of bytes, at most `2n`, so the buffer of `2n`
bytes is enough and the length returned, `2n` minus the room left, is the
number of bytes written; the character count of the text record that
`TextUTF8` writes, half that length, is the number of 16-bit code units. -/
theorem iConv_length (s : List Nat) (h : ValidUTF8 s) :
    ∃ cps : List Nat,
      s = utf8Encode cps ∧ (∀ cp ∈ cps, IsScalar cp)
        ∧ iConvUTF8toUTF16LE s = some (utf16Encode cps)
        ∧ (utf16Encode cps).length % 2 = 0
        ∧ (utf16Encode cps).length ≤ 2 * s.length
        ∧ s.length * 2 - (s.length * 2 - (utf16Encode cps).length) = (utf16Encode cps).length
        ∧ (utf16Encode cps).length / 2 = utf16Units cps
        ∧ (∀ (x y rot hadj : ℚ) (gc : GEcontext) (st t : CDevEMF),
            x_SetFont gc.fontface (x_EffPointsize gc) (truncToInt rot) gc.fontfamily st = some t →
              ∃ (pre : List Rcd) (emr : EMF.S_EXTTEXTOUTW),
                (TextUTF8 x y s rot hadj gc st).written
                    = st.written ++ pre ++ [Rcd.S_EXTTEXTOUTW emr]
                  ∧ emr.emrtext.str = utf16Encode cps
                  ∧ emr.emrtext.nChars = utf16Units cps) := by
  obtain ⟨cps, hsc, hs⟩ := h
  have hgo : utf8Go s 0 0 0 = some cps := by rw [hs]; exact utf8Go_complete cps hsc
  have hconv : iConvUTF8toUTF16LE s = some (utf16Encode cps) := by
    rw [iConv_eq, hgo]; rfl
  have hlen := utf16Encode_length cps
  have hle : (utf16Encode cps).length ≤ 2 * s.length := by
    rw [hs]; exact utf16Encode_le cps
  refine ⟨cps, hs, hsc, hconv, by omega, hle, by omega, by omega, ?_⟩
  intro x y rot hadj gc st t hfont
  obtain ⟨pre, _, hcase⟩ := TextUTF8_written x y s rot hadj gc st
  rcases hcase with ⟨_, utf16, emr, _, h2, h3, h4, _, h5⟩ | ⟨hbad, _⟩
  · rw [hconv] at h2
    simp only [Option.some.injEq] at h2
    subst h2
    exact ⟨pre, emr, h5, h3, by rw [h4]; omega⟩
  · rcases hbad with hb | hb
    · rw [hfont] at hb
      exact absurd hb (by simp)
    · rw [hconv] at hb
      exact absurd hb (by simp)

/-- C25, witness: the two bytes of "é" (U+00E9) and the four bytes of
U+1F600. -/
theorem iConv_length_witness :
    ValidUTF8 [0xC3, 0xA9, 0xF0, 0x9F, 0x98, 0x80] ∧
    ∃ cps : List Nat,
      [0xC3, 0xA9, 0xF0, 0x9F, 0x98, 0x80] = utf8Encode cps ∧ (∀ cp ∈ cps, IsScalar cp)
        ∧ iConvUTF8toUTF16LE [0xC3, 0xA9, 0xF0, 0x9F, 0x98, 0x80] = some (utf16Encode cps)
        ∧ (utf16Encode cps).length % 2 = 0
        ∧ (utf16Encode cps).length ≤ 2 * [0xC3, 0xA9, 0xF0, 0x9F, 0x98, 0x80].length
        ∧ [0xC3, 0xA9, 0xF0, 0x9F, 0x98, 0x80].length * 2
            - ([0xC3, 0xA9, 0xF0, 0x9F, 0x98, 0x80].length * 2 - (utf16Encode cps).length)
            = (utf16Encode cps).length
        ∧ (utf16Encode cps).length / 2 = utf16Units cps
        ∧ (∀ (x y rot hadj : ℚ) (gc : GEcontext) (st t : CDevEMF),
            x_SetFont gc.fontface (x_EffPointsize gc) (truncToInt rot) gc.fontfamily st = some t →
              ∃ (pre : List Rcd) (emr : EMF.S_EXTTEXTOUTW),
                (TextUTF8 x y [0xC3, 0xA9, 0xF0, 0x9F, 0x98, 0x80] rot hadj gc st).written
                    = st.written ++ pre ++ [Rcd.S_EXTTEXTOUTW emr]
                  ∧ emr.emrtext.str = utf16Encode cps
                  ∧ emr.emrtext.nChars = utf16Units cps) :=
  ⟨⟨[0xE9, 0x1F600], by simp [IsScalar], by decide⟩,
    iConv_length [0xC3, 0xA9, 0xF0, 0x9F, 0x98, 0x80]
      ⟨[0xE9, 0x1F600], by simp [IsScalar], by decide⟩⟩

/-! ## C19: the text colour in effect -/

/-- C19, the divergence: the first `TextUTF8` call of a document with the
opaque white text colour (`0xFFFFFFFF`, the `int` -1): the stream ends with the
font creation, its selection, the text alignment and the text record; it has no
set-text-color record at all, while the same call with opaque black writes one
before the text record. -/
theorem TextUTF8_white_first :
    R_OPAQUE (-1) = true
      ∧ (R_RED (-1), R_GREEN (-1), R_BLUE (-1)) = (255, 255, 255)
      ∧ (session false [65, 114, 105, 97, 108] 10160 7620
          [Op.TextUTF8 0 0 [65] 0 0 { gcBlack with col := -1 }]).written.map Rcd.iType
          = [1, 18, 17, 82, 37, 22, 84]
      ∧ (session false [65, 114, 105, 97, 108] 10160 7620
          [Op.TextUTF8 0 0 [65] 0 0 { gcBlack with col := -1 }]).written.filterMap Rcd.textColor
          = []
      ∧ (session false [65, 114, 105, 97, 108] 10160 7620
          [Op.TextUTF8 0 0 [65] 0 0 gcBlack]).written.map Rcd.iType
          = [1, 18, 17, 82, 37, 22, 24, 84] := by
  decide!

/-! ## C21: what `Close` changes -/

theorem patch_getElem? (f data : List Nat) (hf : 60 ≤ f.length) (hd : data.length = 12)
    (k : Nat) (hk : k < 48 ∨ 60 ≤ k) : (f.take 48 ++ data ++ f.drop 60)[k]? = f[k]? := by
  have h48 : (f.take 48).length = 48 := by simp; omega
  rcases hk with hk | hk
  · rw [List.append_assoc, List.getElem?_append_left (by omega), List.getElem?_take]
    simp [hk]
  · rw [List.getElem?_append_right (by simp [hd]; omega), List.getElem?_drop]
    simp only [List.length_append, h48, hd]
    congr 1
    omega

theorem patch_window (f data : List Nat) (hf : 60 ≤ f.length) (hd : data.length = 12) :
    ((f.take 48 ++ data ++ f.drop 60).drop 48).take 12 = data := by
  have h48 : (f.take 48).length = 48 := by simp; omega
  have e1 := List.drop_left (f.take 48) (data ++ f.drop 60)
  rw [h48] at e1
  have e2 := List.take_left data (f.drop 60)
  rw [hd] at e2
  rw [List.append_assoc, e1, e2]

/-- C21: `Close` after a session appends exactly one record, the terminator
with palette count 0 and palette offset 0, and then replaces exactly the 12
bytes at the offsets 48..59 by the three little-endian 32-bit values of the
stream length, the record count and `m_LastHandle + 1` (the last one as the
header field `nHandles` of `nHandlesBits` bits holds it): the stream keeps the
length it has after the terminator, and every byte at another offset, in
particular every other byte written before `Close`, stays as it is. -/
theorem Close_frame (userLty : Bool) (family : List Nat) (width height : Int)
    (ops : List Op) (nHandlesBits : Nat) :
    (Close nHandlesBits (session userLty family width height ops)).written
        = (session userLty family width height ops).written
            ++ [Rcd.S_EOF { nPalEntries := 0, offPalEntries := 0, nSizeLast := 20 }]
      ∧ (Close nHandlesBits (session userLty family width height ops)).m_NumRecords
          = (session userLty family width height ops).m_NumRecords + 1
      ∧ (Close nHandlesBits (session userLty family width height ops)).m_File
          = ((session userLty family width height ops).m_File ++ frameOf eofRecord).take 48
            ++ (TUInt4 ((session userLty family width height ops).m_File.length + 20)
              ++ TUInt4 ((session userLty family width height ops).m_NumRecords + 1)
              ++ TUInt4 (((session userLty family width height ops).m_LastHandle + 1)
                  % 2 ^ nHandlesBits))
            ++ ((session userLty family width height ops).m_File ++ frameOf eofRecord).drop 60
      ∧ (Close nHandlesBits (session userLty family width height ops)).m_File.length
          = ((session userLty family width height ops).m_File ++ frameOf eofRecord).length
      ∧ (Close nHandlesBits (session userLty family width height ops)).m_File.length
          = (session userLty family width height ops).m_File.length + 20
      ∧ (∀ k : Nat, k < 48 ∨ 60 ≤ k →
          (Close nHandlesBits (session userLty family width height ops)).m_File[k]?
            = ((session userLty family width height ops).m_File ++ frameOf eofRecord)[k]?)
      ∧ (∀ k : Nat, k < (session userLty family width height ops).m_File.length →
          k < 48 ∨ 60 ≤ k →
          (Close nHandlesBits (session userLty family width height ops)).m_File[k]?
            = (session userLty family width height ops).m_File[k]?)
      ∧ (((session userLty family width height ops).m_LastHandle + 1 < 2 ^ nHandlesBits) →
          ((Close nHandlesBits (session userLty family width height ops)).m_File.drop 48).take 12
            = TUInt4 ((session userLty family width height ops).m_File.length + 20)
              ++ TUInt4 ((session userLty family width height ops).m_NumRecords + 1)
              ++ TUInt4 ((session userLty family width height ops).m_LastHandle + 1)) := by
  have hlen := session_file_length_ge userLty family width height ops
  generalize session userLty family width height ops = s at hlen
  have heq := Close_eq nHandlesBits s (by omega)
  have h20 := frameOf_eof_length
  have hfl : 60 ≤ (s.m_File ++ frameOf eofRecord).length := by
    rw [List.length_append]; omega
  have hdl : (TUInt4 (s.m_File.length + 20) ++ TUInt4 (s.m_NumRecords + 1)
      ++ TUInt4 ((s.m_LastHandle + 1) % 2 ^ nHandlesBits)).length = 12 := rfl
  have hfile : (Close nHandlesBits s).m_File
      = (s.m_File ++ frameOf eofRecord).take 48
        ++ (TUInt4 (s.m_File.length + 20) ++ TUInt4 (s.m_NumRecords + 1)
            ++ TUInt4 ((s.m_LastHandle + 1) % 2 ^ nHandlesBits))
        ++ (s.m_File ++ frameOf eofRecord).drop 60 := by
    rw [heq]
    simp only [closeData]
    rw [List.take_append_of_le_length (by omega), List.drop_append_of_le_length (by omega)]
  have hl : (Close nHandlesBits s).m_File.length = (s.m_File ++ frameOf eofRecord).length := by
    rw [hfile]
    simp only [List.length_append, List.length_take, List.length_drop, TUInt4_length] at hfl ⊢
    omega
  have hbytes : ∀ k : Nat, k < 48 ∨ 60 ≤ k →
      (Close nHandlesBits s).m_File[k]? = (s.m_File ++ frameOf eofRecord)[k]? := by
    intro k hk
    rw [hfile]
    exact patch_getElem? _ _ hfl hdl k hk
  refine ⟨?_, ?_, hfile, hl, ?_, hbytes, ?_, ?_⟩
  · rw [heq]; rfl
  · rw [heq]
  · rw [hl, List.length_append, h20]
  · intro k hk1 hk2
    rw [hbytes k hk2, List.getElem?_append_left hk1]
  · intro hfit
    rw [hfile, patch_window _ _ hfl hdl, Nat.mod_eq_of_lt hfit]

/-! ## C23: the dash array of a pen -/

theorem take_set_succ (l : List Nat) (i v : Nat) (h : i < l.length) :
    (l.set i v).take (i + 1) = l.take i ++ [v] := by
  induction l generalizing i with
  | nil => simp at h
  | cons a l ih =>
      cases i with
      | zero => simp
      | succ j =>
          simp only [List.length_cons] at h
          simp [ih j (by omega)]

theorem ltyGroup_zero (lty : Int) : ltyGroup lty 0 = lty % 16 := by
  simp [ltyGroup]

theorem ediv_sixteen_mul (a m : Int) (hm : 0 < m) : a / (16 * m) = a / 16 / m := by
  have h1 := Int.emod_add_ediv a 16
  have h2 := Int.emod_add_ediv (a / 16) m
  have h3 := Int.emod_nonneg a (show (16 : Int) ≠ 0 by norm_num)
  have h4 := Int.emod_lt_of_pos a (show (0 : Int) < 16 by norm_num)
  have h5 := Int.emod_nonneg (a / 16) (ne_of_gt hm)
  have h6 := Int.emod_lt_of_pos (a / 16) hm
  have key := (Int.ediv_emod_unique (show 0 < 16 * m by omega)
    (a := a) (r := 16 * (a / 16 % m) + a % 16) (q := a / 16 / m)).mpr
    ⟨by linear_combination 16 * h2 + h1, by omega, by omega⟩
  exact key.1

theorem ltyGroup_succ (lty : Int) (i : Nat) : ltyGroup lty (i + 1) = ltyGroup (lty / 16) i := by
  unfold ltyGroup
  rw [pow_succ', ediv_sixteen_mul _ _ (by positivity)]

/-- The count of the first loop: the groups below it are not zero, and the
group at it is zero unless the cap is reached. -/
theorem ltyNumEntries_groups (n : Nat) (lty : Int) :
    ltyNumEntries n lty ≤ n
      ∧ (∀ i < ltyNumEntries n lty, ltyGroup lty i ≠ 0)
      ∧ (ltyNumEntries n lty < n → ltyGroup lty (ltyNumEntries n lty) = 0) := by
  induction n generalizing lty with
  | zero => simp [ltyNumEntries]
  | succ n ih =>
      unfold ltyNumEntries
      split
      · rename_i h
        obtain ⟨h1, h2, h3⟩ := ih (lty / 16)
        refine ⟨by omega, ?_, ?_⟩
        · intro i hi
          cases i with
          | zero => rw [ltyGroup_zero]; exact h
          | succ j => rw [ltyGroup_succ]; exact h2 j (by omega)
        · intro hlt
          rw [ltyGroup_succ]
          exact h3 (by omega)
      · rename_i h
        refine ⟨by omega, by simp, ?_⟩
        intro _
        rw [ltyGroup_zero]
        simpa using h

/-- The dash list: as many entries as the first loop counts, the entry `i`
from the group `i`. -/
theorem ltyStyleEntries_groups (n : Nat) (lty : Int) :
    (ltyStyleEntries n lty).length = ltyNumEntries n lty
      ∧ ∀ i < ltyNumEntries n lty,
          (ltyStyleEntries n lty)[i]?
            = some (truncToInt (2540 * ((ltyGroup lty i : ℚ) / 72))).toNat := by
  induction n generalizing lty with
  | zero => simp [ltyNumEntries, ltyStyleEntries]
  | succ n ih =>
      unfold ltyNumEntries ltyStyleEntries
      split
      · rename_i h
        obtain ⟨h1, h2⟩ := ih (lty / 16)
        refine ⟨by simp [h1], ?_⟩
        intro i hi
        cases i with
        | zero =>
            rw [ltyGroup_zero]
            simp [x_Inches2Dev]
        | succ j =>
            rw [ltyGroup_succ, List.getElem?_cons_succ]
            exact h2 j (by omega)
      · simp

/-- The fill loop on an array that has room for the entries the first loop
counts: no index is outside of the array, and the array ends as the dash list. -/
theorem ltyFill_eq (n : Nat) : ∀ (i : Nat) (lty : Int) (arr : List Nat),
    arr.length = i + ltyNumEntries n lty →
      ltyFill n i lty arr = some (arr.take i ++ ltyStyleEntries n lty) := by
  induction n with
  | zero =>
      intro i lty arr h
      simp only [ltyNumEntries, Nat.add_zero] at h
      simp [ltyFill, ltyStyleEntries, ← h]
  | succ n ih =>
      intro i lty arr h
      unfold ltyNumEntries at h
      unfold ltyFill ltyStyleEntries
      split
      · rename_i hg
        rw [if_pos hg] at h
        rw [if_pos (by omega), ih (i + 1) (lty / 16) _ (by rw [List.length_set]; omega),
          take_set_succ _ _ _ (by omega)]
        simp
      · rename_i hg
        rw [if_neg hg, Nat.add_zero] at h
        rw [← h, List.take_length, List.append_nil]

/-- C23: with custom line types on and a line colour that is not fully
transparent, for every line type `lty` (an `int`, negative values included) the
pen constructor sets `numEntries` to `k`, the number of groups of 4 bits of
`lty` that are not zero, counted from the lowest group up to the first zero
group and capped at 8. With `k = 0` the pen is solid and has no dash array;
otherwise it has the user style and a dash array of `k` entries, the entry `i`
being `trunc(2540 * g_i / 72)` for the group `g_i`, and the loop that fills the
array of `k` elements writes at the indices `0..k-1` only. -/
theorem SPen_dashes (gc : GEcontext) (h : R_TRANSPARENT gc.col = false) :
    (SPen gc true).elp.numEntries = ltyNumEntries 8 gc.lty
      ∧ ltyNumEntries 8 gc.lty ≤ 8
      ∧ (∀ i < ltyNumEntries 8 gc.lty, ltyGroup gc.lty i ≠ 0)
      ∧ (ltyNumEntries 8 gc.lty < 8 → ltyGroup gc.lty (ltyNumEntries 8 gc.lty) = 0)
      ∧ (ltyNumEntries 8 gc.lty = 0 →
          (SPen gc true).styleEntries = []
            ∧ (SPen gc true).elp.penStyle
                = EMF.ePS_GEOMETRIC ||| EMF.ePS_SOLID ||| penEndCap gc.lend ||| penJoin gc.ljoin)
      ∧ (ltyNumEntries 8 gc.lty ≠ 0 →
          (SPen gc true).elp.penStyle
              = EMF.ePS_GEOMETRIC ||| EMF.ePS_USERSTYLE ||| penEndCap gc.lend
                  ||| penJoin gc.ljoin
            ∧ (SPen gc true).styleEntries.length = ltyNumEntries 8 gc.lty
            ∧ (∀ i < ltyNumEntries 8 gc.lty,
                (SPen gc true).styleEntries[i]?
                  = some (truncToInt (2540 * (ltyGroup gc.lty i : ℚ) / 72)).toNat)
            ∧ ltyFill 8 0 gc.lty (List.replicate (ltyNumEntries 8 gc.lty) 0)
                = some (SPen gc true).styleEntries) := by
  obtain ⟨g1, g2, g3⟩ := ltyNumEntries_groups 8 gc.lty
  obtain ⟨l1, l2⟩ := ltyStyleEntries_groups 8 gc.lty
  refine ⟨by simp [SPen, h], g1, g2, g3, ?_, ?_⟩
  · intro h0
    simp [SPen, h, h0]
  · intro h0
    have hs : (SPen gc true).styleEntries = ltyStyleEntries 8 gc.lty := by
      simp [SPen, h, h0]
    refine ⟨by simp [SPen, h, h0], by rw [hs, l1], ?_, ?_⟩
    · intro i hi
      rw [hs, l2 i hi, mul_div_assoc]
    · rw [hs, ltyFill_eq 8 0 gc.lty _ (by simp)]
      simp

/-- C23, witness: the opaque black pen with the dashed line type `0x44`. -/
theorem SPen_dashes_witness :
    R_TRANSPARENT ({ gcBlack with lty := 68 } : GEcontext).col = false ∧
    (SPen ({ gcBlack with lty := 68 } : GEcontext) true).elp.numEntries = ltyNumEntries 8 ({ gcBlack with lty := 68 } : GEcontext).lty
      ∧ ltyNumEntries 8 ({ gcBlack with lty := 68 } : GEcontext).lty ≤ 8
      ∧ (∀ i < ltyNumEntries 8 ({ gcBlack with lty := 68 } : GEcontext).lty, ltyGroup ({ gcBlack with lty := 68 } : GEcontext).lty i ≠ 0)
      ∧ (ltyNumEntries 8 ({ gcBlack with lty := 68 } : GEcontext).lty < 8 → ltyGroup ({ gcBlack with lty := 68 } : GEcontext).lty (ltyNumEntries 8 ({ gcBlack with lty := 68 } : GEcontext).lty) = 0)
      ∧ (ltyNumEntries 8 ({ gcBlack with lty := 68 } : GEcontext).lty = 0 →
          (SPen ({ gcBlack with lty := 68 } : GEcontext) true).styleEntries = []
            ∧ (SPen ({ gcBlack with lty := 68 } : GEcontext) true).elp.penStyle
                = EMF.ePS_GEOMETRIC ||| EMF.ePS_SOLID ||| penEndCap ({ gcBlack with lty := 68 } : GEcontext).lend ||| penJoin ({ gcBlack with lty := 68 } : GEcontext).ljoin)
      ∧ (ltyNumEntries 8 ({ gcBlack with lty := 68 } : GEcontext).lty ≠ 0 →
          (SPen ({ gcBlack with lty := 68 } : GEcontext) true).elp.penStyle
              = EMF.ePS_GEOMETRIC ||| EMF.ePS_USERSTYLE ||| penEndCap ({ gcBlack with lty := 68 } : GEcontext).lend
                  ||| penJoin ({ gcBlack with lty := 68 } : GEcontext).ljoin
            ∧ (SPen ({ gcBlack with lty := 68 } : GEcontext) true).styleEntries.length = ltyNumEntries 8 ({ gcBlack with lty := 68 } : GEcontext).lty
            ∧ (∀ i < ltyNumEntries 8 ({ gcBlack with lty := 68 } : GEcontext).lty,
                (SPen ({ gcBlack with lty := 68 } : GEcontext) true).styleEntries[i]?
                  = some (truncToInt (2540 * (ltyGroup ({ gcBlack with lty := 68 } : GEcontext).lty i : ℚ) / 72)).toNat)
            ∧ ltyFill 8 0 ({ gcBlack with lty := 68 } : GEcontext).lty (List.replicate (ltyNumEntries 8 ({ gcBlack with lty := 68 } : GEcontext).lty) 0)
                = some (SPen ({ gcBlack with lty := 68 } : GEcontext) true).styleEntries) :=
  ⟨by decide, SPen_dashes { gcBlack with lty := 68 } (by decide)⟩

/-! ## C24: font metrics -/

theorem x_LoadFont_step (face : Int) (size : ℚ) (rot : Int) (family : List Nat)
    (s s1 : CDevEMF) (font : EMF.SFont)
    (h : x_LoadFont face size rot family s = some (s1, font)) :
    FontStep s s1
      ∧ ∃ newFont : EMF.SFont,
          SFont face (x_Inches2Dev (size / 72)) rot
              (if family = [] then s.m_DefaultFontFamily else family) = some newFont
            ∧ (s.m_Fonts.find? (fontEquiv newFont) ≠ none → s1 = s) := by
  unfold x_LoadFont at h
  simp only at h
  split at h
  · exact absurd h (by simp)
  · rename_i newFont hf
    split at h
    · rename_i hfind
      simp only [Option.some.injEq, Prod.mk.injEq] at h
      refine ⟨Or.inr ⟨newFont, hfind, h.1.symm⟩, newFont, hf, ?_⟩
      intro hne
      exact absurd hfind hne
    · simp only [Option.some.injEq, Prod.mk.injEq] at h
      exact ⟨Or.inl h.1.symm, newFont, hf, fun _ => h.1.symm⟩

theorem FontStep.facts {s t : CDevEMF} (h : FontStep s t) :
    t.m_CurrFont = s.m_CurrFont ∧ t.m_CurrPen = s.m_CurrPen ∧ t.m_CurrBrush = s.m_CurrBrush
      ∧ t.m_CurrTextCol = s.m_CurrTextCol ∧ t.m_CurrHadj = s.m_CurrHadj
      ∧ t.m_Pens = s.m_Pens ∧ t.m_Brushes = s.m_Brushes
      ∧ ∃ rs : List Rcd, t.written = s.written ++ rs
          ∧ (∀ r ∈ rs, ∃ f, r = Rcd.SFont f)
          ∧ t.m_LastHandle = s.m_LastHandle + rs.length
          ∧ t.m_Fonts.length = s.m_Fonts.length + rs.length
          ∧ t.m_NumRecords = s.m_NumRecords + rs.length := by
  rcases h with rfl | ⟨font, _, rfl⟩
  · exact ⟨rfl, rfl, rfl, rfl, rfl, rfl, rfl, [], by simp, by simp, rfl, rfl, rfl⟩
  · rw [x_WriteRcd_eq]
    exact ⟨rfl, rfl, rfl, rfl, rfl, rfl, rfl, [_], rfl, by simp, rfl, by simp, rfl⟩

theorem StrWidth_step (gc : GEcontext) (s : CDevEMF) : FontStep s (StrWidth gc s) := by
  unfold StrWidth
  split
  · exact Or.inl rfl
  · rename_i s1 font h
    exact (x_LoadFont_step _ _ _ _ s s1 font h).1

theorem MetricInfo_step (hasChar : Bool) (gc : GEcontext) (s : CDevEMF) :
    ∃ mid, FontStep s mid ∧ FontStep mid (MetricInfo hasChar gc s) := by
  unfold MetricInfo
  split
  · exact ⟨s, Or.inl rfl, Or.inl rfl⟩
  · rename_i s1 font h
    have h1 := (x_LoadFont_step _ _ _ _ s s1 font h).1
    split
    · split
      · exact ⟨s1, h1, Or.inl rfl⟩
      · rename_i s2 font2 h2
        exact ⟨s1, h1, (x_LoadFont_step _ _ _ _ s1 s2 font2 h2).1⟩
    · exact ⟨s1, h1, Or.inl rfl⟩

theorem fonts_not_selected (rs : List Rcd) (h : ∀ r ∈ rs, ∃ f, r = Rcd.SFont f) :
    rs.filterMap Rcd.selectedHandle = [] := by
  induction rs with
  | nil => rfl
  | cons r rs ih =>
      obtain ⟨f, rfl⟩ := h _ (List.mem_cons_self _ _)
      simp only [List.filterMap_cons, Rcd.selectedHandle]
      exact ih (fun q hq => h q (List.mem_cons_of_mem _ hq))

theorem FontStep.fontsOnly {s t : CDevEMF} (h : FontStep s t) : FontsOnly s t := by
  obtain ⟨h1, h2, h3, h4, h5, h6, h7, rs, h8, h9, h10, h11, h12⟩ := h.facts
  exact ⟨h1, h2, h3, h4, h5, h6, h7, rs, h8, h9, fonts_not_selected rs h9, h10, h11, h12⟩

theorem FontsOnly.chain {s t u : CDevEMF} (h1 : FontsOnly s t) (h2 : FontsOnly t u) :
    FontsOnly s u := by
  obtain ⟨r1, a1, a2, a3, a4, a5, a6⟩ := h1.records
  obtain ⟨r2, b1, b2, b3, b4, b5, b6⟩ := h2.records
  refine ⟨h2.font.trans h1.font, h2.pen.trans h1.pen, h2.brush.trans h1.brush,
    h2.textCol.trans h1.textCol, h2.hadj.trans h1.hadj, h2.pens.trans h1.pens,
    h2.brushes.trans h1.brushes, r1 ++ r2, by rw [b1, a1, List.append_assoc], ?_, ?_, ?_, ?_, ?_⟩
  · intro r hr
    rcases List.mem_append.mp hr with h | h
    · exact a2 r h
    · exact b2 r h
  · rw [List.filterMap_append, a3, b3]; rfl
  · rw [b4, a4, List.length_append]; omega
  · rw [b5, a5, List.length_append]; omega
  · rw [b6, a6, List.length_append]; omega

/-- C24: `StrWidth` and `MetricInfo` are one font lookup, and for `MetricInfo`
possibly a second one: each lookup changes nothing when its font is in the
cache, and otherwise gives the font the next handle, puts it into the cache and
writes its creation record, nothing else. So neither call writes a
select-object record or changes an active handle, the text colour or the
alignment, and `StrWidth` (and `MetricInfo` when no second lookup follows)
leaves the device as it is when the font is in the cache. -/
theorem metrics_fonts_only (hasChar : Bool) (gc : GEcontext) (s : CDevEMF) :
    FontStep s (StrWidth gc s)
      ∧ (∃ mid, FontStep s mid ∧ FontStep mid (MetricInfo hasChar gc s))
      ∧ FontsOnly s (StrWidth gc s)
      ∧ FontsOnly s (MetricInfo hasChar gc s)
      ∧ (∀ newFont : EMF.SFont,
          SFont (max 1 (min 5 gc.fontface)) (x_Inches2Dev (x_EffPointsize gc / 72)) 0
              (if gc.fontfamily = [] then s.m_DefaultFontFamily else gc.fontfamily)
            = some newFont →
          s.m_Fonts.find? (fontEquiv newFont) ≠ none →
            StrWidth gc s = s
              ∧ ((hasChar = true ∨ gc.fontface ≠ 5) → MetricInfo hasChar gc s = s)) := by
  obtain ⟨mid, m1, m2⟩ := MetricInfo_step hasChar gc s
  refine ⟨StrWidth_step gc s, ⟨mid, m1, m2⟩, (StrWidth_step gc s).fontsOnly,
    m1.fontsOnly.chain m2.fontsOnly, ?_⟩
  intro newFont hnew hfind
  have hload : ∀ (s1 : CDevEMF) (font : EMF.SFont),
      x_LoadFont (max 1 (min 5 gc.fontface)) (x_EffPointsize gc) 0 gc.fontfamily s
        = some (s1, font) → s1 = s := by
    intro s1 font h
    obtain ⟨_, nf, hnf, hs1⟩ := x_LoadFont_step _ _ _ _ s s1 font h
    rw [hnew] at hnf
    simp only [Option.some.injEq] at hnf
    subst hnf
    exact hs1 hfind
  constructor
  · unfold StrWidth
    split
    · rfl
    · rename_i s1 font h
      exact hload s1 font h
  · intro hc
    unfold MetricInfo
    split
    · rfl
    · rename_i s1 font h
      have hcond : ¬ ((!hasChar) = true ∧ gc.fontface = 5) := by
        rcases hc with hc | hc
        · simp [hc]
        · simp [hc]
      rw [if_neg hcond]
      exact hload s1 font h

/-! ## More handles than the header field holds -/

theorem runOps_append (a b : List Op) (s : CDevEMF) :
    runOps (a ++ b) s = runOps b (runOps a s) := by
  induction a generalizing s with
  | nil => rfl
  | cons op a ih => simp [runOps, ih]

theorem SPen_color (gc : GEcontext) (u : Bool) :
    (SPen gc u).elp.color = ⟨R_RED gc.col, R_GREEN gc.col, R_BLUE gc.col⟩ := by
  unfold SPen
  split <;> rfl

theorem penOfColour_inj (i j : Nat) (hi : i < 16777216) (hj : j < 16777216) (u v : Bool)
    (h : (SPen (penOfColour i) u).elp.color = (SPen (penOfColour j) v).elp.color) : i = j := by
  rw [SPen_color, SPen_color] at h
  simp only [penOfColour, R_RED, R_GREEN, R_BLUE, EMF.SColorRef.mk.injEq] at h
  omega

/-- A session of `n` polylines with `n` different line colours creates `n`
pens: the last handle is `n`. -/
theorem manyPens_lastHandle (u : Bool) (f : List Nat) (w h : Int) (n : Nat)
    (hn : n ≤ 16777216) :
    (session u f w h (manyPens n)).m_LastHandle = n
      ∧ ∀ p ∈ (session u f w h (manyPens n)).m_Pens,
          ∃ j, j < n ∧ ∃ v, p.elp.color = (SPen (penOfColour j) v).elp.color := by
  induction n with
  | zero =>
      obtain ⟨_, _, _, hp, _, _, _, hl, _⟩ := Open_fresh u f w h
      have e : session u f w h (manyPens 0) = (Open true w h (CDevEMF.new u f)).1 := rfl
      rw [e, hl, hp]
      exact ⟨rfl, by simp⟩
  | succ n ih =>
      obtain ⟨ih1, ih2⟩ := ih (by omega)
      have e : session u f w h (manyPens (n + 1))
          = Polyline 0 [] [] (penOfColour n) (session u f w h (manyPens n)) := by
        unfold session manyPens
        rw [List.range_succ, List.map_append, runOps_append]
        rfl
      generalize session u f w h (manyPens n) = s at e ih1 ih2
      rw [e]
      have hpoly : (Polyline 0 [] [] (penOfColour n) s).m_LastHandle
            = (x_SetLinetype (penOfColour n) s).m_LastHandle
          ∧ (Polyline 0 [] [] (penOfColour n) s).m_Pens
            = (x_SetLinetype (penOfColour n) s).m_Pens := by
        unfold Polyline
        simp [x_WriteRcd_eq]
      obtain ⟨_, _, _, _, _, _, _, _, _, hpens, _, _, hlast, _⟩ :=
        x_SetLinetype_facts (penOfColour n) s
      obtain ⟨_, _, _, hcase⟩ := x_SetLinetype_intern_facts (penOfColour n) s
      rw [hpoly.1, hpoly.2, hlast, hpens]
      rcases hcase with ⟨_, _, _, h4, h5⟩ | ⟨i, hfind, _⟩
      · rw [h4, h5, ih1]
        refine ⟨rfl, ?_⟩
        intro p hp
        rcases List.mem_append.mp hp with hp1 | hp1
        · obtain ⟨j, hj, v, hv⟩ := ih2 p hp1
          exact ⟨j, by omega, v, hv⟩
        · rw [List.mem_singleton] at hp1
          subst hp1
          exact ⟨n, by omega, s.m_UseUserLty, rfl⟩
      · exfalso
        have hmem := List.mem_of_find?_eq_some hfind
        have heq := List.find?_some hfind
        simp only [penEquiv, Bool.and_eq_true, beq_iff_eq] at heq
        obtain ⟨j, hj, v, hv⟩ := ih2 i hmem
        have hc : (SPen (penOfColour n) s.m_UseUserLty).elp.color
            = (SPen (penOfColour j) v).elp.color := by
          rw [← hv, heq.1]
        have := penOfColour_inj n j (by omega) (by omega) _ _ hc
        omega

/-- The four bytes at the offsets 56..59 of the stream that `Close` leaves. -/
theorem Close_handle_bytes (nHandlesBits : Nat) (s : CDevEMF) (hf : 60 ≤ s.m_File.length) :
    ((Close nHandlesBits s).m_File.drop 56).take 4
      = TUInt4 ((s.m_LastHandle + 1) % 2 ^ nHandlesBits) := by
  rw [Close_eq nHandlesBits s hf]
  simp only [closeData]
  have h48 : (s.m_File.take 48).length = 48 := by simp; omega
  have e : s.m_File.take 48 ++ (TUInt4 (s.m_File.length + 20) ++ TUInt4 (s.m_NumRecords + 1)
        ++ TUInt4 ((s.m_LastHandle + 1) % 2 ^ nHandlesBits))
        ++ (s.m_File.drop 60 ++ frameOf eofRecord)
      = (s.m_File.take 48 ++ TUInt4 (s.m_File.length + 20) ++ TUInt4 (s.m_NumRecords + 1))
        ++ (TUInt4 ((s.m_LastHandle + 1) % 2 ^ nHandlesBits)
          ++ (s.m_File.drop 60 ++ frameOf eofRecord)) := by
    simp [List.append_assoc]
  have hl : (s.m_File.take 48 ++ TUInt4 (s.m_File.length + 20)
      ++ TUInt4 (s.m_NumRecords + 1)).length = 56 := by
    simp only [List.length_append, h48, TUInt4_length]
  rw [e]
  have e1 := List.drop_left (s.m_File.take 48 ++ TUInt4 (s.m_File.length + 20)
      ++ TUInt4 (s.m_NumRecords + 1))
    (TUInt4 ((s.m_LastHandle + 1) % 2 ^ nHandlesBits)
          ++ (s.m_File.drop 60 ++ frameOf eofRecord))
  rw [hl] at e1
  rw [e1]
  exact List.take_left (TUInt4 ((s.m_LastHandle + 1) % 2 ^ nHandlesBits)) _

/-- C3, counterexample: after `Open` and 65535 polylines with 65535 different
line colours the last handle is 65535, and `Close`, with the 16-bit handle
count of the EMF header, writes the handle count 0, not 65536. -/
theorem handles_count_wraps :
    (session false [] 10160 7620 (manyPens 65535)).m_LastHandle = 65535
      ∧ readUInt4 (Close 16 (session false [] 10160 7620 (manyPens 65535))).m_File 56 = 0
      ∧ readUInt4 (Close 16 (session false [] 10160 7620 (manyPens 65535))).m_File 56
          ≠ (session false [] 10160 7620 (manyPens 65535)).m_LastHandle + 1 := by
  have hl := (manyPens_lastHandle false [] 10160 7620 65535 (by decide)).1
  have hlen := session_file_length_ge false [] 10160 7620 (manyPens 65535)
  obtain ⟨_, _, _, h56⟩ := Close_fields 16 (session false [] 10160 7620 (manyPens 65535))
    (by omega)
  rw [hl] at h56
  have e : (65535 + 1) % 2 ^ 16 % 4294967296 = 0 := by decide
  rw [e] at h56
  refine ⟨hl, h56, ?_⟩
  rw [h56, hl]
  decide

/-- C21, counterexample: after `Open` and 65535 polylines with 65535
different line colours, `Close` with the 16-bit handle count of the EMF header
leaves the bytes 0, 0, 0, 0 at the offsets 56..59, while the little-endian
32-bit value of the last handle plus 1 is 0, 0, 1, 0. -/
theorem Close_handles_wrap :
    ((Close 16 (session false [] 10160 7620 (manyPens 65535))).m_File.drop 56).take 4
        = [0, 0, 0, 0]
      ∧ TUInt4 ((session false [] 10160 7620 (manyPens 65535)).m_LastHandle + 1)
        = [0, 0, 1, 0] := by
  have hl := (manyPens_lastHandle false [] 10160 7620 65535 (by decide)).1
  have hlen := session_file_length_ge false [] 10160 7620 (manyPens 65535)
  have hb := Close_handle_bytes 16 (session false [] 10160 7620 (manyPens 65535)) (by omega)
  rw [hl] at hb
  rw [hb, hl]
  decide

end DevEMF
